import Mathlib

/-!
Dune virtual machine: opcode handlers of `opcode.go`.

A shallow embedding of the opcode handlers `exec_ret`, `exec_clo`, `exec_try`,
`exec_tre`, `exec_cen`, `exec_fen`, `exec_trx`, `exec_trw`, `exec_div`, `exec_mod`,
`exec_add`, `exec_sub`, `exec_mul`, `exec_lst`, `exec_lse`, `exec_not`, `exec_mob`,
`exec_spa`, `exec_val`, `exec_lsh` and `exec_rsh`.

Go pointers are modelled by explicit stores: `VM.frames` holds the
`stackFrame` objects and `VM.regs` the register files (the backing arrays of
the `values` slices); `callStack`, `frameCache` and `closureRegister.values`
hold references (indices) into these stores.  A handler returns
`none` where the Go code aborts with a run-time panic and
`some (code, vm)` otherwise.

The handlers call methods of the VM that live in files which are not part of
the sources at hand (`vm.go`, `value.go`): `handle`, `runFinalizables`,
`returnFromFinally`, `WrapError`, `NewError`, `AddAllocations`, `IsNilOrEmpty`, the
string conversions and the float arithmetic are parameters, collected in `Host`;
`get`, `set`, `setPC`, `incPC`, the numeric conversions and the array constructors are
modelled from the specification.  An array object is a Go slice: a reference to a
backing array in `VM.backings` and a length.

Of the libraries the development embeds `finalizable.Close`, the methods of `libVM`
that run code, `program.write` and `program.toBytes` (`lib/runtime.go`), the router
(`lib/routing.go`: `Add`, `Match`, `GetParam`, `Reset` and the script methods), and
`NameExprColumns`, `selectColumnNames` and `AndQuery` (`lib/sqx/builder.go`), the
function `wrap` behind `errors.wrap` and `errors.public` (`lib/errors.go`),
`assert.float` (`lib/assert.go`), the property `context` of `libVM`, and `IsIdent`
(`lib/dbx/schema.go`).
-/

namespace Dune

/-! ## Values -/

/-- The type tag of a value (`Type` in the source), in the order of the specification. -/
inductive VType
  | Null | Undefined | Bool | Int | Float | Rune | String | Bytes | Array | Map
  | Object | Func | NativeFunc | Enum | Class
  deriving DecidableEq, Repr

/-- Modelled from the spec: a 64-bit IEEE-754 number (`float64`), given by its bit
pattern: bit 63 is the sign, bits 52..62 the biased exponent, bits 0..51 the fraction. -/
structure F64 where
  bits : Nat
  deriving DecidableEq, Repr

/-- The comparison `f == 0` of Go on `float64`: true exactly for `+0` and `-0`. -/
def F64.isZero (f : F64) : Bool := f.bits % 2 ^ 63 == 0

/-- The conversion `float64(i)` of a 64-bit integer, rounding to nearest, ties to even. -/
def F64.ofInt (i : Int) : F64 :=
  if i = 0 then ⟨0⟩ else
    let s : Nat := if i < 0 then 1 else 0
    let m : Nat := i.natAbs
    let e : Nat := Nat.log2 m
    if e ≤ 52 then
      ⟨s * 2 ^ 63 + (e + 1023) * 2 ^ 52 + (m * 2 ^ (52 - e) - 2 ^ 52)⟩
    else
      let sh := e - 52
      let q := m / 2 ^ sh
      let r := m % 2 ^ sh
      let half := 2 ^ (sh - 1)
      let q1 := if half < r ∨ (r = half ∧ q % 2 = 1) then q + 1 else q
      if q1 = 2 ^ 53 then ⟨s * 2 ^ 63 + (e + 1 + 1023) * 2 ^ 52⟩
      else ⟨s * 2 ^ 63 + (e + 1023) * 2 ^ 52 + (q1 - 2 ^ 52)⟩

/-- Modelled from the spec: the `Error` capability of a host object
(`Message, Public, PC, StackTrace, IsRethrow`). -/
structure Error where
  Message : String
  Public : Bool
  PC : Int
  StackTrace : List String
  IsRethrow : Bool
  deriving DecidableEq, Repr

/-- A Go value of interface type `error`: `io.EOF` or an `Error`. -/
inductive GoError
  | EOF
  | Err (e : Error)
  deriving DecidableEq, Repr

/-- A closure register: a register index and a reference to the register file
(the `values` slice) of the frame that created the closure. -/
structure closureRegister where
  register : Nat
  values : Nat
  deriving DecidableEq, Repr

/-- The `Closure` object built by `exec_clo`. -/
structure Closure where
  FuncIndex : Int
  closures : List closureRegister
  deriving DecidableEq, Repr

/-- The payload of a value of type `Object`: an `Error`, a `Closure`, or another host object. -/
inductive Obj
  | error (e : Error)
  | closure (c : Closure)
  | host (id : Nat)
  deriving DecidableEq, Repr

/-- Modelled from the spec: the tagged union `Value`.  Integers are 64-bit, runes 32-bit;
arrays and maps are handles to shared state. -/
inductive Value
  | null
  | undefined
  | bool (b : Bool)
  | int (i : Int)
  | float (f : F64)
  | rune (r : Int)
  | string (s : String)
  | bytes (b : List (Fin 256))
  | array (id : Nat)
  | map (id : Nat)
  | object (o : Obj)
  | func (i : Int)
  | nativeFunc (i : Int)
  | enum (i : Int)
  | cls (i : Int)
  deriving DecidableEq, Repr

/-- The field `Type` of a value. -/
def Value.Type : Value → VType
  | .null => .Null
  | .undefined => .Undefined
  | .bool _ => .Bool
  | .int _ => .Int
  | .float _ => .Float
  | .rune _ => .Rune
  | .string _ => .String
  | .bytes _ => .Bytes
  | .array _ => .Array
  | .map _ => .Map
  | .object _ => .Object
  | .func _ => .Func
  | .nativeFunc _ => .NativeFunc
  | .enum _ => .Enum
  | .cls _ => .Class

def NullValue : Value := .null
def UndefinedValue : Value := .undefined
def NewRune (r : Int) : Value := .rune r
def NewFloat (f : F64) : Value := .float f
def NewObject (o : Obj) : Value := .object o

/-- Two's-complement truncation to 32 bits (the Go conversion `rune(x)`). -/
def wrap32 (x : Int) : Int := (x + 2 ^ 31) % 2 ^ 32 - 2 ^ 31

/-- Modelled from the spec: `Value.ToRune` on `Rune` and `Int`, the types the handlers
call it on (`rune(x)` for an `Int`).  For the `Float` operand of line 331 of `exec_add`
the spec gives no conversion, and the model returns 0 as for the remaining types. -/
def Value.ToRune : Value → Int
  | .rune r => r
  | .int i => wrap32 i
  | _ => 0

/-- Modelled from the spec: `Value.ToFloat` (numeric widening of `Int` to `Float`). -/
def Value.ToFloat : Value → F64
  | .float f => f
  | .int i => F64.ofInt i
  | .rune r => F64.ofInt r
  | _ => ⟨0⟩

/-- Go division of two `int32`: `none` is the run-time panic "integer divide by
zero"; otherwise the quotient truncated toward zero, wrapped to 32 bits. -/
def runeDiv (a b : Int) : Option Int :=
  if b = 0 then none else some (wrap32 (Int.tdiv a b))

/-! ## Instructions and machine state -/

inductive AddressKind
  | AddrVoid | AddrLocal | AddrGlobal | AddrConstant | AddrClosure | AddrEnum
  | AddrFunc | AddrNativeFunc | AddrClass | AddrData | AddrUnresolved
  deriving DecidableEq, Repr

structure Address where
  Kind : AddressKind
  Value : Int
  deriving DecidableEq, Repr

/-- The unused operand. -/
def Void : Address := ⟨.AddrVoid, 0⟩

/-- An instruction without its opcode: the handlers receive the operands. -/
structure Instruction where
  A : Address
  B : Address
  C : Address
  deriving DecidableEq, Repr

/-- The part of `Function` that the handlers read. -/
structure Function where
  Closures : List Nat
  deriving DecidableEq, Repr

/-- An activation record.  `values` is a reference to a register file in `VM.regs`;
`finalizables` are handles of host callables. -/
structure stackFrame where
  funcIndex : Nat
  pc : Int
  retAddress : Address
  values : Nat
  closures : List closureRegister
  finalizables : List Nat
  exit : Bool
  inClosure : Bool
  deriving DecidableEq, Repr

/-- A guard of the try/catch stack. -/
structure tryCatch where
  catchPC : Int
  finallyPC : Int
  retPC : Int
  errorReg : Address
  fp : Nat
  err : Option GoError
  finallyExecuted : Bool
  deriving DecidableEq, Repr

/-- An `ArrayObject`: its field `Array` is a Go slice, given by a reference to its
backing array in `VM.backings` and its length; the capacity is the length of the
backing array. -/
structure ArrayObject where
  backing : Nat
  len : Nat
  deriving DecidableEq, Repr

/-- The state of a VM.  `frames` and `regs` are the stores behind the Go pointers;
`callStack` and `frameCache` hold references into `frames`; `globals` is a
reference into `regs`.  A value `array id` refers to the array object `arrays[id]`;
`steps` is the step counter, `Context` the field `vm.Context`. -/
structure VM where
  frames : List stackFrame
  regs : List (List Value)
  callStack : List Nat
  fp : Nat
  frameCache : List Nat
  tryCatchs : List tryCatch
  globals : Nat
  Constants : List Value
  Functions : List Function
  Error : Option GoError
  RetValue : Value
  arrays : List ArrayObject := []
  backings : List (List Value) := []
  steps : Int := 0
  Context : Value := .null
  deriving DecidableEq, Repr

def vm_next : Nat := 0
def vm_continue : Nat := 1
def vm_exit : Nat := 2

/-- The methods of the VM and of `Value` that the handlers call and whose code is not
in `opcode.go`.  `handle` and `returnFromFinally` return their Boolean result
together with the state they leave, `AddAllocations` its error (if any) together with
the state it leaves.  `NewErrorS` and `NewErrorE` are `vm.NewError` with string and
error arguments; `mapValues` lists the values of a map in the order of Go's iteration;
`enumerable` is `none` for an object without the `Enumerable` capability and otherwise
the result of its `Values()`; `fadd`, `fsub`, `fmul`, `fdiv` are the float operations. -/
structure Host where
  handle : GoError → VM → Bool × VM
  runFinalizables : Nat → VM → VM
  returnFromFinally : VM → Bool × VM
  WrapError : GoError → VM → GoError
  NewError : String → List VType → VM → GoError
  AddAllocations : Int → VM → Option GoError × VM
  Size : Value → Int
  ToString : Value → String
  TypeName : Value → String
  IsNilOrEmpty : VM → Value → Bool
  NewErrorS : String → List String → VM → GoError
  mapValues : VM → Nat → List Value
  enumerable : VM → Obj → Option (Option GoError × List Value)
  NewErrorE : String → GoError → VM → GoError
  String : Value → String
  fdiv : F64 → F64 → F64
  fadd : F64 → F64 → F64
  fsub : F64 → F64 → F64
  fmul : F64 → F64 → F64

/-- Index a Go slice with an `int`: `none` is the index-out-of-range panic. -/
def index {α : Type} (l : List α) (i : Int) : Option α :=
  if i < 0 then none else l[i.toNat]?

/-- Store into a Go slice at an `int` index: `none` is the index-out-of-range panic. -/
def store {α : Type} (l : List α) (i : Int) (a : α) : Option (List α) :=
  if i < 0 then none else if i.toNat < l.length then some (l.set i.toNat a) else none

/-- The frame object `vm.callStack[vm.fp]`. -/
def VM.frameRef (vm : VM) : Option Nat := vm.callStack[vm.fp]?

/-- The fields of the frame `vm.callStack[vm.fp]`. -/
def VM.currentFrame (vm : VM) : Option stackFrame := do
  let r ← vm.frameRef
  vm.frames[r]?

/-- Read a closure register: `c.values[c.register]`. -/
def VM.readClosure (vm : VM) (c : closureRegister) : Option Value := do
  let rf ← vm.regs[c.values]?
  rf[c.register]?

/-- Modelled from the spec: `vm.get(addr)` (section 4.1). -/
def VM.get (vm : VM) (a : Address) : Option Value :=
  match a.Kind with
  | .AddrLocal => do
      let f ← vm.currentFrame
      let rf ← vm.regs[f.values]?
      index rf a.Value
  | .AddrGlobal => do
      let rf ← vm.regs[vm.globals]?
      index rf a.Value
  | .AddrConstant => index vm.Constants a.Value
  | .AddrClosure => do
      let f ← vm.currentFrame
      let c ← index f.closures a.Value
      vm.readClosure c
  | .AddrFunc => some (.func a.Value)
  | .AddrNativeFunc => some (.nativeFunc a.Value)
  | .AddrClass => some (.cls a.Value)
  | .AddrEnum => some (.enum a.Value)
  | .AddrData => some (.int a.Value)
  | .AddrVoid => some NullValue
  | .AddrUnresolved => none

/-- Write `v` at index `i` of the register file `r`. -/
def VM.writeReg (vm : VM) (r : Nat) (i : Int) (v : Value) : Option VM := do
  let rf ← vm.regs[r]?
  let rf1 ← store rf i v
  some { vm with regs := vm.regs.set r rf1 }

/-- Modelled from the spec: `vm.set(addr, v)` (section 4.1): the writable kinds are
`Local`, `Global` and `Closure`; a write to another kind panics. -/
def VM.set (vm : VM) (a : Address) (v : Value) : Option VM :=
  match a.Kind with
  | .AddrLocal => do
      let f ← vm.currentFrame
      vm.writeReg f.values a.Value v
  | .AddrGlobal => vm.writeReg vm.globals a.Value v
  | .AddrClosure => do
      let f ← vm.currentFrame
      let c ← index f.closures a.Value
      vm.writeReg c.values c.register v
  | _ => none

/-- Replace the frame object `r` in the store. -/
def VM.putFrame (vm : VM) (r : Nat) (f : stackFrame) : VM :=
  { vm with frames := vm.frames.set r f }

/-- Modelled from the spec: `vm.setPC(pc)` sets the pc of the current frame. -/
def VM.setPC (vm : VM) (pc : Int) : Option VM := do
  let r ← vm.frameRef
  let f ← vm.frames[r]?
  some (vm.putFrame r { f with pc := pc })

/-- Modelled from the spec: `vm.incPC(n)` advances the pc of the current frame by `n`. -/
def VM.incPC (vm : VM) (n : Int) : Option VM := do
  let r ← vm.frameRef
  let f ← vm.frames[r]?
  some (vm.putFrame r { f with pc := f.pc + n })

/-- The cell `(register file, index)` that `vm.set(a, _)` writes. -/
def VM.cell (vm : VM) (a : Address) : Option (Nat × Int) :=
  match a.Kind with
  | .AddrLocal => do
      let f ← vm.currentFrame
      some (f.values, a.Value)
  | .AddrGlobal => some (vm.globals, a.Value)
  | .AddrClosure => do
      let f ← vm.currentFrame
      let c ← index f.closures a.Value
      some (c.values, (c.register : Int))
  | _ => none

/-! ## Handlers -/

/-- The recurring tail `if vm.handle(err) { return vm_continue } else { return vm_exit }`. -/
def raise (h : Host) (err : GoError) (vm : VM) : Option (Nat × VM) :=
  let r := h.handle err vm
  some (if r.1 then vm_continue else vm_exit, r.2)

/-- The error `vm.NewError("Invalid operation on %v and %v", lh.Type, rh.Type)`. -/
def invalidOperation (h : Host) (lh rh : Value) (vm : VM) : GoError :=
  h.NewError "Invalid operation on %v and %v" [lh.Type, rh.Type] vm

/-- The error `vm.NewError("Attempt to divide by zero")`. -/
def divideByZero (h : Host) (vm : VM) : GoError :=
  h.NewError "Attempt to divide by zero" [] vm

/-- The handler `exec_div` (opcode.go, lines 712-767). -/
def exec_div (h : Host) (instr : Instruction) (vm : VM) : Option (Nat × VM) := do
  let lh ← vm.get instr.B
  let rh ← vm.get instr.C
  if lh.Type = .Rune ∨ rh.Type = .Rune then
    if ¬ (lh.Type = .Int ∨ lh.Type = .Rune) then
      raise h (invalidOperation h lh rh vm) vm
    else if ¬ (rh.Type = .Int ∨ rh.Type = .Rune) then
      raise h (invalidOperation h lh rh vm) vm
    else do
      let q ← runeDiv lh.ToRune rh.ToRune
      let vm1 ← vm.set instr.A (NewRune q)
      some (vm_next, vm1)
  else
    if ¬ (lh.Type = .Int ∨ lh.Type = .Float) then
      raise h (invalidOperation h lh rh vm) vm
    else if ¬ (rh.Type = .Int ∨ rh.Type = .Float) then
      raise h (invalidOperation h lh rh vm) vm
    else
      let rf := rh.ToFloat
      if rf.isZero then
        raise h (divideByZero h vm) vm
      else do
        let vm1 ← vm.set instr.A (NewFloat (h.fdiv lh.ToFloat rf))
        some (vm_next, vm1)

/-- The error that `exec_trw` builds from the thrown value (lines 1422-1436). -/
def thrownError (h : Host) (v : Value) (vm : VM) : GoError :=
  match v with
  | .object (.error e) =>
      if e.IsRethrow then .Err e else h.WrapError (.Err e) vm
  | _ => h.NewError (h.String v) [] vm

/-- The handler `exec_trw` (lines 1419-1462). -/
def exec_trw (h : Host) (instr : Instruction) (vm : VM) : Option (Nat × VM) := do
  let v ← vm.get instr.A
  let err := thrownError h v vm
  match vm.tryCatchs.getLast? with
  | none => do
      let currentFrame ← vm.frameRef
      let vm1 := h.runFinalizables currentFrame vm
      some (vm_exit, { vm1 with Error := some err })
  | some try_ =>
      let vm1 := if try_.finallyExecuted then
        { vm with tryCatchs := vm.tryCatchs.dropLast } else vm
      raise h err vm1

/-- The handler `exec_try` (lines 1464-1489). -/
def exec_try (instr : Instruction) (vm : VM) : Option (Nat × VM) :=
  let catchPC : Int := if instr.A.Kind = .AddrVoid then -1 else instr.A.Value
  let finallyPC : Int := if instr.C.Kind = .AddrData then instr.C.Value else -1
  let try_ : tryCatch :=
    { catchPC := catchPC, finallyPC := finallyPC, retPC := -1, errorReg := instr.B,
      fp := vm.fp, err := none, finallyExecuted := false }
  some (vm_next, { vm with tryCatchs := vm.tryCatchs ++ [try_] })

/-- The handler `exec_trx` (lines 1491-1513). -/
def exec_trx (vm : VM) : Option (Nat × VM) :=
  match vm.tryCatchs.getLast? with
  | some try_ =>
      if try_.finallyPC = -1 then
        some (vm_next, { vm with tryCatchs := vm.tryCatchs.dropLast })
      else do
        let f ← vm.currentFrame
        let vm1 : VM :=
          { vm with tryCatchs := vm.tryCatchs.dropLast ++ [{ try_ with retPC := f.pc + 1 }] }
        let vm2 ← vm1.setPC try_.finallyPC
        some (vm_continue, vm2)
  | none => some (vm_continue, vm)

/-- The handler `exec_tre` (lines 1515-1524). -/
def exec_tre (vm : VM) : Option (Nat × VM) := do
  let try_ ← vm.tryCatchs.getLast?
  if try_.finallyPC = -1 then
    some (vm_next, { vm with tryCatchs := vm.tryCatchs.dropLast })
  else
    some (vm_next, vm)

/-- The handler `exec_cen` (lines 1526-1532): `vm.tryCatchs[:l]` with `l = len - 1`
panics on the empty stack. -/
def exec_cen (vm : VM) : Option (Nat × VM) :=
  if vm.tryCatchs = [] then none
  else some (vm_next, { vm with tryCatchs := vm.tryCatchs.dropLast })

/-- The handler `exec_fen` (lines 1534-1556). -/
def exec_fen (h : Host) (vm : VM) : Option (Nat × VM) := do
  let try_ ← vm.tryCatchs.getLast?
  let vm1 : VM := { vm with tryCatchs := vm.tryCatchs.dropLast }
  match try_.err with
  | some e => do
      let vm2 ← vm1.incPC 1
      raise h e vm2
  | none =>
      if try_.retPC ≠ -1 then do
        let vm2 ← vm1.setPC try_.retPC
        some (vm_continue, vm2)
      else
        some (vm_next, vm1)

/-- The handler `exec_clo` (lines 1630-1658).  The instruction that
`vm.instruction()` fetches is passed as `instr`. -/
def exec_clo (instr : Instruction) (vm : VM) : Option (Nat × VM) := do
  let funcIndex := instr.B.Value
  let r ← vm.frameRef
  let frame ← vm.frames[r]?
  let f ← vm.Functions[frame.funcIndex]?
  let vm1 := vm.putFrame r { frame with inClosure := true }
  let c : Closure :=
    { FuncIndex := funcIndex,
      closures := frame.closures ++ f.Closures.map (fun reg => ⟨reg, frame.values⟩) }
  let vm2 ← vm1.set instr.A (NewObject (.closure c))
  some (vm_next, vm2)

/-- Lines 1764-1771 of `exec_ret`: a frame that no closure captured is cleared and
appended to `frameCache`. -/
def recycle (currentFrame : Nat) (vm : VM) : Option VM := do
  let f ← vm.frames[currentFrame]?
  if f.inClosure then some vm
  else
    let rf := (vm.regs[f.values]?).getD []
    let vm1 := vm.putFrame currentFrame { f with finalizables := [], closures := [] }
    some { vm1 with
      regs := vm1.regs.set f.values (rf.map (fun _ => UndefinedValue))
      frameCache := vm1.frameCache ++ [currentFrame] }

/-- The handler `exec_ret` (lines 1732-1786). -/
def exec_ret (h : Host) (instr : Instruction) (vm : VM) : Option (Nat × VM) := do
  let currentFrame ← vm.frameRef
  let r := h.returnFromFinally vm
  if r.1 then some (vm_continue, r.2)
  else
    let vm1 := r.2
    let vm2 := if vm1.fp > 0 then h.runFinalizables currentFrame vm1 else vm1
    let retValue ← (if instr.A ≠ Void then vm2.get instr.A else some NullValue)
    if vm2.fp = 0 then
      some (vm_exit, { vm2 with Error := some .EOF, RetValue := retValue })
    else if vm2.callStack.length < vm2.fp then none
    else do
      let vm3 : VM := { vm2 with callStack := vm2.callStack.take vm2.fp, fp := vm2.fp - 1 }
      let vm4 ← recycle currentFrame vm3
      let prevFrame ← vm4.currentFrame
      let vm5 ← (if prevFrame.retAddress ≠ Void then vm4.set prevFrame.retAddress retValue
        else some vm4)
      let exit ← (vm5.frames[currentFrame]?).map (fun f => f.exit)
      if exit then some (vm_exit, { vm5 with RetValue := retValue })
      else some (vm_continue, vm5)

/-! ## Arithmetic, comparison and logic handlers -/

/-- Two's-complement truncation to 64 bits (overflow of `int64` arithmetic). -/
def wrap64 (x : Int) : Int := (x + 2 ^ 63) % 2 ^ 64 - 2 ^ 63

def NewInt64 (i : Int) : Value := .int i
def NewBool (b : Bool) : Value := .bool b
def NewString (s : String) : Value := .string s
def TrueValue : Value := .bool true
def FalseValue : Value := .bool false

/-- Modelled from the spec: `Value.ToInt`; `Null` converts to 0 ("`Null` compares as
`0` against numerics"). -/
def Value.ToInt : Value → Int
  | .int i => i
  | .rune r => r
  | _ => 0

/-- Modelled from the spec: `Value.ToBool` on a `Bool`. -/
def Value.ToBool : Value → Bool
  | .bool b => b
  | _ => false

/-- The value `lh.ToString()`: the content of a `String`, and the host's conversion
for the other types. -/
def toStr (h : Host) : Value → String
  | .string s => s
  | v => h.ToString v

/-- The Go expression `len(s)` for a string: its length in bytes. -/
def goLen (s : String) : Nat := s.utf8ByteSize

/-- The Go expression `rune(s[0])`: the first byte of the string. -/
def firstByte (s : String) : Int :=
  match s.data with
  | [] => 0
  | c :: _ => (((String.utf8EncodeChar c).headD 0).toNat : Int)

/-- Whether a `float64` is a NaN. -/
def F64.isNaN (f : F64) : Bool := decide (2047 * 2 ^ 52 < f.bits % 2 ^ 63)

/-- An integer that orders the `float64` values other than NaN as their numeric values
do (sign and magnitude; `+0` and `-0` both give 0). -/
def F64.toOrd (f : F64) : Int :=
  if f.bits / 2 ^ 63 % 2 = 1 then -((f.bits % 2 ^ 63 : Nat) : Int)
  else ((f.bits % 2 ^ 63 : Nat) : Int)

/-- The comparison `a < b` of Go on `float64` (false when an operand is NaN). -/
def F64.lt (a b : F64) : Bool := !a.isNaN && !b.isNaN && decide (a.toOrd < b.toOrd)

/-- The comparison `a <= b` of Go on `float64` (false when an operand is NaN). -/
def F64.le (a b : F64) : Bool := !a.isNaN && !b.isNaN && decide (a.toOrd ≤ b.toOrd)

/-- The statement `vm.set(a, v)` followed by `return vm_next`. -/
def setNext (vm : VM) (a : Address) (v : Value) : Option (Nat × VM) :=
  (vm.set a v).map (fun vm1 => (vm_next, vm1))

/-- The two charges `vm.AddAllocations(lh.Size())` and, if the first gave no error,
`vm.AddAllocations(rh.Size())`. -/
def chargeBoth (h : Host) (lh rh : Value) (vm : VM) : Option GoError × VM :=
  let r1 := h.AddAllocations (h.Size lh) vm
  match r1.1 with
  | some e => (some e, r1.2)
  | none => h.AddAllocations (h.Size rh) r1.2

/-- The recurring block of `exec_add` (lines 307-318 and its copies): charge both
operand sizes, hand a failed charge to the error handler, otherwise write the
concatenation. -/
def chargedConcat (h : Host) (instr : Instruction) (lh rh : Value) (vm : VM) :
    Option (Nat × VM) :=
  let r := chargeBoth h lh rh vm
  match r.1 with
  | some e => raise h e r.2
  | none => setNext r.2 instr.A (NewString (toStr h lh ++ toStr h rh))

/-- The handler `exec_add` (lines 294-444). -/
def exec_add (h : Host) (instr : Instruction) (vm : VM) : Option (Nat × VM) := do
  let lh ← vm.get instr.B
  let rh ← vm.get instr.C
  match lh.Type with
  | .Int =>
    match rh.Type with
    | .Float => setNext vm instr.A (NewFloat (h.fadd lh.ToFloat rh.ToFloat))
    | .Int => setNext vm instr.A (NewInt64 (wrap64 (lh.ToInt + rh.ToInt)))
    | .Rune => setNext vm instr.A (NewRune (wrap32 (lh.ToRune + rh.ToRune)))
    | .String => chargedConcat h instr lh rh vm
    | _ => raise h (invalidOperation h lh rh vm) vm
  | .Float =>
    match rh.Type with
    | .Int | .Float => setNext vm instr.A (NewFloat (h.fadd lh.ToFloat rh.ToFloat))
    | .Rune => setNext vm instr.A (NewRune (wrap32 (lh.ToRune + rh.ToRune)))
    | .String => chargedConcat h instr lh rh vm
    | _ => raise h (invalidOperation h lh rh vm) vm
  | .Rune =>
    match rh.Type with
    | .Rune | .Int => setNext vm instr.A (NewRune (wrap32 (lh.ToRune + rh.ToRune)))
    | .String => chargedConcat h instr lh rh vm
    | _ => raise h (invalidOperation h lh rh vm) vm
  | .Bool =>
    match rh.Type with
    | .String => setNext vm instr.A (NewString (toStr h lh ++ toStr h rh))
    | _ => raise h (invalidOperation h lh rh vm) vm
  | .String =>
    match rh.Type with
    | .String | .Int | .Float | .Bool | .Rune => chargedConcat h instr lh rh vm
    | .Null => setNext vm instr.A lh
    | .Undefined => setNext vm instr.A (NewString (toStr h lh ++ "undefined"))
    | _ => raise h (invalidOperation h lh rh vm) vm
  | .Null =>
    match rh.Type with
    | .Null | .String | .Int | .Float => setNext vm instr.A rh
    | _ => raise h (invalidOperation h lh rh vm) vm
  | .Undefined =>
    match rh.Type with
    | .Null | .String | .Int | .Float => setNext vm instr.A rh
    | _ => raise h (invalidOperation h lh rh vm) vm
  | _ => raise h (invalidOperation h lh rh vm) vm

/-- The handler `exec_sub` (lines 446-533). -/
def exec_sub (h : Host) (instr : Instruction) (vm : VM) : Option (Nat × VM) := do
  let lh ← vm.get instr.B
  let rh ← vm.get instr.C
  match lh.Type with
  | .Int =>
    match rh.Type with
    | .Float => setNext vm instr.A (NewFloat (h.fsub lh.ToFloat rh.ToFloat))
    | .Int => setNext vm instr.A (NewInt64 (wrap64 (lh.ToInt - rh.ToInt)))
    | _ => raise h (invalidOperation h lh rh vm) vm
  | .Float =>
    match rh.Type with
    | .Int | .Float => setNext vm instr.A (NewFloat (h.fsub lh.ToFloat rh.ToFloat))
    | _ => raise h (invalidOperation h lh rh vm) vm
  | .Rune =>
    match rh.Type with
    | .Rune | .Int => setNext vm instr.A (NewRune (wrap32 (lh.ToRune - rh.ToRune)))
    | .String =>
      let rs := toStr h rh
      if goLen rs ≠ 1 then raise h (invalidOperation h lh rh vm) vm
      else setNext vm instr.A (NewRune (wrap32 (lh.ToRune - firstByte rs)))
    | _ => raise h (invalidOperation h lh rh vm) vm
  | .String =>
    let ls := toStr h lh
    if goLen ls ≠ 1 then raise h (invalidOperation h lh rh vm) vm
    else
      let lr := firstByte ls
      match rh.Type with
      | .Rune | .Int => setNext vm instr.A (NewRune (wrap32 (lr - rh.ToRune)))
      | .String =>
        let rs := toStr h rh
        if goLen rs ≠ 1 then raise h (invalidOperation h lh rh vm) vm
        else setNext vm instr.A (NewRune (wrap32 (lr - firstByte rs)))
      | _ => raise h (invalidOperation h lh rh vm) vm
  | _ => raise h (invalidOperation h lh rh vm) vm

/-- The handler `exec_mul` (lines 535-585). -/
def exec_mul (h : Host) (instr : Instruction) (vm : VM) : Option (Nat × VM) := do
  let lh ← vm.get instr.B
  let rh ← vm.get instr.C
  match lh.Type with
  | .Int =>
    match rh.Type with
    | .Float => setNext vm instr.A (NewFloat (h.fmul lh.ToFloat rh.ToFloat))
    | .Int => setNext vm instr.A (NewInt64 (wrap64 (lh.ToInt * rh.ToInt)))
    | .Rune => setNext vm instr.A (NewRune (wrap32 (lh.ToRune * rh.ToRune)))
    | _ => raise h (invalidOperation h lh rh vm) vm
  | .Float =>
    match rh.Type with
    | .Int | .Float => setNext vm instr.A (NewFloat (h.fmul lh.ToFloat rh.ToFloat))
    | _ => raise h (invalidOperation h lh rh vm) vm
  | .Rune =>
    match rh.Type with
    | .Rune | .Int => setNext vm instr.A (NewRune (wrap32 (lh.ToRune * rh.ToRune)))
    | _ => raise h (invalidOperation h lh rh vm) vm
  | _ => raise h (invalidOperation h lh rh vm) vm

/-- The handler `exec_mod` (lines 769-825). -/
def exec_mod (h : Host) (instr : Instruction) (vm : VM) : Option (Nat × VM) := do
  let lh ← vm.get instr.B
  let rh ← vm.get instr.C
  match lh.Type with
  | .Float => raise h (invalidOperation h lh rh vm) vm
  | .Int =>
    match rh.Type with
    | .Int =>
      let ri := rh.ToInt
      if ri = 0 then raise h (divideByZero h vm) vm
      else setNext vm instr.A (NewInt64 (wrap64 (Int.tmod lh.ToInt ri)))
    | _ => raise h (invalidOperation h lh rh vm) vm
  | .Rune =>
    match rh.Type with
    | .Rune | .Int =>
      let ri := rh.ToRune
      if ri = 0 then raise h (divideByZero h vm) vm
      else setNext vm instr.A (NewRune (wrap32 (Int.tmod lh.ToRune ri)))
    | _ => raise h (invalidOperation h lh rh vm) vm
  | _ => raise h (invalidOperation h lh rh vm) vm

/-- The handler `exec_not` (lines 878-894). -/
def exec_not (h : Host) (instr : Instruction) (vm : VM) : Option (Nat × VM) := do
  let lh ← vm.get instr.B
  match lh.Type with
  | .Bool => setNext vm instr.A (NewBool (!lh.ToBool))
  | _ =>
    let empty : Bool :=
      if lh.Type = .Int then decide (lh.ToInt = 0) else h.IsNilOrEmpty vm lh
    setNext vm instr.A (NewBool empty)

/-- The truthiness `expr` that `exec_tjp` computes (lines 1585-1598), which is also
the value that `exec_mob` writes to `C`. -/
def truthy (h : Host) (vm : VM) (av : Value) : Bool :=
  match av.Type with
  | .Bool => av.ToBool
  | .Int => decide (av.ToInt ≠ 0)
  | .Float => !av.ToFloat.isZero
  | _ => !h.IsNilOrEmpty vm av

/-- The handler `exec_mob` (lines 269-286). -/
def exec_mob (h : Host) (instr : Instruction) (vm : VM) : Option (Nat × VM) := do
  let bv ← vm.get instr.B
  let vm1 ← vm.set instr.A bv
  match bv.Type with
  | .Bool => setNext vm1 instr.C bv
  | .Int =>
    if bv.ToInt = 0 then setNext vm1 instr.C FalseValue else setNext vm1 instr.C TrueValue
  | .Float =>
    if bv.ToFloat.isZero then setNext vm1 instr.C FalseValue else setNext vm1 instr.C TrueValue
  | _ =>
    if h.IsNilOrEmpty vm1 bv then setNext vm1 instr.C FalseValue
    else setNext vm1 instr.C TrueValue

/-- The handler `exec_lst` (lines 930-1030). -/
def exec_lst (h : Host) (instr : Instruction) (vm : VM) : Option (Nat × VM) := do
  let lh ← vm.get instr.B
  let rh ← vm.get instr.C
  match lh.Type with
  | .Int =>
    match rh.Type with
    | .Float => setNext vm instr.A (NewBool (F64.lt lh.ToFloat rh.ToFloat))
    | .Int => setNext vm instr.A (NewBool (decide (lh.ToInt < rh.ToInt)))
    | .Null => setNext vm instr.A (NewBool (decide (0 < rh.ToInt)))
    | _ => raise h (invalidOperation h lh rh vm) vm
  | .Float =>
    match rh.Type with
    | .Int | .Float => setNext vm instr.A (NewBool (F64.lt lh.ToFloat rh.ToFloat))
    | .Null => setNext vm instr.A (NewBool (decide (0 < rh.ToInt)))
    | _ => raise h (invalidOperation h lh rh vm) vm
  | .Rune =>
    match rh.Type with
    | .Rune | .Int => setNext vm instr.A (NewBool (decide (lh.ToRune < rh.ToRune)))
    | .String =>
      let rs := toStr h rh
      if goLen rs ≠ 1 then raise h (invalidOperation h lh rh vm) vm
      else setNext vm instr.A (NewBool (decide (lh.ToRune < firstByte rs)))
    | _ => raise h (invalidOperation h lh rh vm) vm
  | .String =>
    match rh.Type with
    | .String => setNext vm instr.A (NewBool (decide (toStr h lh < toStr h rh)))
    | .Rune =>
      let ls := toStr h lh
      if goLen ls ≠ 1 then raise h (invalidOperation h lh rh vm) vm
      else setNext vm instr.A (NewBool (decide (firstByte ls < rh.ToRune)))
    | .Null => setNext vm instr.A FalseValue
    | _ => raise h (invalidOperation h lh rh vm) vm
  | .Null =>
    match rh.Type with
    | .Int | .Float => setNext vm instr.A (NewBool (F64.lt (F64.ofInt 0) rh.ToFloat))
    | .String | .Rune => setNext vm instr.A FalseValue
    | _ => raise h (invalidOperation h lh rh vm) vm
  | _ => raise h (invalidOperation h lh rh vm) vm

/-- The handler `exec_lse` (lines 1032-1113). -/
def exec_lse (h : Host) (instr : Instruction) (vm : VM) : Option (Nat × VM) := do
  let lh ← vm.get instr.B
  let rh ← vm.get instr.C
  match lh.Type with
  | .Int =>
    match rh.Type with
    | .Float => setNext vm instr.A (NewBool (F64.le lh.ToFloat rh.ToFloat))
    | .Int => setNext vm instr.A (NewBool (decide (lh.ToInt ≤ rh.ToInt)))
    | _ => raise h (invalidOperation h lh rh vm) vm
  | .Float =>
    match rh.Type with
    | .Int | .Float => setNext vm instr.A (NewBool (F64.le lh.ToFloat rh.ToFloat))
    | _ => raise h (invalidOperation h lh rh vm) vm
  | .Rune =>
    match rh.Type with
    | .Rune | .Int => setNext vm instr.A (NewBool (decide (lh.ToRune ≤ rh.ToRune)))
    | .String =>
      let rs := toStr h rh
      if goLen rs ≠ 1 then raise h (invalidOperation h lh rh vm) vm
      else setNext vm instr.A (NewBool (decide (lh.ToRune ≤ firstByte rs)))
    | _ => raise h (invalidOperation h lh rh vm) vm
  | .String =>
    match rh.Type with
    | .String => setNext vm instr.A (NewBool (!decide (toStr h rh < toStr h lh)))
    | .Rune =>
      let ls := toStr h lh
      if goLen ls ≠ 1 then raise h (invalidOperation h lh rh vm) vm
      else setNext vm instr.A (NewBool (decide (firstByte ls ≤ rh.ToRune)))
    | _ => raise h (invalidOperation h lh rh vm) vm
  | _ => raise h (invalidOperation h lh rh vm) vm

/-! ## Array handlers -/

/-- The elements of the slice `a.Array` of the array object `id`. -/
def VM.arrayElems (vm : VM) (id : Nat) : Option (List Value) := do
  let o ← vm.arrays[id]?
  let b ← vm.backings[o.backing]?
  if o.len ≤ b.length then some (b.take o.len) else none

/-- Modelled from the spec: `NewArrayValues(s)` for a slice `s`, given as an
`ArrayObject`: a new array object whose `Array` is `s` itself (no copy). -/
def VM.newArrayObject (vm : VM) (o : ArrayObject) : Value × VM :=
  (.array vm.arrays.length, { vm with arrays := vm.arrays ++ [o] })

/-- The array value `NewArrayValues(values)` for a freshly made slice `values`
(`make([]Value, n)` filled with `xs`): a new backing array and a new array object. -/
def VM.newArrayValues (vm : VM) (xs : List Value) : Value × VM :=
  VM.newArrayObject { vm with backings := vm.backings ++ [xs] } ⟨vm.backings.length, xs.length⟩

/-- The Go expression `append(va[:n], ys...)` for the slice `va` of the array object
`o`.  If the capacity suffices the elements are written into the backing array of `va`;
otherwise a new backing array is allocated (its spare capacity is not modelled). -/
def VM.appendSlice (vm : VM) (o : ArrayObject) (n : Nat) (ys : List Value) :
    Option (ArrayObject × VM) := do
  let b ← vm.backings[o.backing]?
  if n + ys.length ≤ b.length then
    some (⟨o.backing, n + ys.length⟩,
      { vm with backings :=
          vm.backings.set o.backing (b.take n ++ ys ++ b.drop (n + ys.length)) })
  else
    some (⟨vm.backings.length, n + ys.length⟩,
      { vm with backings := vm.backings ++ [b.take n ++ ys] })

/-- The Go assignment `a.Array[i] = v` on the array object `id`; `none` is the
index-out-of-range panic. -/
def VM.arrayStore (vm : VM) (id : Nat) (i : Int) (v : Value) : Option VM := do
  let o ← vm.arrays[id]?
  let b ← vm.backings[o.backing]?
  if i < 0 ∨ o.len ≤ i.toNat ∨ b.length < o.len then none
  else some { vm with backings := vm.backings.set o.backing (b.set i.toNat v) }

/-- The handler `exec_spa` (lines 1207-1240). -/
def exec_spa (h : Host) (instr : Instruction) (vm : VM) : Option (Nat × VM) := do
  let v ← vm.get instr.A
  match v with
  | .array id => do
    let o ← vm.arrays[id]?
    let va ← vm.arrayElems id
    let ln := va.length
    if ln = 0 then some (vm_next, vm)
    else do
      let last ← va[ln - 1]?
      match last with
      | .null | .undefined =>
        let r := vm.newArrayObject ⟨o.backing, ln - 1⟩
        setNext r.2 instr.A r.1
      | .array idl => do
        let ys ← vm.arrayElems idl
        let n ← vm.appendSlice o (ln - 1) ys
        let r := n.2.newArrayObject n.1
        setNext r.2 instr.A r.1
      | _ => raise h (h.NewErrorS "Expected array, got %v" [h.TypeName last] vm) vm
  | _ => raise h (h.NewErrorS "Expected array, got %v" [h.TypeName v] vm) vm

/-- The handler `exec_val` (lines 1310-1371). -/
def exec_val (h : Host) (instr : Instruction) (vm : VM) : Option (Nat × VM) := do
  let bv ← vm.get instr.B
  match bv with
  | .null | .undefined =>
    let r := vm.newArrayValues []
    setNext r.2 instr.A r.1
  | .array id => do
    let s ← vm.arrayElems id
    let r := vm.newArrayValues s
    setNext r.2 instr.A r.1
  | .bytes bs =>
    let r := vm.newArrayValues (bs.map (fun b => Value.int (b.val : Int)))
    setNext r.2 instr.A r.1
  | .map id =>
    let r := vm.newArrayValues (h.mapValues vm id)
    setNext r.2 instr.A r.1
  | .object obj =>
    match h.enumerable vm obj with
    | some (some err, _) => raise h (h.NewErrorE "Enumerable error: %v" err vm) vm
    | some (none, vals) =>
      let r := vm.newArrayValues vals
      setNext r.2 instr.A r.1
    | none => raise h (h.NewErrorS "Expected a enumerable, got %v" [h.String bv] vm) vm
  | _ => raise h (h.NewErrorS "Expected a enumerable, got %v" [h.String bv] vm) vm

/-- A state with one frame whose register 0 holds the array object 0 with the
elements `1, 2, [7, 8]` (the last one is the array object 1) and whose register 1 is
`Null`. -/
def vmArr : VM where
  frames := [⟨0, 0, Void, 0, [], [], false, false⟩]
  regs := [[.array 0, .null]]
  callStack := [0]
  fp := 0
  frameCache := []
  tryCatchs := []
  globals := 0
  Constants := []
  Functions := [⟨[]⟩]
  Error := none
  RetValue := .null
  arrays := [⟨0, 3⟩, ⟨1, 2⟩]
  backings := [[.int 1, .int 2, .array 1], [.int 7, .int 8]]

/-- A host for evaluating the handlers on concrete states: no guard catches (`handle`
stores the error in `vm.Error` and reports it unhandled), there is no pending finally,
finalizables do nothing, errors carry their format string as message, every allocation
charge fails, and only `Null`, `Undefined` and the empty string are nil or empty. -/
def plainHost : Host where
  handle := fun e vm => (false, { vm with Error := some e })
  runFinalizables := fun _ vm => vm
  returnFromFinally := fun vm => (false, vm)
  WrapError := fun e _ => e
  NewError := fun msg _ _ => .Err ⟨msg, false, 0, [], false⟩
  String := fun _ => ""
  fdiv := fun _ _ => ⟨0⟩
  fadd := fun _ _ => ⟨0⟩
  fsub := fun _ _ => ⟨0⟩
  fmul := fun _ _ => ⟨0⟩
  AddAllocations := fun _ vm => (some (.Err ⟨"allocation limit exceeded", false, 0, [], false⟩), vm)
  Size := fun _ => 1
  ToString := fun v => match v with
    | .bool true => "true"
    | .bool false => "false"
    | _ => ""
  TypeName := fun _ => ""
  IsNilOrEmpty := fun _ v => match v with
    | .null => true
    | .undefined => true
    | .string s => s == ""
    | _ => false
  NewErrorS := fun msg _ _ => .Err ⟨msg, false, 0, [], false⟩
  mapValues := fun _ _ => []
  enumerable := fun _ _ => none
  NewErrorE := fun msg _ _ => .Err ⟨msg, false, 0, [], false⟩

/-- A state with one frame (two registers) on the call stack and no guard. -/
def vmOne (r0 r1 : Value) : VM where
  frames := [⟨0, 0, Void, 0, [], [], false, false⟩]
  regs := [[r0, r1]]
  callStack := [0]
  fp := 0
  frameCache := []
  tryCatchs := []
  globals := 0
  Constants := []
  Functions := [⟨[]⟩]
  Error := none
  RetValue := .null

/-- The operand `Local i`. -/
def loc (i : Int) : Address := ⟨.AddrLocal, i⟩

/-- Read the cell `(register file, index)`. -/
def VM.readCell (vm : VM) (cell : Nat × Int) : Option Value := do
  let rf ← vm.regs[cell.1]?
  index rf cell.2

/-- The address `a` designates an existing register. -/
def VM.writable (vm : VM) (a : Address) : Bool := ((vm.cell a).bind vm.readCell).isSome

/-- Every register of the frame object `r` holds `Undefined`. -/
def VM.frameUndefined (vm : VM) (r : Nat) : Bool :=
  match vm.frames[r]? with
  | some f => ((vm.regs[f.values]?).getD []).all (fun v => v == UndefinedValue)
  | none => true

/-- Every frame in `frameCache` holds only `Undefined` registers. -/
def VM.cacheClean (vm : VM) : Bool := vm.frameCache.all (fun r => vm.frameUndefined r)

/-- A state with two frames on the call stack: the caller (frame object 0, register
file 0, awaiting the result in its register 1) and the callee (frame object 1, register
file 1, holding 42 and 7). -/
def vmTwo : VM where
  frames := [⟨0, 3, loc 1, 0, [], [], false, false⟩, ⟨1, 5, Void, 1, [], [9], false, false⟩]
  regs := [[.null, .null], [.int 42, .int 7]]
  callStack := [0, 1]
  fp := 1
  frameCache := []
  tryCatchs := []
  globals := 2
  Constants := []
  Functions := [⟨[]⟩, ⟨[0]⟩]
  Error := none
  RetValue := .null

/-- The state after `ret 0` in `vmTwo`: the callee is cleared and cached, the caller's
register 1 holds 42. -/
def vmTwoAfter : VM where
  frames := [⟨0, 3, loc 1, 0, [], [], false, false⟩, ⟨1, 5, Void, 1, [], [], false, false⟩]
  regs := [[.null, .int 42], [.undefined, .undefined]]
  callStack := [0]
  fp := 0
  frameCache := [1]
  tryCatchs := []
  globals := 2
  Constants := []
  Functions := [⟨[]⟩, ⟨[0]⟩]
  Error := none
  RetValue := .null

/-- The state `vmTwo` after the callee created a closure over its register 0 and stored
it in its register 1: the callee frame is flagged `inClosure`. -/
def vmTwoClo : VM where
  frames := [⟨0, 3, loc 1, 0, [], [], false, false⟩, ⟨1, 5, Void, 1, [], [9], false, true⟩]
  regs := [[.null, .null], [.int 42, .object (.closure ⟨1, [⟨0, 1⟩]⟩)]]
  callStack := [0, 1]
  fp := 1
  frameCache := []
  tryCatchs := []
  globals := 2
  Constants := []
  Functions := [⟨[]⟩, ⟨[0]⟩]
  Error := none
  RetValue := .null

/-- The state after `ret 1` in `vmTwoClo`: the callee's registers are kept, it is not
cached, and the caller's register 1 holds the closure. -/
def vmTwoCloAfter : VM where
  frames := [⟨0, 3, loc 1, 0, [], [], false, false⟩, ⟨1, 5, Void, 1, [], [9], false, true⟩]
  regs := [[.null, .object (.closure ⟨1, [⟨0, 1⟩]⟩)],
    [.int 42, .object (.closure ⟨1, [⟨0, 1⟩]⟩)]]
  callStack := [0]
  fp := 0
  frameCache := []
  tryCatchs := []
  globals := 2
  Constants := []
  Functions := [⟨[]⟩, ⟨[0]⟩]
  Error := none
  RetValue := .null

/-! ## The runtime library (`lib/runtime.go`)

The library calls methods of the VM and functions of other packages whose code is not
part of the sources at hand; they are the fields of `LibHost`.  A call that may panic
returns `none` for the panic, together with the state of the VM that it leaves. -/

/-- The fields of a `dune.NativeFunction` that the library reads. -/
structure NativeFunction where
  Name : String
  Arguments : Int
  Function : Value → List Value → VM → Option (Value × Option GoError) × VM

/-- The bytes written so far to the `io.Writer` objects, by the id of the writer. -/
abbrev Sinks := List (List (Fin 256))

/-- The methods of the VM and the functions of other packages that the runtime library
calls.  `Run`, `RunFuncIndex`, `RunClosure`, `Initialize` and the native functions
return `none` when they panic.  `GlobalsArray` is the value
`NewArrayValues(m.vm.Globals())`, `functionIndex` the index of the function that
`Program.Function(name)` finds, `asNativeMethod` and `asWriter` are the type assertions
to `NativeMethod` and to `io.Writer`, `binaryWrite w p` is `binary.Write` of the
program `p` to the writer `w`, `errorsNew err` is `errors.New(err.Error())`. -/
structure LibHost where
  HasPermission : String → VM → Bool
  Steps : VM → Int
  AddSteps : Int → VM → Option GoError × VM
  Initialized : VM → Bool
  Initialize : VM → Option (Option GoError) × VM
  Run : List Value → VM → Option (Value × Option GoError) × VM
  RunFuncIndex : Int → List Value → VM → Option (Value × Option GoError) × VM
  RunClosure : Closure → List Value → VM → Option (Value × Option GoError) × VM
  GlobalsArray : VM → Value
  functionIndex : VM → String → Option Int
  NativeFuncFromIndex : Int → Option NativeFunction
  asNativeMethod : Obj → Option (List Value → VM → Option (Value × Option GoError) × VM)
  asWriter : Value → Option Nat
  binaryWrite : Nat → Nat → Sinks → Option GoError × Sinks
  ValidateArgs : List Value → List VType → Option GoError
  WrapError : GoError → VM → GoError
  errorsNew : GoError → GoError
  Errorf : String → List String → GoError
  TypeName : Value → String

/-- The error `ErrUnauthorized` (`errors.New("unauthorized")`, errors.go line 15), given
by its message. -/
def ErrUnauthorized : GoError := .Err ⟨"unauthorized", false, 0, [], false⟩

/-- A `finalizable`: the callable `v`; the field `vm` is the VM on which `Close` runs. -/
structure finalizable where
  v : Value

/-- The `switch` of `finalizable.Close` (lines 464-496): the call of the finalizer and
the error that `Close` returns (`none` is a panic), on the VM `vm`. -/
def finalizable.call (L : LibHost) (f : finalizable) (vm : VM) : Option (Option GoError) × VM :=
  match f.v with
  | .nativeFunc i =>
    match L.NativeFuncFromIndex i with
    | none => (none, vm)
    | some nf =>
      if nf.Arguments ≠ 0 then
        (some (some (L.Errorf "function '%s' expects %d parameters"
          [nf.Name, toString nf.Arguments])), vm)
      else
        match nf.Function NullValue [] vm with
        | (none, vm1) => (none, vm1)
        | (some r, vm1) => (some r.2, vm1)
  | .func i =>
    match L.RunFuncIndex i [] vm with
    | (none, vm1) => (none, vm1)
    | (some r, vm1) => (some r.2, vm1)
  | .object (.closure c) =>
    match L.RunClosure c [] vm with
    | (none, vm1) => (none, vm1)
    | (some r, vm1) => (some r.2, vm1)
  | .object o =>
    match L.asNativeMethod o with
    | some t =>
      match t [] vm with
      | (none, vm1) => (none, vm1)
      | (some r, vm1) => (some r.2, vm1)
    | none => (none, vm)
  | _ => (none, vm)

/-- The method `finalizable.Close` (lines 450-499): `vm.Error` is saved and cleared, the
finalizer is called, and the deferred function, which also runs when the call panics,
restores a saved error that is not `nil`. -/
def finalizable.Close (L : LibHost) (f : finalizable) (vm : VM) : Option (Option GoError) × VM :=
  let lastErr := vm.Error
  let r := finalizable.call L f { vm with Error := none }
  if lastErr ≠ none then (r.1, { r.2 with Error := lastErr }) else r

/-- The method `initialize` of `libVM` (lines 1068-1080), for the object that wraps the VM
`child`, called from the VM `vm`: the result (`none` is a panic), and the states of the
child and of `vm`. -/
def libVM.init (L : LibHost) (child : VM) (_args : List Value) (vm : VM) :
    Option (Value × Option GoError) × VM × VM :=
  if !L.HasPermission "trusted" vm then (some (NullValue, some ErrUnauthorized), child, vm)
  else
    match L.Initialize child with
    | (none, c1) => (none, c1, vm)
    | (some (some err), c1) => (some (NullValue, some (L.errorsNew err)), c1, vm)
    | (some none, c1) => (some (L.GlobalsArray c1, none), c1, vm)

/-- The method `libVM.run` (lines 1082-1094). -/
def libVM.run (L : LibHost) (child : VM) (args : List Value) (vm : VM) :
    Option (Value × Option GoError) × VM × VM :=
  if !L.HasPermission "trusted" vm then (some (NullValue, some ErrUnauthorized), child, vm)
  else
    match L.Run args child with
    | (none, c1) => (none, c1, vm)
    | (some (_, some err), c1) => (some (NullValue, some (L.errorsNew err)), c1, vm)
    | (some (v, none), c1) => (some (v, none), c1, vm)

/-- The end of `libVM.runFunction` (lines 1142-1151): the call of the function and the
transfer of the steps of the child to `vm`. -/
def libVM.runIndex (L : LibHost) (child : VM) (index : Int) (rest : List Value) (vm : VM) :
    Option (Value × Option GoError) × VM × VM :=
  match L.RunFuncIndex index rest child with
  | (none, c1) => (none, c1, vm)
  | (some (_, some err), c1) => (some (NullValue, some (L.WrapError err c1)), c1, vm)
  | (some (v, none), c1) =>
    match L.AddSteps (L.Steps c1) vm with
    | (some err, vm1) => (some (NullValue, some (L.WrapError err c1)), c1, vm1)
    | (none, vm1) => (some (v, none), c1, vm1)

/-- The method `libVM.runFunction` (lines 1104-1152); `doInit` is its parameter
`initialize`. -/
def libVM.runFunction (L : LibHost) (child : VM) (args : List Value) (vm : VM)
    (doInit : Bool) : Option (Value × Option GoError) × VM × VM :=
  if !L.HasPermission "trusted" vm then (some (NullValue, some ErrUnauthorized), child, vm)
  else
    match args with
    | [] =>
      (some (NullValue, some (L.Errorf "expected at least 1 parameter, got %d" ["0"])),
        child, vm)
    | a :: rest =>
      let index : Except GoError Int :=
        match a with
        | .string name =>
          match L.functionIndex child name with
          | some i => .ok i
          | none => .error (L.Errorf "%s: %w" [name, "ErrFunctionNotExist"])
        | .int i =>
          if (child.Functions.length : Int) ≤ i then
            .error (L.Errorf "%d: %w" [toString i, "ErrFunctionNotExist"])
          else .ok i
        | _ =>
          .error (L.Errorf "argument 1 must be a string (function name), got %s"
            [L.TypeName a])
      match index with
      | .error e => (some (NullValue, some e), child, vm)
      | .ok index =>
        if doInit && !L.Initialized child then
          match L.Initialize child with
          | (none, c1) => (none, c1, vm)
          | (some (some err), c1) => (some (NullValue, some (L.WrapError err c1)), c1, vm)
          | (some none, c1) =>
            match L.AddSteps (L.Steps c1) vm with
            | (some err, vm1) => (some (NullValue, some (L.WrapError err c1)), c1, vm1)
            | (none, vm1) => libVM.runIndex L c1 index rest vm1
        else libVM.runIndex L child index rest vm

/-- The method `libVM.runStaticFunc` (lines 1096-1098). -/
def libVM.runStaticFunc (L : LibHost) (child : VM) (args : List Value) (vm : VM) :
    Option (Value × Option GoError) × VM × VM :=
  libVM.runFunction L child args vm false

/-- The method `libVM.runFunc` (lines 1100-1102). -/
def libVM.runFunc (L : LibHost) (child : VM) (args : List Value) (vm : VM) :
    Option (Value × Option GoError) × VM × VM :=
  libVM.runFunction L child args vm true

/-- The object `program`: `prog` is the pointer to the `Program`. -/
structure program where
  prog : Nat
  deriving DecidableEq, Repr

/-- The method `program.write` (lines 652-671): the result and the bytes written;
`none` is a panic. -/
def program.write (L : LibHost) (p : program) (args : List Value) (vm : VM) (sinks : Sinks) :
    Option ((Value × Option GoError) × Sinks) :=
  if !L.HasPermission "trusted" vm then some ((NullValue, some ErrUnauthorized), sinks)
  else
    match L.ValidateArgs args [.Object] with
    | some err => some ((NullValue, some err), sinks)
    | none =>
      match args[0]? with
      | none => none
      | some a =>
        match L.asWriter a with
        | none =>
          some ((NullValue, some (L.Errorf "exepected a Writer, got %s" [L.TypeName a])), sinks)
        | some w =>
          match L.binaryWrite w p.prog sinks with
          | (some err, s1) => some ((NullValue, some err), s1)
          | (none, s1) => some ((NullValue, none), s1)

/-- The method `program.toBytes` (lines 773-785). -/
def program.toBytes (L : LibHost) (p : program) (args : List Value) (_vm : VM) (sinks : Sinks) :
    Option ((Value × Option GoError) × Sinks) :=
  match L.ValidateArgs args [.Object] with
  | some err => some ((NullValue, some err), sinks)
  | none =>
    match args[0]? with
    | none => none
    | some a =>
      match L.asWriter a with
      | none =>
        some ((NullValue,
          some (L.Errorf "expected parameter 1 to be io.Writer, got %T" [L.TypeName a])), sinks)
      | some w =>
        match L.binaryWrite w p.prog sinks with
        | (err, s1) => some ((NullValue, err), s1)

/-- A library host for evaluating the library on concrete states: every permission is
granted or none, according to `trusted`; every run of script code takes five steps, sets
`vm.Error` to `io.EOF` and returns 1 with the error `err`; `AddSteps` adds to the
counter; a host object is a writer, and a program is written as the three bytes
1, 2, 3. -/
def demoHost (trusted : Bool) (err : Option GoError) : LibHost where
  HasPermission := fun _ _ => trusted
  Steps := fun vm => vm.steps
  AddSteps := fun n vm => (none, { vm with steps := vm.steps + n })
  Initialized := fun _ => true
  Initialize := fun vm => (some none, vm)
  Run := fun _ vm => (some (.int 1, err), { vm with steps := vm.steps + 5, Error := some .EOF })
  RunFuncIndex := fun _ _ vm =>
    (some (.int 1, err), { vm with steps := vm.steps + 5, Error := some .EOF })
  RunClosure := fun _ _ vm =>
    (some (.int 1, err), { vm with steps := vm.steps + 5, Error := some .EOF })
  GlobalsArray := fun _ => .null
  functionIndex := fun _ _ => none
  NativeFuncFromIndex := fun _ => none
  asNativeMethod := fun _ => none
  asWriter := fun v => match v with
    | .object (.host id) => some id
    | _ => none
  binaryWrite := fun w _ sinks => (none, sinks.modify (fun b => b ++ [1, 2, 3]) w)
  ValidateArgs := fun _ _ => none
  WrapError := fun e _ => e
  errorsNew := fun e => e
  Errorf := fun msg _ => .Err ⟨msg, false, 0, [], false⟩
  TypeName := fun _ => ""

/-- The error `failed`. -/
def errFailed : GoError := .Err ⟨"failed", false, 0, [], false⟩

/-! ## The SQL builder (`lib/sqx/builder.go`) -/

/-- A column name (`*ColumnNameExpr`). -/
structure ColumnNameExpr where
  Table : String
  Name : String
  deriving DecidableEq, Repr

mutual
/-- The expression types that `builder.go` names, with the fields that it reads: a
column name, a `SelectQuery`, a `BinaryExpr`, a `CallExpr` (its `Args`), an `InExpr`
(its `Values`), a `ParenExpr`, a `Table` (the `On` expressions of its `Joins`) and a
`ConstantExpr`. -/
inductive Expr where
  | column (c : ColumnNameExpr)
  | select (q : SelectQuery)
  | binary (Left : Expr) (Operator : String) (Right : Expr)
  | call (Args : List Expr)
  | inExpr (Values : List Expr)
  | paren (X : Expr)
  | table (Joins : List Expr)
  | constant (Kind : String) (Value : String)
/-- A `SelectQuery`: the parts that `selectColumnNames` reads (`WherePart` and
`HavingPart` are pointers, `none` is `nil`; of `OrderByPart` the expressions). -/
inductive SelectQuery where
  | mk (Columns : List Expr) (From : List Expr) (WherePart : Option Expr)
      (GroupByPart : List Expr) (HavingPart : Option Expr) (OrderByPart : List Expr)
      (UnionPart : List SelectQuery)
end

mutual
/-- The function `NameExprColumns` (lines 9-32). -/
def NameExprColumns : Expr → List ColumnNameExpr
  | .column c => [c]
  | .select q => selectColumnNames q
  | .binary l _ r => NameExprColumns l ++ NameExprColumns r
  | .call args => NameExprColumnsAll args
  | .inExpr values => NameExprColumnsAll values
  | .paren _ => []
  | .table _ => []
  | .constant _ _ => []
/-- The loops `for _, l := range ... { c = append(c, NameExprColumns(l)...) }`. -/
def NameExprColumnsAll : List Expr → List ColumnNameExpr
  | [] => []
  | e :: es => NameExprColumns e ++ NameExprColumnsAll es
/-- The function `selectColumnNames` (lines 34-73). -/
def selectColumnNames : SelectQuery → List ColumnNameExpr
  | .mk columns frm wherePart groupBy havingPart orderBy unionPart =>
    NameExprColumnsAll columns ++ fromColumnNames frm ++
      (match wherePart with
        | some e => NameExprColumns e
        | none => []) ++
      NameExprColumnsAll groupBy ++
      (match havingPart with
        | some e => NameExprColumns e
        | none => []) ++
      NameExprColumnsAll orderBy ++ selectColumnNamesAll unionPart
/-- The loop of `selectColumnNames` over `s.From` (lines 42-52). -/
def fromColumnNames : List Expr → List ColumnNameExpr
  | [] => []
  | f :: fs =>
    (match f with
      | .table joins => NameExprColumnsAll joins
      | .paren x => NameExprColumns x
      | _ => []) ++ fromColumnNames fs
/-- The loop of `selectColumnNames` over `s.UnionPart` (lines 68-70). -/
def selectColumnNamesAll : List SelectQuery → List ColumnNameExpr
  | [] => []
  | s :: ss => selectColumnNames s ++ selectColumnNamesAll ss
end

def SelectQuery.WherePart : SelectQuery → Option Expr
  | .mk _ _ w _ _ _ _ => w

/-- The method `AndQuery` (lines 230-243); `none` is the panic of `filter.WherePart.Expr`
for a filter without `WherePart`. -/
def SelectQuery.AndQuery (q : SelectQuery) (filter : Option SelectQuery) : Option SelectQuery :=
  match filter with
  | none => some q
  | some f =>
    match f.WherePart with
    | none => none
    | some fw =>
      match q with
      | .mk columns frm wherePart groupBy havingPart orderBy unionPart =>
        match wherePart with
        | some w =>
          some (.mk columns frm (some (.binary w "AND" (.paren fw))) groupBy havingPart orderBy
            unionPart)
        | none => some (.mk columns frm (some (.paren fw)) groupBy havingPart orderBy unionPart)


/-! ## The router of `lib/routing.go`

Go strings are lists of characters.  The functions of the Go library that the router
calls are `filepath.Ext`, `strings.Split` (with the separator `"/"`) and
`strings.ToLower`; the last maps the characters of a string one by one, and the map
`lower` on characters is a parameter. -/

/-- A route: its URL pattern and the parameter names that `Add` extracts from it.  The
Go struct also carries the script values of the route, which the router never reads. -/
structure httpRoute where
  URL : List Char
  Params : List (List Char)
  deriving DecidableEq, Repr

/-- A node of the routing trie: the Go map `child`, as an association list in which a
key occurs once, and the route that ends at the node (`none` is `nil`). -/
inductive routeNode where
  | mk (child : List (List Char × routeNode)) (route : Option httpRoute)

def routeNode.child : routeNode → List (List Char × routeNode)
  | .mk c _ => c

def routeNode.route : routeNode → Option httpRoute
  | .mk _ r => r

/-- The map lookup `node.child[key]`. -/
def routeNode.get (n : routeNode) (key : List Char) : Option routeNode := n.child.lookup key

def newNode : routeNode := .mk [] none

/-- The result of `Match`; `Route` is a pointer and may be `nil`. -/
structure routeMatch where
  Route : Option httpRoute
  Params : List (List Char)
  deriving DecidableEq, Repr

/-- An `httpRouter` struct: the pointer `node` to the root of its trie. -/
structure httpRouter where
  node : Nat
  deriving DecidableEq, Repr

/-- Go's `filepath.Ext(path)`: the suffix of `path` that starts at the last dot of the
last element of the path, empty if that element has no dot. -/
def filepathExt (path : List Char) : List Char :=
  let last := path.reverse.takeWhile (fun c => c != '/')
  if '.' ∈ last then '.' :: (last.takeWhile (fun c => c != '.')).reverse else []

/-- Go's `strings.Split(s, "/")`. -/
def stringsSplit : List Char → List (List Char)
  | [] => [[]]
  | c :: cs =>
    if c = '/' then [] :: stringsSplit cs
    else
      match stringsSplit cs with
      | [] => [[c]]
      | s :: ss => (c :: s) :: ss

/-- Go's `strings.ToLower(s)`, for the map `lower` on characters. -/
def stringsToLower (lower : Char → Char) (s : List Char) : List Char := s.map lower

/-- The function `extensionAsSegment` (lines 154-160). -/
def extensionAsSegment (url : List Char) : List Char :=
  let ext := filepathExt url
  if ext ≠ [] then url.take (url.length - ext.length) ++ '/' :: ext.drop 1 else url

/-- The loop of `Add` (lines 171-188) over the segments that are left, followed by the
assignment `node.route = t`: `params` are the names collected in `t.Params` so far, the
node is the one the loop has reached.  The result is that node after the insertion. -/
def addLoop (t : httpRoute) : List (List Char) → List (List Char) → routeNode → routeNode
  | [], params, .mk child _ => .mk child (some { t with Params := params })
  | s :: rest, params, .mk child route =>
    if s = [] then addLoop t rest params (.mk child route)
    else
      let params1 := if s.head? = some ':' then params ++ [s.drop 1] else params
      let key := if s.head? = some ':' then [':'] else s
      match child.lookup key with
      | some n =>
        .mk (child.map (fun p => if p.1 = key then (p.1, addLoop t rest params1 n) else p)) route
      | none => .mk (child ++ [(key, addLoop t rest params1 newNode)]) route

/-- The method `Add` (lines 162-191) on the trie with root `root`: the trie after the
insertion of the route `t`, which is stored with the `Params` that `Add` assigns. -/
def httpRouter.Add (lower : Char → Char) (root : routeNode) (t : httpRoute) : routeNode :=
  addLoop t (stringsSplit (stringsToLower lower (extensionAsSegment t.URL))) [] root

/-- The variables of the loop of `Match`. -/
structure matchState where
  node : routeNode
  params : List (List Char)
  lastNotMatched : Bool
  lastWildcardNode : Option routeNode

/-- The loop of `Match` (lines 204-234) over the segments that are left. -/
def matchLoop (lower : Char → Char) : List (List Char) → matchState → matchState
  | [], st => st
  | s :: rest, st =>
    if s = [] then matchLoop lower rest st
    else if st.node.child.isEmpty then st
    else
      let lw := match st.node.get ['*'] with
        | some n => some n
        | none => st.lastWildcardNode
      match st.node.get (stringsToLower lower s) with
      | some n => matchLoop lower rest { st with node := n, lastWildcardNode := lw }
      | none =>
        match st.node.get [':'] with
        | some n =>
          matchLoop lower rest
            { st with node := n, params := st.params ++ [s], lastWildcardNode := lw }
        | none => { st with lastNotMatched := true, lastWildcardNode := lw }

/-- The decision of `Match` after its loop (lines 236-259). -/
def matchResult (st : matchState) : routeMatch × Bool :=
  match st.node.route with
  | none =>
    match st.node.get ['*'] with
    | some n => (⟨n.route, st.params⟩, true)
    | none =>
      match st.lastWildcardNode with
      | some n => (⟨n.route, st.params⟩, true)
      | none => (⟨none, []⟩, false)
  | some rt =>
    if st.lastNotMatched then
      match st.lastWildcardNode with
      | some n => (⟨n.route, []⟩, true)
      | none => if rt.URL = ['/'] then (⟨some rt, []⟩, true) else (⟨none, []⟩, false)
    else (⟨some rt, st.params⟩, true)

/-- The method `Match` (lines 193-260) on the trie with root `root`. -/
def httpRouter.Match (lower : Char → Char) (root : routeNode) (url : List Char) :
    routeMatch × Bool :=
  matchResult (matchLoop lower (stringsSplit (extensionAsSegment url)) ⟨root, [], false, none⟩)

/-- The loop of `GetParam` from index `i` on. -/
def getParamLoop (name : List Char) (values : List (List Char)) :
    List (List Char) → Nat → Option (List Char)
  | [], _ => some []
  | k :: ks, i => if k = name then values[i]? else getParamLoop name values ks (i + 1)

/-- The method `GetParam` (lines 341-348); `none` is a run-time panic (a `nil` route, or
an index out of the range of `m.Params`). -/
def routeMatch.GetParam (m : routeMatch) (name : List Char) : Option (List Char) :=
  match m.Route with
  | none => none
  | some r => getParamLoop name m.Params r.Params 0

/-- The objects behind the pointers of the router: the tries, by the address of their
root, and the `httpRouter` structs, by their address. -/
structure routerHeap where
  nodes : List routeNode
  routers : List httpRouter

/-- The function `newRouter` (lines 144-146): the address of the new struct. -/
def newRouter (h : routerHeap) : Nat × routerHeap :=
  (h.routers.length, ⟨h.nodes ++ [newNode], h.routers ++ [⟨h.nodes.length⟩]⟩)

/-- The method `Reset` (lines 148-152), which has a pointer receiver, on the struct at
the address `p`: `r.node = newNode()`. -/
def httpRouter.Reset (p : Nat) (h : routerHeap) : routerHeap :=
  ⟨h.nodes ++ [newNode], h.routers.set p ⟨h.nodes.length⟩⟩

/-- The native method `reset` (lines 91-94), which has a value receiver: `r` is the
method's own copy of the struct, and `r.Reset()` takes the address of that copy, a new
object of the heap. -/
def httpRouter.reset (r : httpRouter) (h : routerHeap) : routerHeap :=
  httpRouter.Reset h.routers.length { h with routers := h.routers ++ [r] }

/-- The native method `add` (lines 96-142) for an argument that is a route: the call
`r.Add(route)` on the trie that `r.node` points to. -/
def httpRouter.add (lower : Char → Char) (r : httpRouter) (t : httpRoute) (h : routerHeap) :
    Option routerHeap :=
  (h.nodes[r.node]?).map
    (fun root => { h with nodes := h.nodes.set r.node (httpRouter.Add lower root t) })

/-- The native method `match` (lines 77-89) for a string argument: the inner `none` is
the script value null, `some m` the object that wraps the match. -/
def httpRouter.match_ (lower : Char → Char) (r : httpRouter) (url : List Char)
    (h : routerHeap) : Option (Option routeMatch) :=
  (h.nodes[r.node]?).map (fun root =>
    if (httpRouter.Match lower root url).2 then some (httpRouter.Match lower root url).1
    else none)

/-- The script call `router.reset()` on the object that holds the pointer `p` (the
value `NewObject(r)` of `routing.newRouter`): `GetMethod`, which has a value receiver,
runs on a copy of the struct `*p` and returns the method value `r.reset`. -/
def scriptReset (p : Nat) (h : routerHeap) : Option routerHeap :=
  (h.routers[p]?).map (fun r => httpRouter.reset r h)

/-- The script call `router.add(t)` on the object that holds the pointer `p`. -/
def scriptAdd (lower : Char → Char) (p : Nat) (t : httpRoute) (h : routerHeap) :
    Option routerHeap :=
  (h.routers[p]?).bind (fun r => httpRouter.add lower r t h)

/-- The script call `router.match(url)` on the object that holds the pointer `p`. -/
def scriptMatch (lower : Char → Char) (p : Nat) (url : List Char) (h : routerHeap) :
    Option (Option routeMatch) :=
  (h.routers[p]?).bind (fun r => httpRouter.match_ lower r url h)

/-- The heap after `routing.newRouter()` and `add` of the route `/foo`. -/
def routerHeapFoo : routerHeap :=
  ⟨[httpRouter.Add Char.toLower newNode ⟨"/foo".toList, []⟩], [⟨0⟩]⟩

/-- The non-empty segments of a string, in order. -/
def segments (s : List Char) : List (List Char) :=
  (stringsSplit s).filter (fun x => decide (x ≠ []))

/-- The characters to which the router gives a meaning are images of themselves only. -/
def KeepsMarks (lower : Char → Char) : Prop :=
  ∀ c, (lower c = '/' ↔ c = '/') ∧ (lower c = ':' ↔ c = ':') ∧ (lower c = '*' ↔ c = '*')

/-- The key under which `Add` files a segment. -/
def keyOf (s : List Char) : List Char := if s.head? = some ':' then [':'] else s

/-- The parameter name that `Add` takes from a segment. -/
def nameOf (s : List Char) : Option (List Char) :=
  if s.head? = some ':' then some (s.drop 1) else none

/-- The trie of a single route: one child per key, the route at the end. -/
def chain : List (List Char) → httpRoute → routeNode
  | [], rt => .mk [] (some rt)
  | k :: ks, rt => .mk [(k, chain ks rt)] none

/-- The parameter names of a pattern with the segments `ps`, as `Add` stores them. -/
def paramNames (lower : Char → Char) (ps : List (List Char)) : List (List Char) :=
  ps.filterMap (fun p => nameOf (p.map lower))

/-- The segments of `us` at the positions where `ps` has a `:name` segment. -/
def paramValues : List (List Char) → List (List Char) → List (List Char)
  | p :: ps, u :: us =>
    if p.head? = some ':' then u :: paramValues ps us else paramValues ps us
  | _, _ => []

/-- The URL segments `us` fit the pattern segments `ps`: as many segments, a segment
at a `:name` position is not `":"`, and a segment at another position equals the
segment of the pattern up to case. -/
def segmentsAgree (lower : Char → Char) : List (List Char) → List (List Char) → Bool
  | [], [] => true
  | p :: ps, u :: us =>
    (if p.head? = some ':' then decide (u ≠ [':']) else decide (u.map lower = p.map lower))
      && segmentsAgree lower ps us
  | _, _ => false

/-- The segments `ps` are, up to case, a prefix of the segments `us`. -/
def startsCI (lower : Char → Char) : List (List Char) → List (List Char) → Bool
  | [], _ => true
  | p :: ps, u :: us => decide (u.map lower = p.map lower) && startsCI lower ps us
  | _ :: _, [] => false

/-! ## Shift handlers -/

/-- The conversion `uint64(x)` of an `int64` `x`. -/
def toUint64 (x : Int) : Nat := (x % 2 ^ 64).toNat

/-- Go's `a << n` for an `int64` `a` and an unsigned count `n`: the product `a * 2 ^ n`
truncated to 64 bits; a shift by 64 positions or more is a shift by 64 positions. -/
def shl64 (a : Int) (n : Nat) : Int := wrap64 (a * 2 ^ min n 64)

/-- Go's `a >> n` for an `int64` `a` and an unsigned count `n`: the arithmetic shift,
the quotient of `a` by `2 ^ n` rounded towards negative infinity (as `/` on `Int`
rounds for a positive divisor); a shift by 64 positions or more is a shift by 64
positions. -/
def shr64 (a : Int) (n : Nat) : Int := a / 2 ^ min n 64

/-- The handler `exec_lsh` (lines 612-635). -/
def exec_lsh (h : Host) (instr : Instruction) (vm : VM) : Option (Nat × VM) := do
  let lh ← vm.get instr.B
  let rh ← vm.get instr.C
  match lh.Type with
  | .Int =>
    match rh.Type with
    | .Int => setNext vm instr.A (NewInt64 (shl64 lh.ToInt (toUint64 rh.ToInt)))
    | _ => raise h (invalidOperation h lh rh vm) vm
  | _ => raise h (invalidOperation h lh rh vm) vm

/-- The handler `exec_rsh` (lines 637-660). -/
def exec_rsh (h : Host) (instr : Instruction) (vm : VM) : Option (Nat × VM) := do
  let lh ← vm.get instr.B
  let rh ← vm.get instr.C
  match lh.Type with
  | .Int =>
    match rh.Type with
    | .Int => setNext vm instr.A (NewInt64 (shr64 lh.ToInt (toUint64 rh.ToInt)))
    | _ => raise h (invalidOperation h lh rh vm) vm
  | _ => raise h (invalidOperation h lh rh vm) vm

/-! ## The libraries `errors` and `assert`, and the properties of `libVM` -/

/-- The methods of the VM and of its values and the functions of other packages that
`errors.go`, `assert.go` and the property methods of `libVM` call.  `NewPublicError` and
`NewError` are the methods of the VM with a single string argument, `Wrap e inner` is
the error `e` after `e.Wrap(inner)`, `nilErrorType` the result of `innerEx.Type()` for
the `nil` that a failed type assertion leaves in `innerEx` (`none` if the call panics),
`typeString t` the text of a type under the verb `%s`, `ParseInt s` the result of
`strconv.ParseInt(s, 0, 64)` (`none` for an error), `asGoError` the type assertion of a
host object to `error`; `getOther` and `setOther` are the cases of `GetProperty` and
`SetProperty` other than those embedded below (`none` for a name without a case). -/
structure NativeHost where
  NewPublicError : String → VM → Error
  NewError : String → VM → Error
  Wrap : Error → Error → Error
  nilErrorType : Option String
  typeString : VType → String
  Errorf : String → List String → GoError
  TypeName : Value → String
  ToString : Value → String
  ParseInt : String → Option Int
  showAssertMessage : String → List String → String
  asGoError : Obj → Option GoError
  getOther : String → VM → VM → Option (Value × Option GoError)
  setOther : String → Value → VM → Option (Option GoError × VM)

/-- The function `wrap` (errors.go, lines 100-139); `_public` is its parameter `public`,
which the body does not read.  `none` is a panic. -/
def wrap (N : NativeHost) (_public : Bool) (args : List Value) (vm : VM) :
    Option (Value × Option GoError) :=
  let ln := args.length
  if ln < 1 ∨ ln > 2 then
    some (NullValue, some (N.Errorf "expected 1 or 2 parameters, got %d" [toString ln]))
  else
    match args with
    | [] => none
    | v :: rest =>
      match v with
      | .string s =>
        let e := N.NewPublicError s vm
        match rest with
        | [] => some (NewObject (.error e), none)
        | innerObj :: _ =>
          match innerObj with
          | .null => some (NewObject (.error e), none)
          | .undefined => some (NewObject (.error e), none)
          | .string t => some (NewObject (.error (N.Wrap e (N.NewError t vm))), none)
          | .object (.error innerEx) => some (NewObject (.error (N.Wrap e innerEx)), none)
          | .object _ =>
            match N.nilErrorType with
            | none => none
            | some ty =>
              some (NullValue,
                some (N.Errorf "expected parameter 2 to be a Exception, got %s" [ty]))
          | w =>
            some (NullValue, some (N.Errorf "expected parameter 2 to be a Exception, got %s"
              [N.typeString w.Type]))
      | w =>
        some (NullValue, some (N.Errorf "expected parameter 1 to be a string, got %s"
          [N.typeString w.Type]))

/-- The native function `errors.wrap` (lines 84-90). -/
def errors_wrap (N : NativeHost) (args : List Value) (vm : VM) :
    Option (Value × Option GoError) :=
  wrap N false args vm

/-- The native function `errors.public` (lines 91-97). -/
def errors_public (N : NativeHost) (args : List Value) (vm : VM) :
    Option (Value × Option GoError) :=
  wrap N true args vm

/-- The native function `assert.float` (assert.go, lines 149-177); `none` is the panic
of `args[1]` or `args[0]` for a missing argument. -/
def assert_float (N : NativeHost) (args : List Value) : Option (Value × Option GoError) :=
  match args[1]? with
  | none => none
  | some a1 =>
    if a1.Type ≠ .String then
      some (NullValue,
        some (N.Errorf "expected argument 2 to be a string, got %s" [N.TypeName a1]))
    else
      match args[0]? with
      | none => none
      | some a =>
        let msg := match a1 with
          | .string s => s
          | w => N.ToString w
        match a.Type with
        | .Int => some (NewInt64 a.ToInt, none)
        | .String =>
          match N.ParseInt (match a with
            | .string s => s
            | w => N.ToString w) with
          | none =>
            some (NullValue, some (N.Errorf msg
              [N.showAssertMessage "%v is not float" [N.TypeName a]]))
          | some v => some (NewInt64 v, none)
        | _ =>
          some (NullValue, some (N.Errorf msg
            [N.showAssertMessage "%v is not float" [N.TypeName a]]))

/-- The error `ErrInvalidType` (errors.go line 13), given by its message. -/
def ErrInvalidType : GoError := .Err ⟨"invalid value type", false, 0, [], false⟩

/-- The error `ErrReadOnlyOrUndefined` (errors.go line 11), given by its message. -/
def ErrReadOnlyOrUndefined : GoError :=
  .Err ⟨"undefined or readonly property", false, 0, [], false⟩

/-- The method `libVM.GetProperty` (lines 893-925) of the object that wraps the VM
`child`, called from the VM `vm`: the case `"context"` (lines 895-896) and, from the
host, the other cases. -/
def libVM.GetProperty (N : NativeHost) (child : VM) (name : String) (vm : VM) :
    Value × Option GoError :=
  if name = "context" then (vm.Context, none)
  else
    match N.getOther name child vm with
    | some r => r
    | none => (UndefinedValue, none)

/-- The method `libVM.SetProperty` (lines 928-1003) of the object that wraps the VM
`child`, called from the VM `vm`: the error it returns and the state of the child.  The
cases `"error"` (lines 934-950) and `"context"` (lines 952-954) are embedded, the other
cases come from the host. -/
def libVM.SetProperty (L : LibHost) (N : NativeHost) (child : VM) (name : String) (v : Value)
    (vm : VM) : Option GoError × VM :=
  if !L.HasPermission "trusted" vm then (some ErrUnauthorized, child)
  else if name = "error" then
    match v with
    | .null => (none, { child with Error := none })
    | .object (.error e) => (none, { child with Error := some (.Err e) })
    | .object o =>
      match N.asGoError o with
      | some e => (none, { child with Error := some e })
      | none => (some ErrInvalidType, child)
    | _ => (some ErrInvalidType, child)
  else if name = "context" then (none, { child with Context := v })
  else
    match N.setOther name v child with
    | some r => r
    | none => (some ErrReadOnlyOrUndefined, child)

/-- A host for evaluating these libraries on concrete values: `NewPublicError` makes an
error whose `Public` flag is set, `NewError` one whose flag is not set, `Wrap` leaves the
flags and the message of the outer error, `ParseInt` reads no string, and the host knows
no other property. -/
def nativeDemo : NativeHost where
  NewPublicError := fun msg _ => ⟨msg, true, 0, [], false⟩
  NewError := fun msg _ => ⟨msg, false, 0, [], false⟩
  Wrap := fun e inner => { e with StackTrace := e.StackTrace ++ [inner.Message] }
  nilErrorType := none
  typeString := fun _ => ""
  Errorf := fun msg _ => .Err ⟨msg, false, 0, [], false⟩
  TypeName := fun _ => ""
  ToString := fun _ => ""
  ParseInt := fun _ => none
  showAssertMessage := fun msg _ => msg
  asGoError := fun _ => none
  getOther := fun _ _ _ => none
  setOther := fun _ _ _ => none

/-! ## Identifiers (`lib/dbx/schema.go`) -/

/-- The function `isDecimal` (lines 243-245). -/
def dbx.isDecimal (ch : Char) : Bool := decide ('0' ≤ ch) && decide (ch ≤ '9')

/-- The function `isIdent` (lines 236-241). -/
def dbx.isIdent (ch : Char) (pos : Nat) : Bool :=
  decide (ch = '_') ||
    decide ('A' ≤ ch) && decide (ch ≤ 'Z') ||
    decide ('a' ≤ ch) && decide (ch ≤ 'z') ||
    dbx.isDecimal ch && decide (pos > 0)

/-- The loop of `IsIdent` from the byte offset `i` on: `range` yields each character
with the offset of its first byte. -/
def dbx.IsIdentLoop : List Char → Nat → Bool
  | [], _ => true
  | c :: cs, i => if !dbx.isIdent c i then false else dbx.IsIdentLoop cs (i + c.utf8Size)

/-- The function `IsIdent` (lines 227-234), for a string given by its characters. -/
def dbx.IsIdent (s : List Char) : Bool := dbx.IsIdentLoop s 0


/-! ## Basic facts about the stores -/

theorem getLast_push {α : Type} (S : List α) (g : α) : (S ++ [g]).getLast? = some g := by
  simp

theorem dropLast_push {α : Type} (S : List α) (g : α) : (S ++ [g]).dropLast = S := by
  simp

theorem push_ne_nil {α : Type} (S : List α) (g : α) : S ++ [g] ≠ [] := by
  simp

theorem setPC_eq (vm : VM) (r : Nat) (f : stackFrame) (pc : Int)
    (hr : vm.frameRef = some r) (hf : vm.frames[r]? = some f) :
    vm.setPC pc = some (vm.putFrame r { f with pc := pc }) := by
  simp [VM.setPC, hr, hf]

theorem incPC_eq (vm : VM) (r : Nat) (f : stackFrame) (n : Int)
    (hr : vm.frameRef = some r) (hf : vm.frames[r]? = some f) :
    vm.incPC n = some (vm.putFrame r { f with pc := f.pc + n }) := by
  simp [VM.incPC, hr, hf]

theorem putFrame_currentFrame (vm : VM) (r : Nat) (f g : stackFrame)
    (hr : vm.frameRef = some r) (hf : vm.frames[r]? = some f) :
    (vm.putFrame r g).currentFrame = some g := by
  have hlt : r < vm.frames.length := by
    rcases List.getElem?_eq_some_iff.mp hf with ⟨h, _⟩
    exact h
  have hr2 : (vm.putFrame r g).frameRef = some r := hr
  unfold VM.currentFrame
  rw [hr2]
  simp [VM.putFrame, hlt]

theorem currentFrame_split (vm : VM) (f : stackFrame) (h : vm.currentFrame = some f) :
    ∃ r, vm.frameRef = some r ∧ vm.frames[r]? = some f := by
  unfold VM.currentFrame at h
  cases hr : vm.frameRef with
  | none => simp [hr] at h
  | some r => exact ⟨r, rfl, by simpa [hr] using h⟩

/-- The three outcomes of `exec_fen` on a stack `S ++ [g]`. -/
theorem exec_fen_eq (h : Host) (vm : VM) (S : List tryCatch) (g : tryCatch) :
    exec_fen h { vm with tryCatchs := S ++ [g] } =
      match g.err with
      | some e => ({ vm with tryCatchs := S }.incPC 1).bind (raise h e)
      | none =>
          if g.retPC ≠ -1 then
            ({ vm with tryCatchs := S }.setPC g.retPC).bind (fun v => some (vm_continue, v))
          else some (vm_next, { vm with tryCatchs := S }) := by
  simp only [exec_fen, getLast_push, dropLast_push, Option.bind_eq_bind, Option.some_bind]

theorem with_tryCatchs_self (vm : VM) : ({ vm with tryCatchs := vm.tryCatchs } : VM) = vm := rfl

theorem currentFrame_with_tryCatchs (vm : VM) (S : List tryCatch) :
    ({ vm with tryCatchs := S } : VM).currentFrame = vm.currentFrame := rfl

/-- On a state with a current frame `f`, `setPC` succeeds, moves only the pc of `f`,
and keeps the guard stack. -/
theorem setPC_spec (vm : VM) (f : stackFrame) (pc : Int) (hf : vm.currentFrame = some f) :
    ∃ vm1, vm.setPC pc = some vm1 ∧ vm1.tryCatchs = vm.tryCatchs ∧
      vm1.currentFrame = some { f with pc := pc } := by
  obtain ⟨r, hr, hfr⟩ := currentFrame_split vm f hf
  exact ⟨_, setPC_eq vm r f pc hr hfr, rfl, putFrame_currentFrame vm r f _ hr hfr⟩

theorem incPC_spec (vm : VM) (f : stackFrame) (n : Int) (hf : vm.currentFrame = some f) :
    ∃ vm1, vm.incPC n = some vm1 ∧ vm1.tryCatchs = vm.tryCatchs ∧
      vm1.currentFrame = some { f with pc := f.pc + n } := by
  obtain ⟨r, hr, hfr⟩ := currentFrame_split vm f hf
  exact ⟨_, incPC_eq vm r f n hr hfr, rfl, putFrame_currentFrame vm r f _ hr hfr⟩

/-! ## Try / catch / finally -/

/-- C4: on a guard stack `S ++ [g]`, `exec_tre` removes the top guard `g` iff
`g.finallyPC = -1` and otherwise leaves the stack as it is; `exec_cen` removes exactly
`g`; `exec_fen` removes exactly `g` (with a stashed error the popped state is what the
error handler receives).  Consequently, after `exec_try` each normal completion path
(`tre` when there is no finally, `tre` then `fen` when there is one, `cen` after a catch
without finally) gives back the state, and so the guard stack, from before the try. -/
theorem try_guard_discipline (h : Host) (vm : VM) (S : List tryCatch) (g : tryCatch)
    (instr : Instruction) :
    exec_tre { vm with tryCatchs := S ++ [g] } =
        some (vm_next, { vm with tryCatchs := if g.finallyPC = -1 then S else S ++ [g] }) ∧
    exec_cen { vm with tryCatchs := S ++ [g] } = some (vm_next, { vm with tryCatchs := S }) ∧
    (g.err = none → ∀ c vm1, exec_fen h { vm with tryCatchs := S ++ [g] } = some (c, vm1) →
        vm1.tryCatchs = S) ∧
    (∀ e, g.err = some e → exec_fen h { vm with tryCatchs := S ++ [g] } = none ∨
        ∃ vmh, vmh.tryCatchs = S ∧
          exec_fen h { vm with tryCatchs := S ++ [g] } = raise h e vmh) ∧
    ∃ g0 : tryCatch,
      exec_try instr vm = some (vm_next, { vm with tryCatchs := vm.tryCatchs ++ [g0] }) ∧
      (g0.finallyPC = -1 →
        exec_tre { vm with tryCatchs := vm.tryCatchs ++ [g0] } = some (vm_next, vm)) ∧
      (g0.finallyPC ≠ -1 →
        exec_tre { vm with tryCatchs := vm.tryCatchs ++ [g0] } =
            some (vm_next, { vm with tryCatchs := vm.tryCatchs ++ [g0] }) ∧
        exec_fen h { vm with tryCatchs := vm.tryCatchs ++ [g0] } = some (vm_next, vm)) ∧
      exec_cen { vm with tryCatchs := vm.tryCatchs ++ [g0] } = some (vm_next, vm) := by
  have htre : ∀ (T : List tryCatch) (k : tryCatch),
      exec_tre { vm with tryCatchs := T ++ [k] } =
        some (vm_next, { vm with tryCatchs := if k.finallyPC = -1 then T else T ++ [k] }) := by
    intro T k
    simp only [exec_tre, getLast_push, dropLast_push, Option.bind_eq_bind, Option.some_bind]
    split <;> rfl
  have hcen : ∀ (T : List tryCatch) (k : tryCatch),
      exec_cen { vm with tryCatchs := T ++ [k] } = some (vm_next, { vm with tryCatchs := T }) := by
    intro T k
    simp only [exec_cen, push_ne_nil, dropLast_push, if_false]
  refine ⟨htre S g, hcen S g, ?_, ?_, ?_⟩
  · intro he c vm1 hrun
    rw [exec_fen_eq, he] at hrun
    by_cases hr : g.retPC = -1
    · simp only [hr, ne_eq, not_true_eq_false, if_false, Option.some.injEq, Prod.mk.injEq] at hrun
      rw [← hrun.2]
    · simp only [ne_eq, hr, not_false_eq_true, if_true] at hrun
      cases hs : VM.setPC { vm with tryCatchs := S } g.retPC with
      | none => rw [hs] at hrun; simp at hrun
      | some v =>
        rw [hs] at hrun
        simp only [Option.some_bind, Option.some.injEq, Prod.mk.injEq] at hrun
        rw [← hrun.2]
        unfold VM.setPC at hs
        cases hfr : VM.frameRef { vm with tryCatchs := S } with
        | none => rw [hfr] at hs; simp at hs
        | some r =>
          rw [hfr] at hs
          simp only [Option.bind_eq_bind, Option.some_bind] at hs
          cases hfm : ({ vm with tryCatchs := S } : VM).frames[r]? with
          | none => rw [hfm] at hs; simp at hs
          | some f =>
            rw [hfm] at hs
            simp only [Option.some_bind, Option.some.injEq] at hs
            rw [← hs]
            rfl
  · intro e he
    rw [exec_fen_eq, he]
    cases hs : VM.incPC { vm with tryCatchs := S } 1 with
    | none => left; rfl
    | some v =>
      right
      refine ⟨v, ?_, rfl⟩
      unfold VM.incPC at hs
      cases hfr : VM.frameRef { vm with tryCatchs := S } with
      | none => rw [hfr] at hs; simp at hs
      | some r =>
        rw [hfr] at hs
        simp only [Option.bind_eq_bind, Option.some_bind] at hs
        cases hfm : ({ vm with tryCatchs := S } : VM).frames[r]? with
        | none => rw [hfm] at hs; simp at hs
        | some f =>
          rw [hfm] at hs
          simp only [Option.some_bind, Option.some.injEq] at hs
          rw [← hs]
          rfl
  · refine ⟨{ catchPC := if instr.A.Kind = .AddrVoid then -1 else instr.A.Value,
              finallyPC := if instr.C.Kind = .AddrData then instr.C.Value else -1,
              retPC := -1, errorReg := instr.B, fp := vm.fp, err := none,
              finallyExecuted := false }, rfl, ?_, ?_, ?_⟩
    · intro hfin
      rw [htre, if_pos hfin]
    · intro hfin
      refine ⟨?_, ?_⟩
      · rw [htre, if_neg hfin]
      · rw [exec_fen_eq]
        rfl
    · rw [hcen]

/-- The two outcomes of `exec_trx` on a stack `S ++ [g]` when there is a current frame. -/
theorem exec_trx_eq (vm : VM) (S : List tryCatch) (g : tryCatch) (f : stackFrame)
    (hf : vm.currentFrame = some f) :
    exec_trx { vm with tryCatchs := S ++ [g] } =
      if g.finallyPC = -1 then some (vm_next, { vm with tryCatchs := S })
      else (VM.setPC { vm with tryCatchs := S ++ [{ g with retPC := f.pc + 1 }] }
              g.finallyPC).bind (fun v => some (vm_continue, v)) := by
  have hf2 : ({ vm with tryCatchs := S ++ [g] } : VM).currentFrame = some f := hf
  simp only [exec_trx, getLast_push, dropLast_push, hf2, Option.bind_eq_bind, Option.some_bind]

/-- C5: `exec_trx` at pc `p = f.pc` on a guard stack `S ++ [g]`.  If `g.finallyPC = -1`
the guard is popped and the handler returns next.  Otherwise the guard stays on the
stack with `retPC = p + 1`, the pc becomes `g.finallyPC`, and an `exec_fen` executed
later on that guard (no stashed error) pops it and sets the pc to `p + 1`. -/
theorem exec_trx_resumes (h : Host) (vm : VM) (S : List tryCatch) (g : tryCatch)
    (f : stackFrame) (hf : vm.currentFrame = some f) (hpc : 0 ≤ f.pc) :
    (g.finallyPC = -1 →
      exec_trx { vm with tryCatchs := S ++ [g] } = some (vm_next, { vm with tryCatchs := S })) ∧
    (g.finallyPC ≠ -1 →
      ∃ vm1, exec_trx { vm with tryCatchs := S ++ [g] } = some (vm_continue, vm1) ∧
        vm1.tryCatchs = S ++ [{ g with retPC := f.pc + 1 }] ∧
        vm1.currentFrame = some { f with pc := g.finallyPC } ∧
        (g.err = none → ∀ (vmF : VM) (fF : stackFrame),
          vmF.tryCatchs = vm1.tryCatchs → vmF.currentFrame = some fF →
          ∃ vm2, exec_fen h vmF = some (vm_continue, vm2) ∧ vm2.tryCatchs = S ∧
            vm2.currentFrame = some { fF with pc := f.pc + 1 })) := by
  refine ⟨?_, ?_⟩
  · intro hfin
    rw [exec_trx_eq vm S g f hf, if_pos hfin]
  · intro hfin
    obtain ⟨vm1, hset, htc, hcur⟩ :=
      setPC_spec { vm with tryCatchs := S ++ [{ g with retPC := f.pc + 1 }] } f g.finallyPC hf
    refine ⟨vm1, ?_, htc, hcur, ?_⟩
    · rw [exec_trx_eq vm S g f hf, if_neg hfin, hset]
      rfl
    · intro herr vmF fF hstack hcurF
      have hst : vmF.tryCatchs = S ++ [{ g with retPC := f.pc + 1 }] := hstack.trans htc
      have hvmF : vmF = { vmF with tryCatchs := S ++ [{ g with retPC := f.pc + 1 }] } := by
        rw [← hst]
      have hne : f.pc + 1 ≠ -1 := by omega
      obtain ⟨vm2, hset2, htc2, hcur2⟩ :=
        setPC_spec { vmF with tryCatchs := S } fF (f.pc + 1) hcurF
      refine ⟨vm2, ?_, htc2, hcur2⟩
      rw [hvmF, exec_fen_eq]
      simp only [herr, ne_eq, hne, not_false_eq_true, if_true, hset2, Option.some_bind]

/-- C5 at a concrete state: a frame at pc 7 under one guard with its finally at pc 20. -/
theorem exec_trx_resumes_witness :
    (0 : Int) ≤ 7 ∧
    ∃ vm1, exec_trx { vmOne .null .null with
        frames := [⟨0, 7, Void, 0, [], [], false, false⟩],
        tryCatchs := [] ++ [⟨-1, 20, -1, Void, 0, none, false⟩] } = some (vm_continue, vm1) ∧
      vm1.tryCatchs = [] ++ [⟨-1, 20, 7 + 1, Void, 0, none, false⟩] :=
  ⟨by decide,
    let r := (exec_trx_resumes plainHost
      { vmOne .null .null with frames := [⟨0, 7, Void, 0, [], [], false, false⟩] }
      [] ⟨-1, 20, -1, Void, 0, none, false⟩ ⟨0, 7, Void, 0, [], [], false, false⟩
      rfl (by decide)).2 (by decide)
    ⟨r.choose, r.choose_spec.1, r.choose_spec.2.1⟩⟩

/-- C6: `exec_fen` on a guard stack `S ++ [g]` with current frame `f` always pops `g`.
With a stashed error `e` the error goes to the VM error handler, in a state whose pc is
`f.pc + 1` (it is not set to `g.retPC`, whatever `g.retPC` is), and the handler decides
between continue and exit.  Without a stashed error and with `g.retPC ≠ -1` the pc is
set to `g.retPC` and the result is continue.  Otherwise the result is next and only the
guard stack has changed. -/
theorem exec_fen_outcomes (h : Host) (vm : VM) (S : List tryCatch) (g : tryCatch)
    (f : stackFrame) (hf : vm.currentFrame = some f) :
    (∀ e, g.err = some e →
      ∃ vmh, vmh.tryCatchs = S ∧ vmh.currentFrame = some { f with pc := f.pc + 1 } ∧
        exec_fen h { vm with tryCatchs := S ++ [g] } =
          some (if (h.handle e vmh).1 then vm_continue else vm_exit, (h.handle e vmh).2)) ∧
    (g.err = none → g.retPC ≠ -1 →
      ∃ vm1, exec_fen h { vm with tryCatchs := S ++ [g] } = some (vm_continue, vm1) ∧
        vm1.tryCatchs = S ∧ vm1.currentFrame = some { f with pc := g.retPC }) ∧
    (g.err = none → g.retPC = -1 →
      exec_fen h { vm with tryCatchs := S ++ [g] } = some (vm_next, { vm with tryCatchs := S })) := by
  refine ⟨?_, ?_, ?_⟩
  · intro e he
    obtain ⟨vmh, hinc, htc, hcur⟩ := incPC_spec { vm with tryCatchs := S } f 1 hf
    refine ⟨vmh, htc, hcur, ?_⟩
    rw [exec_fen_eq, he]
    simp only [hinc, Option.some_bind, raise]
  · intro he hret
    obtain ⟨vm1, hset, htc, hcur⟩ := setPC_spec { vm with tryCatchs := S } f g.retPC hf
    refine ⟨vm1, ?_, htc, hcur⟩
    rw [exec_fen_eq, he]
    simp only [ne_eq, hret, not_false_eq_true, if_true, hset, Option.some_bind]
  · intro he hret
    rw [exec_fen_eq, he]
    simp only [hret, ne_eq, not_true_eq_false, if_false]

/-- C6 at a concrete state: a guard with `retPC = 9` and no stashed error. -/
theorem exec_fen_outcomes_witness :
    ∃ vm1, exec_fen plainHost { vmOne .null .null with
        tryCatchs := [] ++ [⟨-1, 20, 9, Void, 0, none, false⟩] } = some (vm_continue, vm1) ∧
      vm1.tryCatchs = [] ∧
      vm1.currentFrame = some { (⟨0, 0, Void, 0, [], [], false, false⟩ : stackFrame) with pc := 9 } :=
  (exec_fen_outcomes plainHost (vmOne .null .null) [] ⟨-1, 20, 9, Void, 0, none, false⟩
    ⟨0, 0, Void, 0, [], [], false, false⟩ rfl).2.1 rfl (by decide)

/-! ## Throw -/

/-- C7: `exec_trw` on an empty guard stack, for every thrown value `v` in register `A`:
it runs the finalizables of the current frame, stores the error built from `v` in
`vm.Error` and returns exit.  Apart from `Error` the resulting state is the one the
finalizables left: the handler itself pushes no guard and pops no frame, so if the
finalizables leave the guard stack and the call stack in place, the guard stack is
still empty and the call stack and `fp` are those from before the throw. -/
theorem exec_trw_unhandled (h : Host) (instr : Instruction) (vm : VM) (v : Value) (cur : Nat)
    (hempty : vm.tryCatchs = []) (hv : vm.get instr.A = some v)
    (hcur : vm.frameRef = some cur) :
    exec_trw h instr vm =
        some (vm_exit, { h.runFinalizables cur vm with Error := some (thrownError h v vm) }) ∧
    (∀ c vm1, exec_trw h instr vm = some (c, vm1) →
      c = vm_exit ∧ vm1.Error = some (thrownError h v vm) ∧
      vm1.tryCatchs = (h.runFinalizables cur vm).tryCatchs ∧
      vm1.callStack = (h.runFinalizables cur vm).callStack ∧
      vm1.fp = (h.runFinalizables cur vm).fp ∧
      vm1.frames = (h.runFinalizables cur vm).frames ∧
      ((h.runFinalizables cur vm).tryCatchs = vm.tryCatchs → vm1.tryCatchs = []) ∧
      ((h.runFinalizables cur vm).callStack = vm.callStack → vm1.callStack = vm.callStack) ∧
      ((h.runFinalizables cur vm).fp = vm.fp → vm1.fp = vm.fp)) := by
  have heq : exec_trw h instr vm =
      some (vm_exit, { h.runFinalizables cur vm with Error := some (thrownError h v vm) }) := by
    simp only [exec_trw, hv, hempty, hcur, List.getLast?_nil, Option.bind_eq_bind,
      Option.some_bind]
  refine ⟨heq, ?_⟩
  intro c vm1 hrun
  rw [heq] at hrun
  simp only [Option.some.injEq, Prod.mk.injEq] at hrun
  obtain ⟨hc, hvm⟩ := hrun
  subst hvm
  refine ⟨hc.symm, rfl, rfl, rfl, rfl, rfl, ?_, ?_, ?_⟩
  · intro hk
    show (h.runFinalizables cur vm).tryCatchs = []
    rw [hk, hempty]
  · intro hk
    exact hk
  · intro hk
    exact hk

/-- C7 at a concrete state: the string "boom" is thrown with no guard on the stack. -/
theorem exec_trw_unhandled_witness :
    exec_trw plainHost ⟨loc 0, Void, Void⟩ (vmOne (.string "boom") .null) =
      some (vm_exit, { plainHost.runFinalizables 0 (vmOne (.string "boom") .null) with
        Error := some (thrownError plainHost (.string "boom") (vmOne (.string "boom") .null)) }) :=
  (exec_trw_unhandled plainHost ⟨loc 0, Void, Void⟩ (vmOne (.string "boom") .null)
    (.string "boom") 0 rfl rfl rfl).1

/-- The error propagation of `exec_trw`: with no guard the error is stored in
`vm.Error`; with a guard it is passed to the error handler, after the top guard was
dropped when its finally is already running. -/
theorem exec_trw_eq (h : Host) (instr : Instruction) (vm : VM) (v : Value)
    (hv : vm.get instr.A = some v) :
    exec_trw h instr vm =
      match vm.tryCatchs.getLast? with
      | none => (vm.frameRef).bind (fun cur =>
          some (vm_exit, { h.runFinalizables cur vm with Error := some (thrownError h v vm) }))
      | some g => raise h (thrownError h v vm)
          (if g.finallyExecuted then { vm with tryCatchs := vm.tryCatchs.dropLast } else vm) := by
  simp only [exec_trw, hv, Option.bind_eq_bind, Option.some_bind]

/-- C8: the error that `exec_trw` propagates for the value `v` of register `A`
(stored in `vm.Error` when no guard is active, passed to the error handler otherwise):
for an Error object with `IsRethrow = true` it is that object itself, for an Error
object with `IsRethrow = false` it is `WrapError` of that object, and for every other
value it is `NewError` of the string form of the value. -/
theorem exec_trw_error (h : Host) (instr : Instruction) (vm : VM) (v : Value)
    (hv : vm.get instr.A = some v) :
    ∃ err : GoError,
      (∀ e, v = .object (.error e) → e.IsRethrow = true → err = .Err e) ∧
      (∀ e, v = .object (.error e) → e.IsRethrow = false → err = h.WrapError (.Err e) vm) ∧
      ((∀ e, v ≠ .object (.error e)) → err = h.NewError (h.String v) [] vm) ∧
      (vm.tryCatchs = [] → ∀ cur, vm.frameRef = some cur →
        exec_trw h instr vm =
          some (vm_exit, { h.runFinalizables cur vm with Error := some err })) ∧
      (∀ g, vm.tryCatchs.getLast? = some g →
        exec_trw h instr vm = raise h err
          (if g.finallyExecuted then { vm with tryCatchs := vm.tryCatchs.dropLast } else vm)) := by
  refine ⟨thrownError h v vm, ?_, ?_, ?_, ?_, ?_⟩
  · intro e hve hre
    subst hve
    simp [thrownError, hre]
  · intro e hve hre
    subst hve
    simp [thrownError, hre]
  · intro hne
    unfold thrownError
    split
    · rename_i e
      exact absurd rfl (hne e)
    · rfl
  · intro hempty cur hcur
    rw [exec_trw_eq h instr vm v hv, hempty]
    simp only [List.getLast?_nil, hcur, Option.some_bind]
  · intro g hg
    rw [exec_trw_eq h instr vm v hv, hg]

/-- C8 at a concrete state: a rethrown Error object is stored unmodified. -/
theorem exec_trw_error_witness :
    ∃ err : GoError,
      (∀ e, (Value.object (.error ⟨"x", false, 3, ["main:1"], true⟩)) = .object (.error e) →
        e.IsRethrow = true → err = .Err e) ∧
      exec_trw plainHost ⟨loc 0, Void, Void⟩
          (vmOne (.object (.error ⟨"x", false, 3, ["main:1"], true⟩)) .null) =
        some (vm_exit, { plainHost.runFinalizables 0
            (vmOne (.object (.error ⟨"x", false, 3, ["main:1"], true⟩)) .null) with
          Error := some err }) :=
  let r := exec_trw_error plainHost ⟨loc 0, Void, Void⟩
    (vmOne (.object (.error ⟨"x", false, 3, ["main:1"], true⟩)) .null)
    (.object (.error ⟨"x", false, 3, ["main:1"], true⟩)) rfl
  ⟨r.choose, r.choose_spec.1, r.choose_spec.2.2.2.1 rfl 0 rfl⟩

/-! ## Division -/

/-- C9: `exec_div` on operands `lh`, `rh` of which neither is a Rune, both are Int or
Float, and `rh` is numerically zero (`Int 0`, or a Float `f` with `f == 0`): the error
"Attempt to divide by zero" is passed to the VM error handler in the unchanged state
(register `A` is not written before), and the handler returns continue or exit, never
next.  The case `lh = Int 1`, `rh = Int 0` is `1 / 0`. -/
theorem exec_div_by_zero (h : Host) (instr : Instruction) (vm : VM) (lh rh : Value)
    (hl : vm.get instr.B = some lh) (hr : vm.get instr.C = some rh)
    (hlt : lh.Type = .Int ∨ lh.Type = .Float)
    (hzero : rh = .int 0 ∨ ∃ f, rh = .float f ∧ f.isZero = true) :
    exec_div h instr vm =
        some (if (h.handle (h.NewError "Attempt to divide by zero" [] vm) vm).1
              then vm_continue else vm_exit,
              (h.handle (h.NewError "Attempt to divide by zero" [] vm) vm).2) ∧
    ∀ c vm1, exec_div h instr vm = some (c, vm1) →
      (c = vm_continue ∨ c = vm_exit) ∧ c ≠ vm_next ∧
      vm1 = (h.handle (h.NewError "Attempt to divide by zero" [] vm) vm).2 := by
  have hlr : lh.Type ≠ .Rune := by
    rcases hlt with hlt | hlt <;> rw [hlt] <;> decide
  have hrt : (rh.Type = .Int ∨ rh.Type = .Float) ∧ rh.Type ≠ .Rune ∧ rh.ToFloat.isZero = true := by
    rcases hzero with hz | ⟨f, hz, hf⟩
    · subst hz
      exact ⟨Or.inl rfl, by decide, by decide⟩
    · subst hz
      exact ⟨Or.inr rfl, by simp [Value.Type], hf⟩
  obtain ⟨hrt1, hrt2, hrt3⟩ := hrt
  have heq : exec_div h instr vm =
      some (if (h.handle (h.NewError "Attempt to divide by zero" [] vm) vm).1
            then vm_continue else vm_exit,
            (h.handle (h.NewError "Attempt to divide by zero" [] vm) vm).2) := by
    simp only [exec_div, hl, hr, Option.bind_eq_bind, Option.some_bind, hlr, hrt2, or_self,
      if_false, hlt, hrt1, not_true_eq_false, hrt3, if_true, raise, divideByZero]
  refine ⟨heq, ?_⟩
  intro c vm1 hrun
  rw [heq] at hrun
  simp only [Option.some.injEq, Prod.mk.injEq] at hrun
  obtain ⟨hc, hvm⟩ := hrun
  refine ⟨?_, ?_, hvm.symm⟩
  · rw [← hc]
    split
    · exact Or.inl rfl
    · exact Or.inr rfl
  · rw [← hc]
    split <;> decide

/-- C9 at a concrete state: `1 / 0`. -/
theorem exec_div_by_zero_witness :
    exec_div plainHost ⟨loc 0, loc 0, loc 1⟩ (vmOne (.int 1) (.int 0)) =
      some (vm_exit, { vmOne (.int 1) (.int 0) with
        Error := some (.Err ⟨"Attempt to divide by zero", false, 0, [], false⟩) }) :=
  (exec_div_by_zero plainHost ⟨loc 0, loc 0, loc 1⟩ (vmOne (.int 1) (.int 0)) (.int 1) (.int 0)
    rfl rfl (Or.inl rfl) (Or.inl rfl)).1

/-- C10: with a Rune dividend and a zero divisor `exec_div` reaches the integer
division `lh.ToRune()/rh.ToRune()` without a zero check: the handler aborts with the
Go run-time panic instead of raising "Attempt to divide by zero".  Evaluated on
`'a' / 0` (register 0 holds the Rune 97, register 1 the Int 0). -/
theorem exec_div_rune_zero_panics (h : Host) :
    exec_div h ⟨loc 0, loc 0, loc 1⟩ (vmOne (.rune 97) (.int 0)) = none := by
  rfl

/-- The same division by zero with a Rune divisor: `'a' / '\x00'`. -/
theorem exec_div_rune_rune_zero_panics (h : Host) :
    exec_div h ⟨loc 0, loc 0, loc 1⟩ (vmOne (.rune 97) (.rune 0)) = none := by
  rfl

/-! ## Registers: reading after writing -/

theorem writeReg_some (vm vm1 : VM) (r : Nat) (i : Int) (v : Value)
    (h : vm.writeReg r i v = some vm1) :
    ∃ rf, vm.regs[r]? = some rf ∧ 0 ≤ i ∧ i.toNat < rf.length ∧
      vm1 = { vm with regs := vm.regs.set r (rf.set i.toNat v) } := by
  unfold VM.writeReg at h
  cases hrf : vm.regs[r]? with
  | none => rw [hrf] at h; simp at h
  | some rf =>
    rw [hrf] at h
    simp only [Option.bind_eq_bind, Option.some_bind, store] at h
    by_cases hi : i < 0
    · simp [hi] at h
    · by_cases hl : i.toNat < rf.length
      · simp only [hi, if_false, hl, if_true, Option.some_bind, Option.some.injEq] at h
        exact ⟨rf, rfl, by omega, hl, h.symm⟩
      · simp [hi, hl] at h

theorem set_some (vm vm1 : VM) (a : Address) (v : Value) (h : vm.set a v = some vm1) :
    ∃ cell, vm.cell a = some cell ∧ vm.writeReg cell.1 cell.2 v = some vm1 := by
  unfold VM.set at h
  unfold VM.cell
  split at h
  · cases hf : vm.currentFrame with
    | none => rw [hf] at h; simp at h
    | some f =>
      rw [hf] at h
      exact ⟨(f.values, a.Value), by simp, by simpa using h⟩
  · exact ⟨(vm.globals, a.Value), by simp, h⟩
  · cases hf : vm.currentFrame with
    | none => rw [hf] at h; simp at h
    | some f =>
      rw [hf] at h
      simp only [Option.bind_eq_bind, Option.some_bind] at h
      cases hc : index f.closures a.Value with
      | none => rw [hc] at h; simp at h
      | some c =>
        rw [hc] at h
        exact ⟨(c.values, (c.register : Int)), by simp [hc], by simpa using h⟩
  · simp at h

theorem get_of_cell (vm : VM) (a : Address) (cell : Nat × Int) (h : vm.cell a = some cell) :
    vm.get a = vm.readCell cell := by
  unfold VM.cell at h
  unfold VM.get VM.readCell
  cases hk : a.Kind <;> rw [hk] at h <;> simp only [reduceCtorEq] at h ⊢
  · cases hf : vm.currentFrame with
    | none => rw [hf] at h; simp at h
    | some f =>
      rw [hf] at h
      simp only [Option.bind_eq_bind, Option.some_bind, Option.some.injEq] at h
      subst h
      simp
  · simp only [Option.some.injEq] at h
    subst h
    simp
  · cases hf : vm.currentFrame with
    | none => rw [hf] at h; simp at h
    | some f =>
      rw [hf] at h
      simp only [Option.bind_eq_bind, Option.some_bind] at h
      cases hc : index f.closures a.Value with
      | none => rw [hc] at h; simp at h
      | some c =>
        rw [hc] at h
        simp only [Option.some_bind, Option.some.injEq] at h
        subst h
        simp only [Option.bind_eq_bind, Option.some_bind, hc, VM.readClosure]
        have hnn : ¬ ((c.register : Int) < 0) := by omega
        simp [index, hnn]

theorem cell_with_regs (vm : VM) (R : List (List Value)) (a : Address) :
    ({ vm with regs := R } : VM).cell a = vm.cell a := rfl

/-- After a successful write of the cell, the cell reads the written value. -/
theorem writeReg_readCell (vm vm1 : VM) (cell : Nat × Int) (v : Value)
    (h : vm.writeReg cell.1 cell.2 v = some vm1) : vm1.readCell cell = some v := by
  obtain ⟨rf, hrf, hi, hl, hvm⟩ := writeReg_some vm vm1 cell.1 cell.2 v h
  have hlt : cell.1 < vm.regs.length := (List.getElem?_eq_some_iff.mp hrf).1
  subst hvm
  have hi2 : ¬ cell.2 < 0 := by omega
  simp [VM.readCell, index, hlt, hi2, hl]

/-- After `vm.set(a, v)` the address `a` reads `v`. -/
theorem set_get (vm vm1 : VM) (a : Address) (v : Value) (h : vm.set a v = some vm1) :
    vm1.get a = some v := by
  obtain ⟨cell, hcell, hw⟩ := set_some vm vm1 a v h
  have hcell1 : vm1.cell a = some cell := by
    obtain ⟨rf, _, _, _, hvm⟩ := writeReg_some vm vm1 cell.1 cell.2 v hw
    rw [hvm, cell_with_regs]
    exact hcell
  rw [get_of_cell vm1 a cell hcell1]
  exact writeReg_readCell vm vm1 cell v hw

/-- What `vm.set(a, v)` leaves in place: everything but the register file of the cell of `a`. -/
theorem set_frame_condition (vm vm1 : VM) (a : Address) (v : Value) (h : vm.set a v = some vm1) :
    ∃ cell rf, vm.cell a = some cell ∧ vm.regs[cell.1]? = some rf ∧
      vm1 = { vm with regs := vm.regs.set cell.1 (rf.set cell.2.toNat v) } := by
  obtain ⟨cell, hcell, hw⟩ := set_some vm vm1 a v h
  obtain ⟨rf, hrf, _, _, hvm⟩ := writeReg_some vm vm1 cell.1 cell.2 v hw
  exact ⟨cell, rf, hcell, hrf, hvm⟩

/-- The index of a written cell is not negative. -/
theorem set_cell_nonneg (vm vm1 : VM) (a : Address) (v : Value) (cell : Nat × Int)
    (h : vm.set a v = some vm1) (hcell : vm.cell a = some cell) : 0 ≤ cell.2 := by
  obtain ⟨cell1, hcell1, hw⟩ := set_some vm vm1 a v h
  have hc : cell1 = cell := Option.some.inj (hcell1.symm.trans hcell)
  subst hc
  obtain ⟨_, _, hi, _, _⟩ := writeReg_some vm vm1 cell1.1 cell1.2 v hw
  exact hi

/-! ## Return -/

theorem recycle_inClosure (vm : VM) (cur : Nat) (F : stackFrame)
    (hF : vm.frames[cur]? = some F) (hin : F.inClosure = true) : recycle cur vm = some vm := by
  simp [recycle, hF, hin]

theorem recycle_fresh (vm : VM) (cur : Nat) (F : stackFrame)
    (hF : vm.frames[cur]? = some F) (hin : F.inClosure = false) :
    recycle cur vm = some { vm with
      frames := vm.frames.set cur { F with finalizables := [], closures := [] }
      regs := vm.regs.set F.values (((vm.regs[F.values]?).getD []).map (fun _ => UndefinedValue))
      frameCache := vm.frameCache ++ [cur] } := by
  simp [recycle, hF, hin, VM.putFrame]

/-- The steps of `exec_ret` after the calls of `returnFromFinally` (which reports no
pending finally and leaves `vm1`) and of `runFinalizables` (after which the state is
`vm2`), for a frame other than the topmost one. -/
theorem exec_ret_pop (h : Host) (instr : Instruction) (vm vm1 vm2 vm3 : VM) (cur code : Nat)
    (hcur : vm.frameRef = some cur)
    (hnf : h.returnFromFinally vm = (false, vm1))
    (hpre : (if 0 < vm1.fp then h.runFinalizables cur vm1 else vm1) = vm2)
    (hfp : 0 < vm2.fp)
    (hrun : exec_ret h instr vm = some (code, vm3)) :
    ∃ retValue vm4 prev vm5 F,
      (if instr.A ≠ Void then vm2.get instr.A else some NullValue) = some retValue ∧
      vm2.fp ≤ vm2.callStack.length ∧
      recycle cur { vm2 with callStack := vm2.callStack.take vm2.fp, fp := vm2.fp - 1 } = some vm4 ∧
      vm4.currentFrame = some prev ∧
      (if prev.retAddress ≠ Void then vm4.set prev.retAddress retValue else some vm4) = some vm5 ∧
      vm5.frames[cur]? = some F ∧
      vm3 = (if F.exit then { vm5 with RetValue := retValue } else vm5) ∧
      code = (if F.exit then vm_exit else vm_continue) := by
  unfold exec_ret at hrun
  simp only [hcur, hnf, Option.bind_eq_bind, Option.some_bind, Bool.false_eq_true, if_false,
    gt_iff_lt, hpre] at hrun
  cases hret : (if instr.A ≠ Void then vm2.get instr.A else some NullValue) with
  | none => rw [hret] at hrun; simp at hrun
  | some retValue =>
    rw [hret] at hrun
    have hfp0 : ¬ vm2.fp = 0 := by omega
    simp only [Option.some_bind, hfp0, if_false] at hrun
    by_cases hlen : vm2.callStack.length < vm2.fp
    · simp [hlen] at hrun
    · simp only [hlen, if_false] at hrun
      cases h4 : recycle cur { vm2 with callStack := vm2.callStack.take vm2.fp, fp := vm2.fp - 1 } with
      | none => rw [h4] at hrun; simp at hrun
      | some vm4 =>
        rw [h4] at hrun
        simp only [Option.some_bind] at hrun
        cases hprev : vm4.currentFrame with
        | none => rw [hprev] at hrun; simp at hrun
        | some prev =>
          rw [hprev] at hrun
          simp only [Option.some_bind] at hrun
          cases h5 : (if prev.retAddress ≠ Void then vm4.set prev.retAddress retValue
              else some vm4) with
          | none => rw [h5] at hrun; simp at hrun
          | some vm5 =>
            rw [h5] at hrun
            simp only [Option.some_bind] at hrun
            cases hF : vm5.frames[cur]? with
            | none => rw [hF] at hrun; simp at hrun
            | some F =>
              rw [hF] at hrun
              simp only [Option.map_some', Option.some_bind] at hrun
              refine ⟨retValue, vm4, prev, vm5, F, rfl, by omega, rfl, hprev, h5, hF, ?_, ?_⟩
              · cases hex : F.exit
                · simp only [hex, Bool.false_eq_true, if_false, Option.some.injEq,
                    Prod.mk.injEq] at hrun ⊢
                  exact hrun.2.symm
                · simp only [hex, if_true, Option.some.injEq, Prod.mk.injEq] at hrun ⊢
                  exact hrun.2.symm
              · cases hex : F.exit
                · simp only [hex, Bool.false_eq_true, if_false, Option.some.injEq,
                    Prod.mk.injEq] at hrun ⊢
                  exact hrun.1.symm
                · simp only [hex, if_true, Option.some.injEq, Prod.mk.injEq] at hrun ⊢
                  exact hrun.1.symm

theorem recycle_cases (vm vm4 : VM) (cur : Nat) (hrec : recycle cur vm = some vm4) :
    ∃ F, vm.frames[cur]? = some F ∧
      ((F.inClosure = true ∧ vm4 = vm) ∨
       (F.inClosure = false ∧ vm4 = { vm with
          frames := vm.frames.set cur { F with finalizables := [], closures := [] }
          regs := vm.regs.set F.values
            (((vm.regs[F.values]?).getD []).map (fun _ => UndefinedValue))
          frameCache := vm.frameCache ++ [cur] })) := by
  cases hF : vm.frames[cur]? with
  | none => simp [recycle, hF] at hrec
  | some F =>
    refine ⟨F, rfl, ?_⟩
    by_cases hin : F.inClosure = true
    · left
      rw [recycle_inClosure vm cur F hF hin] at hrec
      exact ⟨hin, (Option.some.inj hrec).symm⟩
    · right
      have hin2 : F.inClosure = false := Bool.eq_false_iff.mpr hin
      rw [recycle_fresh vm cur F hF hin2] at hrec
      exact ⟨hin2, (Option.some.inj hrec).symm⟩

/-- The state that `exec_ret` returns differs from the state after the write of the
return value at most in `RetValue`. -/
theorem exit_fields (vm3 vm5 : VM) (b : Bool) (rv : Value)
    (h : vm3 = (if b then { vm5 with RetValue := rv } else vm5)) :
    vm3.frames = vm5.frames ∧ vm3.regs = vm5.regs ∧ vm3.callStack = vm5.callStack ∧
    vm3.fp = vm5.fp ∧ vm3.frameCache = vm5.frameCache ∧ vm3.globals = vm5.globals ∧
    vm3.tryCatchs = vm5.tryCatchs ∧ vm3.Constants = vm5.Constants := by
  subst h
  cases b <;> simp

/-- The reads `currentFrame`, `cell` and `get` depend only on these fields of the state. -/
theorem reads_congr (s t : VM) (hf : s.frames = t.frames) (hr : s.regs = t.regs)
    (hc : s.callStack = t.callStack) (hp : s.fp = t.fp) (hg : s.globals = t.globals)
    (hk : s.Constants = t.Constants) :
    s.currentFrame = t.currentFrame ∧ (∀ a, s.cell a = t.cell a) ∧ (∀ a, s.get a = t.get a) := by
  have h1 : s.currentFrame = t.currentFrame := by
    simp only [VM.currentFrame, VM.frameRef, hf, hc, hp]
  refine ⟨h1, ?_, ?_⟩
  · intro a
    simp only [VM.cell, h1, hg]
  · intro a
    simp only [VM.get, h1, hr, hg, hk, VM.readClosure]

/-- C3: `exec_ret` in a frame other than the topmost one (`fp > 0`) that is not diverted
to a pending finally; `vm2` is the state after the finalizables of the returning frame
ran.  The call stack is cut to its first `fp` entries and `fp` decreases by one, so the
stack shrinks by exactly one frame when `fp` designates its top.  If the caller frame's
`retAddress` is not `Void`, that address afterwards holds the value that register `A`
held in the returning frame in `vm2` (read before the frame's registers are cleared;
`Null` when `A` is `Void`).  If `retAddress` is `Void` no register is written: every
register file other than the one cleared for recycling is as in `vm2`. -/
theorem exec_ret_returns_value (h : Host) (instr : Instruction) (vm vm1 vm2 vm3 : VM)
    (cur code : Nat)
    (hcur : vm.frameRef = some cur)
    (hnf : h.returnFromFinally vm = (false, vm1))
    (hpre : (if 0 < vm1.fp then h.runFinalizables cur vm1 else vm1) = vm2)
    (hfp : 0 < vm2.fp)
    (hrun : exec_ret h instr vm = some (code, vm3)) :
    vm3.callStack = vm2.callStack.take vm2.fp ∧ vm3.fp + 1 = vm2.fp ∧
    (vm2.fp + 1 = vm2.callStack.length → vm3.callStack.length + 1 = vm2.callStack.length) ∧
    ∃ retValue prev,
      (if instr.A ≠ Void then vm2.get instr.A else some NullValue) = some retValue ∧
      vm3.currentFrame = some prev ∧
      (prev.retAddress ≠ Void → vm3.get prev.retAddress = some retValue) ∧
      (prev.retAddress = Void → ∀ rid,
        (∀ F, vm2.frames[cur]? = some F → F.inClosure = false → F.values ≠ rid) →
        vm3.regs[rid]? = vm2.regs[rid]?) := by
  obtain ⟨retValue, vm4, prev, vm5, Fx, hret, hlen, hrec, hprev, hset, hFx, hvm3, hcode⟩ :=
    exec_ret_pop h instr vm vm1 vm2 vm3 cur code hcur hnf hpre hfp hrun
  obtain ⟨h3f, h3r, h3c, h3p, h3k, h3g, h3t, h3K⟩ := exit_fields vm3 vm5 Fx.exit retValue hvm3
  obtain ⟨F, hF, hcase⟩ := recycle_cases _ vm4 cur hrec
  have h4 : vm4.callStack = vm2.callStack.take vm2.fp ∧ vm4.fp = vm2.fp - 1 := by
    rcases hcase with ⟨_, hv⟩ | ⟨_, hv⟩ <;> rw [hv] <;> exact ⟨rfl, rfl⟩
  have h5 : vm5.frames = vm4.frames ∧ vm5.callStack = vm4.callStack ∧ vm5.fp = vm4.fp ∧
      vm5.globals = vm4.globals ∧ vm5.Constants = vm4.Constants := by
    by_cases hv : prev.retAddress = Void
    · simp only [hv, ne_eq, not_true_eq_false, if_false, Option.some.injEq] at hset
      rw [← hset]
      simp
    · simp only [ne_eq, hv, not_false_eq_true, if_true] at hset
      obtain ⟨cell, rf, _, _, hv5⟩ := set_frame_condition vm4 vm5 prev.retAddress retValue hset
      rw [hv5]
      simp
  obtain ⟨h5f, h5c, h5p, h5g, h5K⟩ := h5
  have hstack : vm3.callStack = vm2.callStack.take vm2.fp := by rw [h3c, h5c, h4.1]
  refine ⟨hstack, ?_, ?_, retValue, prev, hret, ?_, ?_, ?_⟩
  · rw [h3p, h5p, h4.2]
    omega
  · intro htop
    rw [hstack, List.length_take]
    omega
  · have hcf5 : vm3.currentFrame = vm5.currentFrame :=
      (reads_congr vm3 vm5 h3f h3r h3c h3p h3g h3K).1
    have hcf4 : vm5.currentFrame = vm4.currentFrame := by
      simp only [VM.currentFrame, VM.frameRef, h5f, h5c, h5p]
    rw [hcf5, hcf4]
    exact hprev
  · intro hv
    simp only [ne_eq, hv, not_false_eq_true, if_true] at hset
    rw [(reads_congr vm3 vm5 h3f h3r h3c h3p h3g h3K).2.2]
    exact set_get vm4 vm5 prev.retAddress retValue hset
  · intro hv rid hrid
    simp only [hv, ne_eq, not_true_eq_false, if_false, Option.some.injEq] at hset
    rw [h3r, ← hset]
    rcases hcase with ⟨_, hv4⟩ | ⟨hin, hv4⟩
    · rw [hv4]
    · rw [hv4]
      have hne : F.values ≠ rid := hrid F hF hin
      simp [List.getElem?_set_ne hne]

/-- C3 at a concrete state: `ret 0` in the callee of `vmTwo`. -/
theorem exec_ret_returns_value_witness :
    vmTwoAfter.callStack = vmTwo.callStack.take vmTwo.fp ∧ vmTwoAfter.fp + 1 = vmTwo.fp ∧
    (vmTwo.fp + 1 = vmTwo.callStack.length →
      vmTwoAfter.callStack.length + 1 = vmTwo.callStack.length) ∧
    ∃ retValue prev,
      (if loc 0 ≠ Void then vmTwo.get (loc 0) else some NullValue) = some retValue ∧
      vmTwoAfter.currentFrame = some prev ∧
      (prev.retAddress ≠ Void → vmTwoAfter.get prev.retAddress = some retValue) ∧
      (prev.retAddress = Void → ∀ rid,
        (∀ F, vmTwo.frames[1]? = some F → F.inClosure = false → F.values ≠ rid) →
        vmTwoAfter.regs[rid]? = vmTwo.regs[rid]?) :=
  exec_ret_returns_value plainHost ⟨loc 0, Void, Void⟩ vmTwo vmTwo vmTwo vmTwoAfter 1 vm_continue
    rfl rfl rfl (by decide) rfl

/-! ## The frame cache -/

theorem frameUndefined_iff (vm : VM) (r : Nat) :
    vm.frameUndefined r = true ↔
      ∀ g, vm.frames[r]? = some g → ∀ rf, vm.regs[g.values]? = some rf →
        ∀ v ∈ rf, v = UndefinedValue := by
  unfold VM.frameUndefined
  cases hg : vm.frames[r]? with
  | none => simp
  | some g =>
    cases hrf : vm.regs[g.values]? with
    | none => simp [hrf]
    | some rf => simp [hrf, List.all_eq_true]

theorem cacheClean_iff (vm : VM) :
    vm.cacheClean = true ↔ ∀ r ∈ vm.frameCache, vm.frameUndefined r = true := by
  simp [VM.cacheClean, List.all_eq_true]

theorem cacheClean_congr (s t : VM) (hf : s.frames = t.frames) (hr : s.regs = t.regs)
    (hc : s.frameCache = t.frameCache) : s.cacheClean = t.cacheClean := by
  simp [VM.cacheClean, VM.frameUndefined, hf, hr, hc]

theorem cell_congr (s t : VM) (hf : s.frames = t.frames) (hc : s.callStack = t.callStack)
    (hp : s.fp = t.fp) (hg : s.globals = t.globals) (a : Address) : s.cell a = t.cell a := by
  simp only [VM.cell, VM.currentFrame, VM.frameRef, hf, hc, hp, hg]

/-- Clearing a frame for recycling keeps the cache clean, and the frame itself is clean. -/
theorem cacheClean_recycled (vm : VM) (cur : Nat) (F : stackFrame)
    (hinv : vm.cacheClean = true) (hF : vm.frames[cur]? = some F) :
    ({ vm with
        frames := vm.frames.set cur { F with finalizables := [], closures := [] }
        regs := vm.regs.set F.values
          (((vm.regs[F.values]?).getD []).map (fun _ => UndefinedValue))
        frameCache := vm.frameCache ++ [cur] } : VM).cacheClean = true := by
  have hlt : cur < vm.frames.length := (List.getElem?_eq_some_iff.mp hF).1
  rw [cacheClean_iff] at hinv ⊢
  intro r hr
  rw [frameUndefined_iff]
  intro g hg rf hrf v hv
  simp only at hg hrf hr
  by_cases hval : g.values = F.values
  · rw [hval] at hrf
    by_cases hin : F.values < vm.regs.length
    · rw [List.getElem?_set_self hin] at hrf
      simp only [Option.some.injEq] at hrf
      rw [← hrf] at hv
      simp only [List.mem_map] at hv
      obtain ⟨_, _, hv⟩ := hv
      exact hv.symm
    · rw [List.getElem?_eq_none (by simpa using hin)] at hrf
      simp at hrf
  · rw [List.getElem?_set_ne (Ne.symm hval)] at hrf
    by_cases hrc : r = cur
    · subst hrc
      rw [List.getElem?_set_self hlt] at hg
      simp only [Option.some.injEq] at hg
      exact absurd (by rw [← hg]) hval
    · rw [List.getElem?_set_ne (Ne.symm hrc)] at hg
      have hmem : r ∈ vm.frameCache := by
        rcases List.mem_append.mp hr with hm | hm
        · exact hm
        · exact absurd (List.mem_singleton.mp hm) hrc
      exact (frameUndefined_iff vm r).mp (hinv r hmem) g hg rf hrf v hv

/-- C1: `exec_ret` keeps the frame cache clean.  If `returnFromFinally` and
`runFinalizables` preserve "every frame in `frameCache` holds only `Undefined`
registers", the property holds before `exec_ret`, and in the resulting state the return
address of the current frame (the caller) does not designate a register of a cached
frame, then the property holds afterwards.  Moreover, whenever `exec_ret` pushes the
returning frame `cur` (not captured by a closure) onto `frameCache`, the cached frame
has empty `finalizables` and `closures` lists and all its registers are `Undefined`. -/
theorem exec_ret_cache_clean (h : Host) (instr : Instruction) (vm vm3 : VM) (code : Nat)
    (hkF : ∀ s : VM, s.cacheClean = true → (h.returnFromFinally s).2.cacheClean = true)
    (hkR : ∀ (r : Nat) (s : VM), s.cacheClean = true → (h.runFinalizables r s).cacheClean = true)
    (hinv : vm.cacheClean = true)
    (hrun : exec_ret h instr vm = some (code, vm3))
    (hsep : ∀ prev cell, vm3.currentFrame = some prev → prev.retAddress ≠ Void →
      vm3.cell prev.retAddress = some cell →
      ∀ r ∈ vm3.frameCache, ∀ g, vm3.frames[r]? = some g → g.values ≠ cell.1) :
    vm3.cacheClean = true ∧
    ∀ cur vm1 vm2 F, vm.frameRef = some cur → h.returnFromFinally vm = (false, vm1) →
      (if 0 < vm1.fp then h.runFinalizables cur vm1 else vm1) = vm2 → 0 < vm2.fp →
      vm2.frames[cur]? = some F → F.inClosure = false →
      vm3.frameCache = vm2.frameCache ++ [cur] ∧
      vm3.frames[cur]? = some { F with finalizables := [], closures := [] } ∧
      vm3.frameUndefined cur = true := by
  -- the steps after the two helper calls, for a frame other than the topmost one
  have hpop : ∀ cur vm1 vm2, vm.frameRef = some cur → h.returnFromFinally vm = (false, vm1) →
      (if 0 < vm1.fp then h.runFinalizables cur vm1 else vm1) = vm2 → 0 < vm2.fp →
      vm2.cacheClean = true →
      vm3.cacheClean = true ∧ ∀ F, vm2.frames[cur]? = some F → F.inClosure = false →
        vm3.frameCache = vm2.frameCache ++ [cur] ∧
        vm3.frames[cur]? = some { F with finalizables := [], closures := [] } := by
    intro cur vm1 vm2 hcur hnf hpre hfp hc2
    obtain ⟨retValue, vm4, prev, vm5, Fx, hret, hlen, hrec, hprev, hset, hFx, hvm3, hcode⟩ :=
      exec_ret_pop h instr vm vm1 vm2 vm3 cur code hcur hnf hpre hfp hrun
    obtain ⟨h3f, h3r, h3c, h3p, h3k, h3g, h3t, h3K⟩ := exit_fields vm3 vm5 Fx.exit retValue hvm3
    obtain ⟨F, hF, hcase⟩ := recycle_cases _ vm4 cur hrec
    have hF2 : vm2.frames[cur]? = some F := hF
    have hlt : cur < vm2.frames.length := (List.getElem?_eq_some_iff.mp hF2).1
    -- the recycled state is clean
    have hc4 : vm4.cacheClean = true := by
      rcases hcase with ⟨_, hv⟩ | ⟨_, hv⟩
      · rw [hv]
        exact hc2
      · rw [hv]
        exact cacheClean_recycled
          { vm2 with callStack := vm2.callStack.take vm2.fp, fp := vm2.fp - 1 } cur F hc2 hF
    -- the write of the return value does not touch a cached register file
    have h5 : vm5.frames = vm4.frames ∧ vm5.frameCache = vm4.frameCache ∧
        vm5.cacheClean = true := by
      by_cases hv : prev.retAddress = Void
      · simp only [hv, ne_eq, not_true_eq_false, if_false, Option.some.injEq] at hset
        rw [← hset]
        exact ⟨rfl, rfl, hc4⟩
      · simp only [ne_eq, hv, not_false_eq_true, if_true] at hset
        obtain ⟨cell, rf, hcell, hrf, hv5⟩ :=
          set_frame_condition vm4 vm5 prev.retAddress retValue hset
        have e5f : vm5.frames = vm4.frames := by rw [hv5]
        have e5k : vm5.frameCache = vm4.frameCache := by rw [hv5]
        have e5c : vm5.callStack = vm4.callStack := by rw [hv5]
        have e5p : vm5.fp = vm4.fp := by rw [hv5]
        have e5g : vm5.globals = vm4.globals := by rw [hv5]
        have e5r : vm5.regs = vm4.regs.set cell.1 (rf.set cell.2.toNat retValue) := by rw [hv5]
        refine ⟨e5f, e5k, ?_⟩
        have hcur3 : vm3.currentFrame = some prev := by
          rw [← hprev]
          simp only [VM.currentFrame, VM.frameRef, h3f, h3c, h3p, e5f, e5c, e5p]
        have hcell3 : vm3.cell prev.retAddress = some cell := by
          rw [cell_congr vm3 vm4 (h3f.trans e5f) (h3c.trans e5c) (h3p.trans e5p)
            (h3g.trans e5g)]
          exact hcell
        rw [cacheClean_iff] at hc4 ⊢
        intro r hr
        rw [frameUndefined_iff]
        intro g hg rf1 hrf1 v hv1
        rw [e5f] at hg
        rw [e5k] at hr
        have hne : g.values ≠ cell.1 :=
          hsep prev cell hcur3 hv hcell3 r (by rw [h3k, e5k]; exact hr) g
            (by rw [h3f, e5f]; exact hg)
        rw [e5r, List.getElem?_set_ne (Ne.symm hne)] at hrf1
        exact (frameUndefined_iff vm4 r).mp (hc4 r hr) g hg rf1 hrf1 v hv1
    obtain ⟨h5f, h5k, hc5⟩ := h5
    refine ⟨?_, ?_⟩
    · rw [cacheClean_congr vm3 vm5 h3f h3r h3k]
      exact hc5
    · intro F1 hF1 hin
      have hFF : F = F1 := Option.some.inj (hF2.symm.trans hF1)
      subst hFF
      rcases hcase with ⟨hin4, _⟩ | ⟨_, hv4⟩
      · rw [hin] at hin4
        exact absurd hin4 (by decide)
      · refine ⟨?_, ?_⟩
        · rw [h3k, h5k, hv4]
        · rw [h3f, h5f, hv4]
          simp [List.getElem?_set_self hlt]
  -- case analysis on the two helper calls
  cases hcur : vm.frameRef with
  | none => simp [exec_ret, hcur] at hrun
  | some cur =>
    cases hnf : h.returnFromFinally vm with
    | mk d vm1 =>
      have hc1 : vm1.cacheClean = true := by
        have := hkF vm hinv
        rw [hnf] at this
        exact this
      cases d with
      | true =>
        have hv3 : vm3 = vm1 := by
          simp only [exec_ret, hcur, hnf, Option.bind_eq_bind, Option.some_bind, if_true,
            Option.some.injEq, Prod.mk.injEq] at hrun
          exact hrun.2.symm
        refine ⟨by rw [hv3]; exact hc1, ?_⟩
        intro cur1 vm1a vm2 F _ hnf2 _ _ _ _
        simp at hnf2
      | false =>
        have hc2 : (if 0 < vm1.fp then h.runFinalizables cur vm1 else vm1).cacheClean = true := by
          split
          · exact hkR cur vm1 hc1
          · exact hc1
        by_cases hfp : 0 < (if 0 < vm1.fp then h.runFinalizables cur vm1 else vm1).fp
        · obtain ⟨hA, hB⟩ := hpop cur vm1 _ hcur hnf rfl hfp hc2
          refine ⟨hA, ?_⟩
          intro cur1 vm1a vm2 F hcur1 hnf2 hpre2 hfp2 hF hin
          have e1 : cur1 = cur := (Option.some.inj hcur1).symm
          have e2 : vm1a = vm1 := by
            have := hnf2
            simp only [Prod.mk.injEq, true_and] at this
            exact this.symm
          subst e1 e2 hpre2
          obtain ⟨hk, hf⟩ := hB F hF hin
          refine ⟨hk, hf, ?_⟩
          have hmem : cur1 ∈ vm3.frameCache := by rw [hk]; simp
          exact (cacheClean_iff vm3).mp hA cur1 hmem
        · have hfp0 : (if 0 < vm1.fp then h.runFinalizables cur vm1 else vm1).fp = 0 := by omega
          refine ⟨?_, ?_⟩
          · unfold exec_ret at hrun
            simp only [hcur, hnf, Option.bind_eq_bind, Option.some_bind, Bool.false_eq_true,
              if_false, gt_iff_lt] at hrun
            cases hret : (if instr.A ≠ Void then
                (if 0 < vm1.fp then h.runFinalizables cur vm1 else vm1).get instr.A
                else some NullValue) with
            | none => rw [hret] at hrun; simp at hrun
            | some retValue =>
              rw [hret] at hrun
              simp only [Option.some_bind, hfp0, if_true, Option.some.injEq,
                Prod.mk.injEq] at hrun
              rw [← hrun.2, ← hc2]
              exact cacheClean_congr _ _ rfl rfl rfl
          · intro cur1 vm1a vm2 F hcur1 hnf2 hpre2 hfp2 _ _
            have e1 : cur1 = cur := (Option.some.inj hcur1).symm
            have e2 : vm1a = vm1 := by
              have := hnf2
              simp only [Prod.mk.injEq, true_and] at this
              exact this.symm
            subst e1 e2 hpre2
            omega

/-- C1 at a concrete state: `ret 0` in the callee of `vmTwo` caches the cleared callee. -/
theorem exec_ret_cache_clean_witness :
    vmTwoAfter.cacheClean = true ∧ vmTwoAfter.frameCache = vmTwo.frameCache ++ [1] ∧
    vmTwoAfter.frames[1]? = some { (⟨1, 5, Void, 1, [], [9], false, false⟩ : stackFrame) with
      finalizables := [], closures := [] } ∧
    vmTwoAfter.frameUndefined 1 = true :=
  let r := exec_ret_cache_clean plainHost ⟨loc 0, Void, Void⟩ vmTwo vmTwoAfter vm_continue
    (fun _ hs => hs) (fun _ _ hs => hs) rfl rfl
    (by
      intro prev cell hprev _ hcell r hr g hg
      have hp : prev = ⟨0, 3, loc 1, 0, [], [], false, false⟩ :=
        (Option.some.inj hprev).symm
      subst hp
      have hc : cell = (0, 1) := (Option.some.inj hcell).symm
      subst hc
      have hr1 : r = 1 := by simpa [vmTwoAfter] using hr
      subst hr1
      have hg1 : g = ⟨1, 5, Void, 1, [], [], false, false⟩ := (Option.some.inj hg).symm
      subst hg1
      decide)
  ⟨r.1, r.2 1 vmTwo vmTwo ⟨1, 5, Void, 1, [], [9], false, false⟩ rfl rfl rfl (by decide) rfl rfl⟩

/-! ## Remainder -/

/-- C11: `exec_mod` on operands `lh`, `rh`.  It writes `A` (and returns next) only for
`Int % Int` and `Rune % (Rune or Int)` with a non-zero right operand; for those type
pairs a zero right operand raises "Attempt to divide by zero"; every pair with a Float
on either side raises "Invalid operation on T1 and T2"; and whenever it does not write
`A` it hands one of these two errors to the handler in the unchanged state. -/
theorem exec_mod_cases (h : Host) (instr : Instruction) (vm : VM) (lh rh : Value)
    (hl : vm.get instr.B = some lh) (hr : vm.get instr.C = some rh) :
    (∀ vm1, exec_mod h instr vm = some (vm_next, vm1) →
      (∃ a b, lh = .int a ∧ rh = .int b ∧ b ≠ 0 ∧
        vm.set instr.A (.int (wrap64 (Int.tmod a b))) = some vm1) ∨
      (∃ a, lh = .rune a ∧ (rh.Type = .Rune ∨ rh.Type = .Int) ∧ rh ≠ .int 0 ∧ rh ≠ .rune 0 ∧
        vm.set instr.A (.rune (wrap32 (Int.tmod a rh.ToRune))) = some vm1)) ∧
    ((lh.Type = .Int ∧ rh = .int 0) ∨ (lh.Type = .Rune ∧ (rh = .int 0 ∨ rh = .rune 0)) →
      exec_mod h instr vm = raise h (divideByZero h vm) vm) ∧
    (lh.Type = .Float ∨ rh.Type = .Float →
      exec_mod h instr vm = raise h (invalidOperation h lh rh vm) vm) ∧
    (exec_mod h instr vm = raise h (divideByZero h vm) vm ∨
      exec_mod h instr vm = raise h (invalidOperation h lh rh vm) vm ∨
      ∃ v, exec_mod h instr vm = setNext vm instr.A v) := by
  have hcode : ∀ (e : GoError) (vm1 : VM), raise h e vm ≠ some (vm_next, vm1) := by
    intro e vm1 hc
    simp only [raise, Option.some.injEq, Prod.mk.injEq] at hc
    have := hc.1
    split at this <;> simp [vm_continue, vm_exit, vm_next] at this
  have hun : exec_mod h instr vm =
      match lh.Type with
      | .Float => raise h (invalidOperation h lh rh vm) vm
      | .Int =>
        match rh.Type with
        | .Int =>
          if rh.ToInt = 0 then raise h (divideByZero h vm) vm
          else setNext vm instr.A (NewInt64 (wrap64 (Int.tmod lh.ToInt rh.ToInt)))
        | _ => raise h (invalidOperation h lh rh vm) vm
      | .Rune =>
        match rh.Type with
        | .Rune | .Int =>
          if rh.ToRune = 0 then raise h (divideByZero h vm) vm
          else setNext vm instr.A (NewRune (wrap32 (Int.tmod lh.ToRune rh.ToRune)))
        | _ => raise h (invalidOperation h lh rh vm) vm
      | _ => raise h (invalidOperation h lh rh vm) vm := by
    simp only [exec_mod, hl, hr, Option.bind_eq_bind, Option.some_bind]
  rw [hun]
  cases lh with
  | int a =>
    cases rh with
    | int b =>
      simp only [Value.Type, Value.ToInt, setNext, NewInt64]
      by_cases hz : b = 0
      · simp [hz, hcode]
      · simp [hz, hcode]
        exact Or.inr (Or.inr ⟨_, rfl⟩)
    | _ => simp [Value.Type, hcode]
  | rune a =>
    cases rh with
    | int b =>
      simp only [Value.Type, Value.ToRune, setNext, NewRune]
      by_cases hz : wrap32 b = 0
      · simp [hz, hcode]
      · have hb : b ≠ 0 := by
          intro hb
          apply hz
          rw [hb]
          decide
        simp [hz, hb, hcode]
        exact Or.inr (Or.inr ⟨_, rfl⟩)
    | rune b =>
      simp only [Value.Type, Value.ToRune, setNext, NewRune]
      by_cases hz : b = 0
      · simp [hz, hcode]
      · simp [hz, hcode]
        exact Or.inr (Or.inr ⟨_, rfl⟩)
    | _ => simp [Value.Type, hcode]
  | _ => simp [Value.Type, hcode]

/-- C11 at a concrete state: `7 % 0`. -/
theorem exec_mod_cases_witness :
    exec_mod plainHost ⟨loc 0, loc 0, loc 1⟩ (vmOne (.int 7) (.int 0)) =
      raise plainHost (divideByZero plainHost (vmOne (.int 7) (.int 0)))
        (vmOne (.int 7) (.int 0)) :=
  (exec_mod_cases plainHost ⟨loc 0, loc 0, loc 1⟩ (vmOne (.int 7) (.int 0)) (.int 7) (.int 0)
    rfl rfl).2.1 (Or.inl ⟨rfl, rfl⟩)

/-! ## Addition -/

theorem raise_ne_next (h : Host) (e : GoError) (vm vm1 : VM) :
    raise h e vm ≠ some (vm_next, vm1) := by
  intro hc
  simp only [raise, Option.some.injEq, Prod.mk.injEq] at hc
  have := hc.1
  split at this <;> simp [vm_continue, vm_exit, vm_next] at this

theorem setNext_some (vm vm1 : VM) (a : Address) (v : Value) (c : Nat)
    (hs : setNext vm a v = some (c, vm1)) : c = vm_next ∧ vm.set a v = some vm1 := by
  unfold setNext at hs
  cases hset : vm.set a v with
  | none => rw [hset] at hs; simp at hs
  | some vm2 =>
    rw [hset] at hs
    simp only [Option.map_some', Option.some.injEq, Prod.mk.injEq] at hs
    exact ⟨hs.1.symm, by rw [hs.2]⟩

/-- C12: `true + "x"` (register 0 holds the Bool, register 1 the String).  For every
host, also one whose every `AddAllocations` fails, `exec_add` writes the concatenated
String to `A` and returns next: the Bool case of `exec_add` (lines 376-379) calls
`AddAllocations` for neither operand. -/
theorem exec_add_bool_string_uncharged (h : Host) :
    exec_add h ⟨loc 0, loc 0, loc 1⟩ (vmOne (.bool true) (.string "x")) =
      some (vm_next, vmOne (.string (h.ToString (.bool true) ++ "x")) (.string "x")) := by
  rfl

/-- The second uncharged concatenation of `exec_add`: `"x" + undefined` (line 405). -/
theorem exec_add_string_undefined_uncharged (h : Host) :
    exec_add h ⟨loc 0, loc 0, loc 1⟩ (vmOne (.string "x") .undefined) =
      some (vm_next, vmOne (.string ("x" ++ "undefined")) .undefined) := by
  rfl

/-- C16: `exec_add` with a `Null` or `Undefined` left operand.  If the right operand
`rh` is `Null`, a String, an Int or a Float, `rh` itself is written to `A` (after the
instruction `A` reads `rh`) and the result is next; for every other type of `rh` the
error "Invalid operation on T1 and T2" goes to the handler in the unchanged state. -/
theorem exec_add_null_left (h : Host) (instr : Instruction) (vm : VM) (lh rh : Value)
    (hl : vm.get instr.B = some lh) (hr : vm.get instr.C = some rh)
    (hnull : lh = .null ∨ lh = .undefined) :
    (rh.Type = .Null ∨ rh.Type = .String ∨ rh.Type = .Int ∨ rh.Type = .Float →
      exec_add h instr vm = setNext vm instr.A rh ∧
      ∀ c vm1, exec_add h instr vm = some (c, vm1) → c = vm_next ∧ vm1.get instr.A = some rh) ∧
    (¬ (rh.Type = .Null ∨ rh.Type = .String ∨ rh.Type = .Int ∨ rh.Type = .Float) →
      exec_add h instr vm = raise h (invalidOperation h lh rh vm) vm) := by
  have hun : (rh.Type = .Null ∨ rh.Type = .String ∨ rh.Type = .Int ∨ rh.Type = .Float →
      exec_add h instr vm = setNext vm instr.A rh) ∧
      (¬ (rh.Type = .Null ∨ rh.Type = .String ∨ rh.Type = .Int ∨ rh.Type = .Float) →
      exec_add h instr vm = raise h (invalidOperation h lh rh vm) vm) := by
    unfold exec_add
    simp only [hl, hr, Option.bind_eq_bind, Option.some_bind]
    rcases hnull with hn | hn <;> subst hn <;> simp only [Value.Type] <;> cases rh <;>
      simp [Value.Type]
  refine ⟨fun ht => ⟨hun.1 ht, ?_⟩, hun.2⟩
  intro c vm1 hrun
  rw [hun.1 ht] at hrun
  obtain ⟨hc, hset⟩ := setNext_some vm vm1 instr.A rh c hrun
  exact ⟨hc, set_get vm vm1 instr.A rh hset⟩

/-- C16 at a concrete state: `null + 1` yields `Int 1`. -/
theorem exec_add_null_left_witness :
    exec_add plainHost ⟨loc 0, loc 0, loc 1⟩ (vmOne .null (.int 1)) =
      setNext (vmOne .null (.int 1)) (loc 0) (.int 1) :=
  ((exec_add_null_left plainHost ⟨loc 0, loc 0, loc 1⟩ (vmOne .null (.int 1)) .null (.int 1)
    rfl rfl (Or.inl rfl)).1 (Or.inr (Or.inr (Or.inl rfl)))).1

/-- C17: `exec_add` is not symmetric on a Rune and a Float.  With the Float on the left
(`1.0 + 'a'`, line 331) it writes a Rune to `A` and returns next; with the Float on the
right (`'a' + 1.0`, line 369) it raises "Invalid operation on T1 and T2". -/
theorem exec_add_float_rune (h : Host) (f : F64) :
    (∃ r, exec_add h ⟨loc 0, loc 0, loc 1⟩ (vmOne (.float f) (.rune 97)) =
      some (vm_next, vmOne (.rune r) (.rune 97))) ∧
    exec_add h ⟨loc 0, loc 0, loc 1⟩ (vmOne (.rune 97) (.float f)) =
      raise h (invalidOperation h (.rune 97) (.float f) (vmOne (.rune 97) (.float f)))
        (vmOne (.rune 97) (.float f)) :=
  ⟨⟨_, rfl⟩, rfl⟩

/-! ## Ordering -/

/-- The bit pattern of `float64(x)` for a non-zero 64-bit integer `x`: the sign bit is
set iff `x < 0`, the biased exponent lies in `1023..1087`, the fraction has 52 bits. -/
theorem ofInt_bits (x : Int) (hx0 : x ≠ 0) (hlo : -2 ^ 63 ≤ x) (hhi : x < 2 ^ 63) :
    ∃ sg E frac : Nat, (F64.ofInt x).bits = sg * 2 ^ 63 + E * 2 ^ 52 + frac ∧
      sg = (if x < 0 then 1 else 0) ∧ 1023 ≤ E ∧ E ≤ 1087 ∧ frac < 2 ^ 52 := by
  have hm0 : x.natAbs ≠ 0 := by omega
  have hm : x.natAbs ≤ 2 ^ 63 := by omega
  have he : x.natAbs.log2 ≤ 63 := by
    by_contra hc
    have h64 : 64 ≤ x.natAbs.log2 := by omega
    have := (Nat.le_log2 hm0).mp h64
    omega
  have hlt : x.natAbs < 2 ^ (x.natAbs.log2 + 1) := Nat.lt_log2_self
  unfold F64.ofInt
  simp only [hx0, if_false]
  by_cases h52 : x.natAbs.log2 ≤ 52
  · simp only [h52, if_true]
    refine ⟨(if x < 0 then 1 else 0), x.natAbs.log2 + 1023,
      x.natAbs * 2 ^ (52 - x.natAbs.log2) - 2 ^ 52, rfl, rfl, by omega, by omega, ?_⟩
    have hpow : 2 ^ (x.natAbs.log2 + 1) * 2 ^ (52 - x.natAbs.log2) = 2 ^ 53 := by
      rw [← pow_add]
      congr 1
      omega
    have hpos : 0 < 2 ^ (52 - x.natAbs.log2) := Nat.two_pow_pos _
    have : x.natAbs * 2 ^ (52 - x.natAbs.log2) < 2 ^ 53 := by
      rw [← hpow]
      exact Nat.mul_lt_mul_of_pos_right hlt hpos
    omega
  · simp only [h52, if_false]
    have hq : x.natAbs / 2 ^ (x.natAbs.log2 - 52) < 2 ^ 53 := by
      apply Nat.div_lt_of_lt_mul
      have hpow : 2 ^ (x.natAbs.log2 - 52) * 2 ^ 53 = 2 ^ (x.natAbs.log2 + 1) := by
        rw [← pow_add]
        congr 1
        omega
      rw [hpow]
      exact hlt
    have key : ∀ q1 : Nat, q1 ≤ 2 ^ 53 →
        ∃ sg E frac : Nat,
          (if q1 = 2 ^ 53 then
              (⟨(if x < 0 then 1 else 0) * 2 ^ 63 + (x.natAbs.log2 + 1 + 1023) * 2 ^ 52⟩ : F64)
            else ⟨(if x < 0 then 1 else 0) * 2 ^ 63 + (x.natAbs.log2 + 1023) * 2 ^ 52 +
              (q1 - 2 ^ 52)⟩).bits = sg * 2 ^ 63 + E * 2 ^ 52 + frac ∧
          sg = (if x < 0 then 1 else 0) ∧ 1023 ≤ E ∧ E ≤ 1087 ∧ frac < 2 ^ 52 := by
      intro q1 hq1
      by_cases h53 : q1 = 2 ^ 53
      · simp only [h53, if_true]
        exact ⟨(if x < 0 then 1 else 0), x.natAbs.log2 + 1 + 1023, 0, (Nat.add_zero _).symm, rfl,
          by omega, by omega, by norm_num⟩
      · simp only [h53, if_false]
        exact ⟨(if x < 0 then 1 else 0), x.natAbs.log2 + 1023, q1 - 2 ^ 52, rfl, rfl,
          by omega, by omega, by omega⟩
    apply key
    split <;> omega

/-- For a 64-bit integer `x`, `0 < float64(x)` holds iff `0 < x`. -/
theorem zero_lt_ofInt (x : Int) (hlo : -2 ^ 63 ≤ x) (hhi : x < 2 ^ 63) :
    F64.lt (F64.ofInt 0) (F64.ofInt x) = decide (0 < x) := by
  have hz : F64.ofInt 0 = ⟨0⟩ := by simp [F64.ofInt]
  by_cases hx0 : x = 0
  · subst hx0
    rw [hz]
    decide
  · obtain ⟨sg, E, frac, hb, hs, hE1, hE2, hf⟩ := ofInt_bits x hx0 hlo hhi
    rw [hz]
    simp only [F64.lt, F64.isNaN, F64.toOrd, hb]
    norm_num at hf ⊢
    by_cases hneg : x < 0
    · simp only [hneg, if_true] at hs
      subst hs
      have h1 : (1 * 9223372036854775808 + E * 4503599627370496 + frac) % 9223372036854775808
          = E * 4503599627370496 + frac := by omega
      have h2 : (1 * 9223372036854775808 + E * 4503599627370496 + frac) / 9223372036854775808 % 2
          = 1 := by omega
      have hnp : ¬ 0 < x := by omega
      simp [h1, h2, hnp]
      omega
    · simp only [hneg, if_false] at hs
      subst hs
      have h1 : (0 * 9223372036854775808 + E * 4503599627370496 + frac) % 9223372036854775808
          = E * 4503599627370496 + frac := by omega
      have h2 : (0 * 9223372036854775808 + E * 4503599627370496 + frac) / 9223372036854775808 % 2
          = 0 := by omega
      have hp : 0 < x := by omega
      simp [h1, h2, hp]
      omega

/-- C13, the claim fails: `null < "a"` (register 0 holds `Null`, register 1 the String)
writes `false`, not `true`. -/
theorem exec_lst_null_string_false :
    exec_lst plainHost ⟨loc 0, loc 0, loc 1⟩ (vmOne .null (.string "a")) =
      some (vm_next, vmOne (.bool false) (.string "a")) ∧
    exec_lst plainHost ⟨loc 0, loc 0, loc 1⟩ (vmOne .null (.string "a")) ≠
      some (vm_next, vmOne (.bool true) (.string "a")) :=
  ⟨rfl, by decide⟩

/-- C13 as amended: `exec_lst` with `Null` on the left orders `Null` as the number 0:
for a 64-bit Int `x` it writes `0 < x`, for a Float `f` the float comparison `0 < f`.
Against a String `Null` is not ordered: `lst(Null, s)` and `lst(s, Null)` both write
`false`. -/
theorem exec_lst_null (h : Host) (instr : Instruction) (vm : VM) (lh rh : Value)
    (hl : vm.get instr.B = some lh) (hr : vm.get instr.C = some rh) :
    (∀ x : Int, lh = .null → rh = .int x → -2 ^ 63 ≤ x → x < 2 ^ 63 →
      exec_lst h instr vm = setNext vm instr.A (NewBool (decide (0 < x)))) ∧
    (∀ f : F64, lh = .null → rh = .float f →
      exec_lst h instr vm = setNext vm instr.A (NewBool (F64.lt ⟨0⟩ f))) ∧
    (∀ s, lh = .null → rh = .string s → exec_lst h instr vm = setNext vm instr.A FalseValue) ∧
    (∀ s, lh = .string s → rh = .null → exec_lst h instr vm = setNext vm instr.A FalseValue) := by
  have hz : F64.ofInt 0 = ⟨0⟩ := by simp [F64.ofInt]
  unfold exec_lst
  simp only [hl, hr, Option.bind_eq_bind, Option.some_bind]
  refine ⟨?_, ?_, ?_, ?_⟩
  · intro x hlh hrh hlo hhi
    subst hlh hrh
    simp only [Value.Type, Value.ToFloat]
    rw [zero_lt_ofInt x hlo hhi]
  · intro f hlh hrh
    subst hlh hrh
    simp only [Value.Type, Value.ToFloat, hz]
  · intro s hlh hrh
    subst hlh hrh
    simp only [Value.Type]
  · intro s hlh hrh
    subst hlh hrh
    simp only [Value.Type]

/-- C13 as amended, at a concrete state: `null < 5` writes `true`. -/
theorem exec_lst_null_witness :
    exec_lst plainHost ⟨loc 0, loc 0, loc 1⟩ (vmOne .null (.int 5)) =
      setNext (vmOne .null (.int 5)) (loc 0) (NewBool (decide ((0 : Int) < 5))) :=
  (exec_lst_null plainHost ⟨loc 0, loc 0, loc 1⟩ (vmOne .null (.int 5)) .null (.int 5)
    rfl rfl).1 5 rfl rfl (by decide) (by decide)

/-- C14: on `Null` and a String `exec_lst` succeeds (it writes `false` and returns
next) but `exec_lse` raises "Invalid operation on T1 and T2"; the same holds with the
operands exchanged.  `exec_lse` has no case for a `Null` operand at all. -/
theorem exec_lse_null_fails :
    exec_lst plainHost ⟨loc 0, loc 0, loc 1⟩ (vmOne .null (.string "a")) =
      some (vm_next, vmOne (.bool false) (.string "a")) ∧
    exec_lse plainHost ⟨loc 0, loc 0, loc 1⟩ (vmOne .null (.string "a")) =
      some (vm_exit, { vmOne .null (.string "a") with
        Error := some (.Err ⟨"Invalid operation on %v and %v", false, 0, [], false⟩) }) ∧
    exec_lst plainHost ⟨loc 0, loc 0, loc 1⟩ (vmOne (.string "a") .null) =
      some (vm_next, vmOne (.bool false) .null) ∧
    exec_lse plainHost ⟨loc 0, loc 0, loc 1⟩ (vmOne (.string "a") .null) =
      some (vm_exit, { vmOne (.string "a") .null with
        Error := some (.Err ⟨"Invalid operation on %v and %v", false, 0, [], false⟩) }) :=
  ⟨rfl, rfl, rfl, rfl⟩

/-- For every host and every operand pair with a `Null` on either side `exec_lse`
raises "Invalid operation on T1 and T2". -/
theorem exec_lse_null (h : Host) (instr : Instruction) (vm : VM) (lh rh : Value)
    (hl : vm.get instr.B = some lh) (hr : vm.get instr.C = some rh)
    (hnull : lh = .null ∨ rh = .null) :
    exec_lse h instr vm = raise h (invalidOperation h lh rh vm) vm := by
  unfold exec_lse
  simp only [hl, hr, Option.bind_eq_bind, Option.some_bind]
  rcases hnull with hn | hn
  · subst hn
    simp only [Value.Type]
  · subst hn
    cases lh <;> simp only [Value.Type]

/-! ## Logical negation -/

/-- C15: `exec_not` on `Float 0.0` (register 1) writes `IsNilOrEmpty(0.0)`, which is
`false` for a host on which only `Null`, `Undefined` and the empty string are nil or
empty, although `exec_tjp` and `exec_mob` count `Float 0.0` as not true (`exec_mob`
writes `false` to `C`) and `exec_not` on `Int 0` writes `true`. -/
theorem exec_not_float_zero :
    (∀ h : Host, exec_not h ⟨loc 0, loc 1, Void⟩ (vmOne .null (.float ⟨0⟩)) =
      some (vm_next,
        vmOne (.bool (h.IsNilOrEmpty (vmOne .null (.float ⟨0⟩)) (.float ⟨0⟩))) (.float ⟨0⟩))) ∧
    exec_not plainHost ⟨loc 0, loc 1, Void⟩ (vmOne .null (.float ⟨0⟩)) =
      some (vm_next, vmOne (.bool false) (.float ⟨0⟩)) ∧
    (∀ (h : Host) (vm : VM), truthy h vm (.float ⟨0⟩) = false) ∧
    (∀ h : Host, exec_mob h ⟨loc 0, loc 1, loc 0⟩ (vmOne .null (.float ⟨0⟩)) =
      some (vm_next, vmOne (.bool false) (.float ⟨0⟩))) ∧
    (∀ h : Host, exec_not h ⟨loc 0, loc 1, Void⟩ (vmOne .null (.int 0)) =
      some (vm_next, vmOne (.bool true) (.int 0))) :=
  ⟨fun _ => rfl, rfl, fun _ _ => rfl, fun _ => rfl, fun _ => rfl⟩

/-! ## Subtraction and multiplication with a String operand -/

/-- C18, the claim fails: `"a" * 'b'` with a String of length 1 (register 0) and a Rune
(register 1) does not give a Rune; `exec_mul` raises "Invalid operation on T1 and T2".
So does `1 - "a"` in `exec_sub`. -/
theorem exec_mul_string_fails :
    goLen "a" = 1 ∧
    exec_mul plainHost ⟨loc 0, loc 0, loc 1⟩ (vmOne (.string "a") (.rune 98)) =
      some (vm_exit, { vmOne (.string "a") (.rune 98) with
        Error := some (.Err ⟨"Invalid operation on %v and %v", false, 0, [], false⟩) }) ∧
    (¬ ∃ vm1 r, exec_mul plainHost ⟨loc 0, loc 0, loc 1⟩ (vmOne (.string "a") (.rune 98)) =
      some (vm_next, vm1) ∧ vm1.get (loc 0) = some (.rune r)) ∧
    exec_sub plainHost ⟨loc 0, loc 0, loc 1⟩ (vmOne (.int 1) (.string "a")) =
      some (vm_exit, { vmOne (.int 1) (.string "a") with
        Error := some (.Err ⟨"Invalid operation on %v and %v", false, 0, [], false⟩) }) := by
  refine ⟨by decide, rfl, ?_, rfl⟩
  rintro ⟨vm1, r, hrun, _⟩
  have hx : exec_mul plainHost ⟨loc 0, loc 0, loc 1⟩ (vmOne (.string "a") (.rune 98)) =
      some (vm_exit, { vmOne (.string "a") (.rune 98) with
        Error := some (.Err ⟨"Invalid operation on %v and %v", false, 0, [], false⟩) }) := rfl
  rw [hx] at hrun
  simp only [Option.some.injEq, Prod.mk.injEq] at hrun
  exact absurd hrun.1 (by decide)

/-- C18 as amended.  In `exec_sub` a String operand takes part only with length 1
(in bytes) and only next to a Rune, to another String of length 1, or, for a String on
the left, to an Int; it then counts as the Rune of its byte and the result is a Rune.
A String of another length, and a String next to any other type, raises "Invalid
operation on T1 and T2" in the unchanged state.  In `exec_mul` every String operand
raises that error. -/
theorem sub_mul_string (h : Host) (instr : Instruction) (vm : VM) (lh rh : Value)
    (hl : vm.get instr.B = some lh) (hr : vm.get instr.C = some rh) :
    (lh.Type = .String ∨ rh.Type = .String →
      exec_mul h instr vm = raise h (invalidOperation h lh rh vm) vm) ∧
    (∀ s, lh = .string s → goLen s ≠ 1 →
      exec_sub h instr vm = raise h (invalidOperation h lh rh vm) vm) ∧
    (∀ s, rh = .string s → goLen s ≠ 1 →
      exec_sub h instr vm = raise h (invalidOperation h lh rh vm) vm) ∧
    (∀ s, rh = .string s → goLen s = 1 → lh.Type = .Rune →
      exec_sub h instr vm = setNext vm instr.A (.rune (wrap32 (lh.ToRune - firstByte s)))) ∧
    (∀ s, lh = .string s → goLen s = 1 → rh.Type = .Rune ∨ rh.Type = .Int →
      exec_sub h instr vm = setNext vm instr.A (.rune (wrap32 (firstByte s - rh.ToRune)))) ∧
    (∀ s t, lh = .string s → rh = .string t → goLen s = 1 → goLen t = 1 →
      exec_sub h instr vm = setNext vm instr.A (.rune (wrap32 (firstByte s - firstByte t)))) ∧
    (∀ s, lh = .string s → ¬ (rh.Type = .Rune ∨ rh.Type = .Int ∨ rh.Type = .String) →
      exec_sub h instr vm = raise h (invalidOperation h lh rh vm) vm) ∧
    (∀ s, rh = .string s → ¬ (lh.Type = .Rune ∨ lh.Type = .String) →
      exec_sub h instr vm = raise h (invalidOperation h lh rh vm) vm) := by
  refine ⟨?_, ?_, ?_, ?_, ?_, ?_, ?_, ?_⟩
  · intro hs
    unfold exec_mul
    simp only [hl, hr, Option.bind_eq_bind, Option.some_bind]
    rcases hs with hs | hs
    · simp only [hs]
    · simp only [hs]
      cases lh <;> simp only [Value.Type]
  · intro s hs hlen
    subst hs
    unfold exec_sub
    simp only [hl, hr, Option.bind_eq_bind, Option.some_bind, Value.Type, toStr, ne_eq, hlen,
      not_false_eq_true, if_true]
  · intro s hs hlen
    subst hs
    unfold exec_sub
    simp only [hl, hr, Option.bind_eq_bind, Option.some_bind]
    cases lh <;> simp [Value.Type, toStr, hlen]
  · intro s hs hlen hrune
    subst hs
    unfold exec_sub
    simp only [hl, hr, Option.bind_eq_bind, Option.some_bind, hrune]
    simp only [Value.Type, toStr, ne_eq, hlen, not_true_eq_false, if_false, NewRune]
  · intro s hs hlen hrt
    subst hs
    unfold exec_sub
    simp only [hl, hr, Option.bind_eq_bind, Option.some_bind]
    rcases hrt with hrt | hrt <;> simp only [hrt] <;>
      simp only [Value.Type, toStr, ne_eq, hlen, not_true_eq_false, if_false, NewRune]
  · intro s t hs ht hls hlt
    subst hs ht
    unfold exec_sub
    simp only [hl, hr, Option.bind_eq_bind, Option.some_bind, Value.Type, toStr, ne_eq, hls,
      hlt, not_true_eq_false, if_false, NewRune]
  · intro s hs hrt
    subst hs
    unfold exec_sub
    simp only [hl, hr, Option.bind_eq_bind, Option.some_bind]
    cases rh <;> simp [Value.Type] at hrt ⊢
  · intro s hs hlt
    subst hs
    unfold exec_sub
    simp only [hl, hr, Option.bind_eq_bind, Option.some_bind]
    cases lh <;> simp [Value.Type] at hlt ⊢

/-- C18 as amended, at a concrete state: `'c' - "a"`. -/
theorem sub_mul_string_witness :
    exec_sub plainHost ⟨loc 0, loc 0, loc 1⟩ (vmOne (.rune 99) (.string "a")) =
      setNext (vmOne (.rune 99) (.string "a")) (loc 0)
        (.rune (wrap32 ((Value.rune 99).ToRune - firstByte "a"))) :=
  (sub_mul_string plainHost ⟨loc 0, loc 0, loc 1⟩ (vmOne (.rune 99) (.string "a")) (.rune 99)
    (.string "a") rfl rfl).2.2.2.1 "a" rfl (by decide) rfl

/-! ## Arrays -/

theorem set_of_cell (vm : VM) (a : Address) (cell : Nat × Int) (v : Value)
    (h : vm.cell a = some cell) : vm.set a v = vm.writeReg cell.1 cell.2 v := by
  unfold VM.cell at h
  unfold VM.set
  cases hk : a.Kind <;> rw [hk] at h <;> simp only [reduceCtorEq] at h ⊢
  · cases hf : vm.currentFrame with
    | none => rw [hf] at h; simp at h
    | some f =>
      rw [hf] at h
      simp only [Option.bind_eq_bind, Option.some_bind, Option.some.injEq] at h
      subst h
      simp
  · simp only [Option.some.injEq] at h
    subst h
    rfl
  · cases hf : vm.currentFrame with
    | none => rw [hf] at h; simp at h
    | some f =>
      rw [hf] at h
      simp only [Option.bind_eq_bind, Option.some_bind] at h
      cases hc : index f.closures a.Value with
      | none => rw [hc] at h; simp at h
      | some c =>
        rw [hc] at h
        simp only [Option.some_bind, Option.some.injEq] at h
        subst h
        simp [hc]

/-- Writing an existing register succeeds, the register then reads the written value,
and the array stores are untouched. -/
theorem setNext_writable (vm : VM) (a : Address) (v : Value) (hw : vm.writable a = true) :
    ∃ vm1, setNext vm a v = some (vm_next, vm1) ∧ vm1.get a = some v ∧
      vm1.arrays = vm.arrays ∧ vm1.backings = vm.backings := by
  unfold VM.writable at hw
  cases hcell : vm.cell a with
  | none => rw [hcell] at hw; simp at hw
  | some cell =>
    rw [hcell] at hw
    simp only [Option.some_bind] at hw
    cases hrd : vm.readCell cell with
    | none => rw [hrd] at hw; simp at hw
    | some w =>
      unfold VM.readCell at hrd
      cases hrf : vm.regs[cell.1]? with
      | none => rw [hrf] at hrd; simp at hrd
      | some rf =>
        rw [hrf] at hrd
        simp only [Option.bind_eq_bind, Option.some_bind, index] at hrd
        have hi : ¬ cell.2 < 0 := by
          intro hc
          simp [hc] at hrd
        simp only [hi, if_false] at hrd
        have hlt : cell.2.toNat < rf.length := (List.getElem?_eq_some_iff.mp hrd).1
        have hset : vm.set a v =
            some { vm with regs := vm.regs.set cell.1 (rf.set cell.2.toNat v) } := by
          rw [set_of_cell vm a cell v hcell]
          simp [VM.writeReg, hrf, store, hi, hlt]
        refine ⟨_, ?_, set_get vm _ a v hset, rfl, rfl⟩
        simp [setNext, hset]

theorem writable_with_arrays (vm : VM) (A : List ArrayObject) (B : List (List Value))
    (a : Address) : ({ vm with arrays := A, backings := B } : VM).writable a = vm.writable a :=
  rfl

theorem arrayElems_congr (s t : VM) (ha : s.arrays = t.arrays) (hb : s.backings = t.backings)
    (id : Nat) : s.arrayElems id = t.arrayElems id := by
  simp only [VM.arrayElems, ha, hb]

theorem arrayElems_some (vm : VM) (id : Nat) (xs : List Value)
    (h : vm.arrayElems id = some xs) :
    ∃ o b, vm.arrays[id]? = some o ∧ vm.backings[o.backing]? = some b ∧ o.len ≤ b.length ∧
      xs = b.take o.len := by
  unfold VM.arrayElems at h
  cases ho : vm.arrays[id]? with
  | none => rw [ho] at h; simp at h
  | some o =>
    rw [ho] at h
    simp only [Option.bind_eq_bind, Option.some_bind] at h
    cases hb : vm.backings[o.backing]? with
    | none => rw [hb] at h; simp at h
    | some b =>
      rw [hb] at h
      simp only [Option.some_bind] at h
      by_cases hl : o.len ≤ b.length
      · simp only [hl, if_true, Option.some.injEq] at h
        exact ⟨o, b, rfl, hb, hl, h.symm⟩
      · simp [hl] at h

theorem arrayElems_eq (vm : VM) (id : Nat) (o : ArrayObject) (b : List Value)
    (ho : vm.arrays[id]? = some o) (hb : vm.backings[o.backing]? = some b)
    (hl : o.len ≤ b.length) : vm.arrayElems id = some (b.take o.len) := by
  simp [VM.arrayElems, ho, hb, hl]

/-- Allocating an array object and writing it to an existing register `a`. -/
theorem alloc_set (vm : VM) (a : Address) (o : ArrayObject) (hw : vm.writable a = true) :
    ∃ vm1, setNext (vm.newArrayObject o).2 a (vm.newArrayObject o).1 = some (vm_next, vm1) ∧
      vm1.get a = some (.array vm.arrays.length) ∧ vm1.arrays = vm.arrays ++ [o] ∧
      vm1.backings = vm.backings := by
  have hw2 : (vm.newArrayObject o).2.writable a = true := hw
  obtain ⟨vm1, hs, hg, ha, hb⟩ :=
    setNext_writable (vm.newArrayObject o).2 a (vm.newArrayObject o).1 hw2
  exact ⟨vm1, hs, hg, ha, hb⟩

/-- The new array object reads the elements of its slice. -/
theorem arrayElems_new (vm1 : VM) (A : List ArrayObject) (o : ArrayObject) (b : List Value)
    (ha : vm1.arrays = A ++ [o]) (hb : vm1.backings[o.backing]? = some b)
    (hl : o.len ≤ b.length) : vm1.arrayElems A.length = some (b.take o.len) := by
  apply arrayElems_eq vm1 A.length o b _ hb hl
  rw [ha]
  simp

/-- C19: `exec_spa` on register `A`.  When `A` holds an array with the elements
`xs ++ [last]`: if `last` is `Null` or `Undefined`, `A` afterwards holds an array with
the elements `xs`; if `last` is an array with the elements `ys`, `A` afterwards holds an
array with the elements `xs ++ ys`, of length `len(xs) + len(ys)`; for any other `last`
the error "Expected array, got ..." goes to the handler in the unchanged state.  When
`A` does not hold an array the same error is raised in the unchanged state, and an
empty array leaves the state unchanged. -/
theorem exec_spa_cases (h : Host) (instr : Instruction) (vm : VM) :
    (∀ id xs last, vm.get instr.A = some (.array id) →
      vm.arrayElems id = some (xs ++ [last]) → vm.writable instr.A = true →
      (last = .null ∨ last = .undefined →
        ∃ vm1 id1, exec_spa h instr vm = some (vm_next, vm1) ∧
          vm1.get instr.A = some (.array id1) ∧ vm1.arrayElems id1 = some xs) ∧
      (∀ idl ys, last = .array idl → vm.arrayElems idl = some ys →
        ∃ vm1 id1, exec_spa h instr vm = some (vm_next, vm1) ∧
          vm1.get instr.A = some (.array id1) ∧ vm1.arrayElems id1 = some (xs ++ ys) ∧
          (xs ++ ys).length = xs.length + ys.length) ∧
      (last.Type ≠ .Null → last.Type ≠ .Undefined → last.Type ≠ .Array →
        exec_spa h instr vm =
          raise h (h.NewErrorS "Expected array, got %v" [h.TypeName last] vm) vm)) ∧
    (∀ v, vm.get instr.A = some v → v.Type ≠ .Array →
      exec_spa h instr vm = raise h (h.NewErrorS "Expected array, got %v" [h.TypeName v] vm) vm) ∧
    (∀ id, vm.get instr.A = some (.array id) → vm.arrayElems id = some [] →
      exec_spa h instr vm = some (vm_next, vm)) := by
  refine ⟨?_, ?_, ?_⟩
  · intro id xs last hA hel hw
    obtain ⟨o, b, ho, hb, hl, hxs⟩ := arrayElems_some vm id _ hel
    have hlen : o.len = xs.length + 1 := by
      have := congrArg List.length hxs
      simp only [List.length_append, List.length_singleton, List.length_take] at this
      omega
    have hlast : (xs ++ [last])[(xs ++ [last]).length - 1]? = some last := by simp
    have hne : ¬ (xs ++ [last]).length = 0 := by simp
    have hsub : (xs ++ [last]).length - 1 = xs.length := by simp
    have htake : b.take xs.length = xs := by
      have h1 : b.take xs.length = (b.take o.len).take xs.length := by
        rw [List.take_take]
        congr 1
        omega
      rw [h1, ← hxs]
      simp
    have hlast2 : (xs ++ [last])[xs.length]? = some last := by simp
    have hnull : ∃ vm1 id1,
        setNext (vm.newArrayObject ⟨o.backing, xs.length⟩).2 instr.A
          (vm.newArrayObject ⟨o.backing, xs.length⟩).1 = some (vm_next, vm1) ∧
        vm1.get instr.A = some (.array id1) ∧ vm1.arrayElems id1 = some xs := by
      obtain ⟨vm1, hs, hg, ha, hbk⟩ := alloc_set vm instr.A ⟨o.backing, xs.length⟩ hw
      refine ⟨vm1, vm.arrays.length, hs, hg, ?_⟩
      have hb1 : vm1.backings[o.backing]? = some b := by rw [hbk]; exact hb
      have := arrayElems_new vm1 vm.arrays ⟨o.backing, xs.length⟩ b ha hb1 (by simp only; omega)
      rw [this]
      simp only [htake]
    refine ⟨?_, ?_, ?_⟩
    · intro hn
      rcases hn with hn | hn <;> subst hn
      · unfold exec_spa
        simp only [hA, ho, hel, Option.bind_eq_bind, Option.some_bind, hne, if_false, hsub,
          hlast2]
        exact hnull
      · unfold exec_spa
        simp only [hA, ho, hel, Option.bind_eq_bind, Option.some_bind, hne, if_false, hsub,
          hlast2]
        exact hnull
    · intro idl ys hla hys
      subst hla
      unfold exec_spa
      simp only [hA, ho, hel, Option.bind_eq_bind, Option.some_bind, hne, if_false, hsub,
        hlast2, hys]
      have hbl : o.backing < vm.backings.length := (List.getElem?_eq_some_iff.mp hb).1
      by_cases hcap : xs.length + ys.length ≤ b.length
      · -- the capacity suffices: the elements are written in place
        have happ : vm.appendSlice o xs.length ys =
            some (⟨o.backing, xs.length + ys.length⟩, { vm with backings := (vm.backings.set
              o.backing (b.take xs.length ++ ys ++ b.drop (xs.length + ys.length))) }) := by
          simp [VM.appendSlice, hb, hcap]
        rw [happ]
        simp only [Option.some_bind]
        obtain ⟨vm1, hs, hg, ha, hbk⟩ := alloc_set
          { vm with backings := (vm.backings.set
              o.backing (b.take xs.length ++ ys ++ b.drop (xs.length + ys.length))) }
          instr.A ⟨o.backing, xs.length + ys.length⟩ hw
        refine ⟨vm1, vm.arrays.length, hs, hg, ?_, by simp⟩
        have hb1 : vm1.backings[o.backing]? =
            some (b.take xs.length ++ ys ++ b.drop (xs.length + ys.length)) := by
          rw [hbk]
          simp [hbl]
        have := arrayElems_new vm1 vm.arrays ⟨o.backing, xs.length + ys.length⟩ _ ha hb1
          (by simp only [List.length_append, List.length_take, List.length_drop]; omega)
        rw [this, htake]
        simp only [Option.some.injEq, List.append_assoc]
        rw [← List.append_assoc]
        exact List.take_left' (by simp)
      · -- a new backing array is allocated
        have happ : vm.appendSlice o xs.length ys =
            some (⟨vm.backings.length, xs.length + ys.length⟩,
              { vm with backings := vm.backings ++ [b.take xs.length ++ ys] }) := by
          simp [VM.appendSlice, hb, hcap]
        rw [happ]
        simp only [Option.some_bind]
        obtain ⟨vm1, hs, hg, ha, hbk⟩ := alloc_set
          { vm with backings := vm.backings ++ [b.take xs.length ++ ys] }
          instr.A ⟨vm.backings.length, xs.length + ys.length⟩ hw
        refine ⟨vm1, vm.arrays.length, hs, hg, ?_, by simp⟩
        have hb1 : vm1.backings[vm.backings.length]? = some (b.take xs.length ++ ys) := by
          rw [hbk]
          simp
        have := arrayElems_new vm1 vm.arrays ⟨vm.backings.length, xs.length + ys.length⟩ _ ha hb1
          (by simp only [List.length_append, List.length_take]; omega)
        rw [this, htake]
        simp
    · intro h1 h2 h3
      unfold exec_spa
      simp only [hA, ho, hel, Option.bind_eq_bind, Option.some_bind, hne, if_false, hsub,
        hlast2]
      cases last <;> simp [Value.Type] at h1 h2 h3 ⊢
  · intro v hA hty
    unfold exec_spa
    simp only [hA, Option.bind_eq_bind, Option.some_bind]
    cases v <;> simp [Value.Type] at hty ⊢
  · intro id hA hel
    obtain ⟨o, b, ho, hb, hl, hxs⟩ := arrayElems_some vm id _ hel
    unfold exec_spa
    simp only [hA, ho, hel, Option.bind_eq_bind, Option.some_bind, List.length_nil, if_true]

/-- C19 at a concrete state: register 0 of `vmArr` holds `[1, 2, [7, 8]]`; after
`exec_spa` it holds an array with the elements `[1, 2] ++ [7, 8]`. -/
theorem exec_spa_cases_witness :
    ∃ vm1 id1, exec_spa plainHost ⟨loc 0, Void, Void⟩ vmArr = some (vm_next, vm1) ∧
      vm1.get (loc 0) = some (.array id1) ∧
      vm1.arrayElems id1 = some ([Value.int 1, .int 2] ++ [Value.int 7, .int 8]) ∧
      ([Value.int 1, .int 2] ++ [Value.int 7, .int 8]).length =
        [Value.int 1, .int 2].length + [Value.int 7, .int 8].length :=
  ((exec_spa_cases plainHost ⟨loc 0, Void, Void⟩ vmArr).1 0 [Value.int 1, .int 2] (.array 1)
    rfl rfl rfl).2.1 1 [Value.int 7, .int 8] rfl rfl

/-- Allocating a fresh array with the elements `xs` and writing it to an existing
register `a`: the register then holds a new array object that reads `xs` on a new
backing array, and the array objects that existed before read what they read before. -/
theorem newArrayValues_set (vm : VM) (a : Address) (xs : List Value)
    (hw : vm.writable a = true) :
    ∃ vm1, setNext (vm.newArrayValues xs).2 a (vm.newArrayValues xs).1 = some (vm_next, vm1) ∧
      vm1.get a = some (.array vm.arrays.length) ∧
      vm1.arrays = vm.arrays ++ [⟨vm.backings.length, xs.length⟩] ∧
      vm1.backings = vm.backings ++ [xs] ∧
      vm1.arrayElems vm.arrays.length = some xs ∧
      ∀ id ys, vm.arrayElems id = some ys → vm1.arrayElems id = some ys := by
  obtain ⟨vm1, hs, hg, ha, hb⟩ := alloc_set { vm with backings := vm.backings ++ [xs] } a
    ⟨vm.backings.length, xs.length⟩ hw
  refine ⟨vm1, hs, hg, ha, hb, ?_, ?_⟩
  · have hb1 : vm1.backings[vm.backings.length]? = some xs := by
      rw [hb]
      simp
    have := arrayElems_new vm1 vm.arrays ⟨vm.backings.length, xs.length⟩ xs ha hb1 (by simp)
    rw [this]
    simp
  · intro id ys hys
    obtain ⟨o, b, ho, hbk, hl, hxs⟩ := arrayElems_some vm id ys hys
    have hid : id < vm.arrays.length := (List.getElem?_eq_some_iff.mp ho).1
    have hbl : o.backing < vm.backings.length := (List.getElem?_eq_some_iff.mp hbk).1
    have ho1 : vm1.arrays[id]? = some o := by
      rw [ha, List.getElem?_append_left hid]
      exact ho
    have hb1 : vm1.backings[o.backing]? = some b := by
      rw [hb, List.getElem?_append_left hbl]
      exact hbk
    rw [arrayElems_eq vm1 id o b ho1 hb1 hl, hxs]

/-- C20: `exec_val`.  On an array `B` with the elements `xs`, register `A` receives a
new array object (one that did not exist before) with the elements `xs`, in order,
while `B` still reads `xs`; and no later assignment `B[i] = v` changes the elements of
the array in `A`.  On Bytes `bs`, `A` receives an array of the Ints of the bytes, in
order, each in `0..255`. -/
theorem exec_val_snapshot (h : Host) (instr : Instruction) (vm : VM)
    (hw : vm.writable instr.A = true) :
    (∀ idB xs, vm.get instr.B = some (.array idB) → vm.arrayElems idB = some xs →
      ∃ vm1 idA, exec_val h instr vm = some (vm_next, vm1) ∧
        vm1.get instr.A = some (.array idA) ∧ idA = vm.arrays.length ∧ idA ≠ idB ∧
        vm1.arrayElems idA = some xs ∧ vm1.arrayElems idB = some xs ∧
        ∀ i v vm2, vm1.arrayStore idB i v = some vm2 → vm2.arrayElems idA = some xs) ∧
    (∀ bs, vm.get instr.B = some (.bytes bs) →
      ∃ vm1 idA, exec_val h instr vm = some (vm_next, vm1) ∧
        vm1.get instr.A = some (.array idA) ∧
        vm1.arrayElems idA = some (bs.map (fun b => Value.int (b.val : Int))) ∧
        ∀ b ∈ bs, (0 : Int) ≤ (b.val : Int) ∧ (b.val : Int) ≤ 255) := by
  refine ⟨?_, ?_⟩
  · intro idB xs hB hxs
    obtain ⟨vm1, hs, hg, ha, hb, hnew, hold⟩ := newArrayValues_set vm instr.A xs hw
    obtain ⟨o, b, ho, hbk, hl, hxb⟩ := arrayElems_some vm idB xs hxs
    have hid : idB < vm.arrays.length := (List.getElem?_eq_some_iff.mp ho).1
    have hbl : o.backing < vm.backings.length := (List.getElem?_eq_some_iff.mp hbk).1
    refine ⟨vm1, vm.arrays.length, ?_, hg, rfl, by omega, hnew, hold idB xs hxs, ?_⟩
    · unfold exec_val
      simp only [hB, hxs, Option.bind_eq_bind, Option.some_bind]
      exact hs
    · intro i v vm2 hst
      have ho1 : vm1.arrays[idB]? = some o := by
        rw [ha, List.getElem?_append_left hid]
        exact ho
      have hb1 : vm1.backings[o.backing]? = some b := by
        rw [hb, List.getElem?_append_left hbl]
        exact hbk
      unfold VM.arrayStore at hst
      simp only [ho1, hb1, Option.bind_eq_bind, Option.some_bind] at hst
      split at hst
      · simp at hst
      · simp only [Option.some.injEq] at hst
        have ha2 : vm2.arrays = vm.arrays ++ [⟨vm.backings.length, xs.length⟩] := by
          rw [← hst]
          exact ha
        have hb2 : vm2.backings[vm.backings.length]? = some xs := by
          rw [← hst]
          simp only
          rw [List.getElem?_set_ne (by omega), hb]
          simp
        have := arrayElems_new vm2 vm.arrays ⟨vm.backings.length, xs.length⟩ xs ha2 hb2
          (by simp)
        rw [this]
        simp
  · intro bs hB
    obtain ⟨vm1, hs, hg, ha, hb, hnew, hold⟩ :=
      newArrayValues_set vm instr.A (bs.map (fun b => Value.int (b.val : Int))) hw
    refine ⟨vm1, vm.arrays.length, ?_, hg, hnew, ?_⟩
    · unfold exec_val
      simp only [hB, Option.bind_eq_bind, Option.some_bind]
      exact hs
    · intro b _
      have := b.isLt
      omega

/-- C20 at a concrete state: `exec_val` copies the array in register 0 of `vmArr` to
register 1 as a new array object with the same elements. -/
theorem exec_val_snapshot_witness :
    ∃ vm1 idA, exec_val plainHost ⟨loc 1, loc 0, Void⟩ vmArr = some (vm_next, vm1) ∧
      vm1.get (loc 1) = some (.array idA) ∧ idA = vmArr.arrays.length ∧ idA ≠ 0 ∧
      vm1.arrayElems idA = some [.int 1, .int 2, .array 1] ∧
      vm1.arrayElems 0 = some [.int 1, .int 2, .array 1] ∧
      ∀ i v vm2, vm1.arrayStore 0 i v = some vm2 →
        vm2.arrayElems idA = some [.int 1, .int 2, .array 1] :=
  (exec_val_snapshot plainHost ⟨loc 1, loc 0, Void⟩ vmArr rfl).1 0
    [.int 1, .int 2, .array 1] rfl rfl


/-! ## Closure creation and the return of the topmost frame -/

/-- Flagging the current frame as captured does not move the cell of an address. -/
theorem putFrame_cell (vm : VM) (r : Nat) (f : stackFrame) (hr : vm.frameRef = some r)
    (hf : vm.frames[r]? = some f) (a : Address) :
    (vm.putFrame r { f with inClosure := true }).cell a = vm.cell a := by
  have h1 := putFrame_currentFrame vm r f { f with inClosure := true } hr hf
  have h2 : vm.currentFrame = some f := by simp [VM.currentFrame, hr, hf]
  unfold VM.cell
  rw [h1, h2]
  rfl

/-- C21, the claim as stated fails: in the callee of `vmTwo` (function 1, whose
`Closures` list is `[0]`) `clo 1 0` builds a closure for function 0, whose `Closures`
list is empty; the closure written to register 1 has one closure register, taken from
the `Closures` list of function 1, and not the empty list of function 0. -/
theorem exec_clo_reads_creating_function :
    vmTwo.Functions[(0 : Nat)]? = some ⟨[]⟩ ∧
    (exec_clo ⟨loc 1, ⟨.AddrFunc, 0⟩, Void⟩ vmTwo).bind (fun p => p.2.get (loc 1)) =
      some (NewObject (.closure ⟨0, [⟨0, 1⟩]⟩)) ∧
    (exec_clo ⟨loc 1, ⟨.AddrFunc, 0⟩, Void⟩ vmTwo).bind (fun p => p.2.get (loc 1)) ≠
      (index vmTwo.Functions 0).map (fun fB => NewObject (.closure
        ⟨0, [] ++ fB.Closures.map (fun reg => ⟨reg, 1⟩)⟩)) := by
  decide

/-- C21 (amended): `exec_clo` with operands `A`, `B`, executed in the frame `frame`
whose function is `f` (the function with index `frame.funcIndex`) and with `A` an
existing register, returns next and writes to `A` a closure whose `FuncIndex` is `B`
and whose closure registers are those of the frame followed by one closure register
(register `reg`, register file of the frame) for each entry `reg` of `f.Closures`, the
`Closures` list of the function that executes the instruction. -/
theorem exec_clo_closure (instr : Instruction) (vm : VM) (r : Nat) (frame : stackFrame)
    (f : Function) (hr : vm.frameRef = some r) (hfr : vm.frames[r]? = some frame)
    (hf : vm.Functions[frame.funcIndex]? = some f) (hw : vm.writable instr.A = true) :
    ∃ vm1, exec_clo instr vm = some (vm_next, vm1) ∧
      vm1.get instr.A = some (NewObject (.closure
        ⟨instr.B.Value,
          frame.closures ++ f.Closures.map (fun reg => ⟨reg, frame.values⟩)⟩)) := by
  have hw1 : (vm.putFrame r { frame with inClosure := true }).writable instr.A = true := by
    unfold VM.writable
    rw [putFrame_cell vm r frame hr hfr]
    exact hw
  obtain ⟨vm1, hs, hg, _, _⟩ := setNext_writable _ instr.A (NewObject (.closure
    ⟨instr.B.Value, frame.closures ++ f.Closures.map (fun reg => ⟨reg, frame.values⟩)⟩)) hw1
  have hset := (setNext_some _ _ _ _ _ hs).2
  refine ⟨vm1, ?_, hg⟩
  unfold exec_clo
  simp only [hr, hfr, hf, Option.bind_eq_bind, Option.some_bind, hset]

/-- C21 (amended) at a concrete state: `clo 1 0` in the callee of `vmTwo`. -/
theorem exec_clo_closure_witness :
    ∃ vm1, exec_clo ⟨loc 1, ⟨.AddrFunc, 0⟩, Void⟩ vmTwo = some (vm_next, vm1) ∧
      vm1.get (loc 1) = some (NewObject (.closure ⟨0, [] ++ [0].map (fun reg => ⟨reg, 1⟩)⟩)) :=
  exec_clo_closure ⟨loc 1, ⟨.AddrFunc, 0⟩, Void⟩ vmTwo 1 ⟨1, 5, Void, 1, [], [9], false, false⟩
    ⟨[0]⟩ rfl rfl rfl rfl

/-- C22: `exec_ret` in the topmost frame.  `vm1` is the state that `returnFromFinally`
leaves when it reports no pending finally; with `vm1.fp = 0` and `retValue` the value
read at `A` (`Null` when `A` is `Void`), `exec_ret` returns exit, with `vm.Error` set
to `io.EOF` and `vm.RetValue` set to `retValue`; the call stack, `fp`, the frame cache,
the frames and the registers are those of `vm1`: nothing is popped, recycled or
written. -/
theorem exec_ret_top (h : Host) (instr : Instruction) (vm vm1 : VM) (cur : Nat)
    (retValue : Value)
    (hcur : vm.frameRef = some cur)
    (hnf : h.returnFromFinally vm = (false, vm1))
    (hfp : vm1.fp = 0)
    (hret : (if instr.A ≠ Void then vm1.get instr.A else some NullValue) = some retValue) :
    ∃ vm3, exec_ret h instr vm = some (vm_exit, vm3) ∧
      vm3.Error = some .EOF ∧ vm3.RetValue = retValue ∧
      (instr.A = Void → vm3.RetValue = NullValue) ∧
      vm3.callStack = vm1.callStack ∧ vm3.fp = vm1.fp ∧ vm3.frameCache = vm1.frameCache ∧
      vm3.frames = vm1.frames ∧ vm3.regs = vm1.regs := by
  refine ⟨{ vm1 with Error := some .EOF, RetValue := retValue }, ?_, rfl, rfl, ?_,
    rfl, rfl, rfl, rfl, rfl⟩
  · unfold exec_ret
    simp only [hcur, hnf, Option.bind_eq_bind, Option.some_bind]
    simp [hfp, hret]
  · intro hA
    rw [hA] at hret
    simpa using hret.symm

/-- C22 at a concrete state: `ret 0` in the only frame of `vmOne 5 null`. -/
theorem exec_ret_top_witness :
    ∃ vm3, exec_ret plainHost ⟨loc 0, Void, Void⟩ (vmOne (.int 5) .null) = some (vm_exit, vm3) ∧
      vm3.Error = some .EOF ∧ vm3.RetValue = .int 5 ∧
      (loc 0 = Void → vm3.RetValue = NullValue) ∧
      vm3.callStack = (vmOne (.int 5) .null).callStack ∧ vm3.fp = (vmOne (.int 5) .null).fp ∧
      vm3.frameCache = (vmOne (.int 5) .null).frameCache ∧
      vm3.frames = (vmOne (.int 5) .null).frames ∧ vm3.regs = (vmOne (.int 5) .null).regs :=
  exec_ret_top plainHost ⟨loc 0, Void, Void⟩ (vmOne (.int 5) .null) (vmOne (.int 5) .null) 0
    (.int 5) rfl rfl rfl rfl

/-! ## The runtime library -/

/-- C23: `finalizable.Close` on a VM whose `vm.Error` is the error `e`.  The finalizer is
called on the state with `vm.Error` cleared; whatever it returns and whatever state it
leaves, also when it panics, `Close` returns what the call returned and leaves the state
of the call with `vm.Error` set to `e` again: the error of the finalizer is reported
only as the return value. -/
theorem close_restores_error (L : LibHost) (f : finalizable) (vm : VM) (e : GoError)
    (he : vm.Error = some e) :
    finalizable.Close L f vm =
      ((finalizable.call L f { vm with Error := none }).1,
        { (finalizable.call L f { vm with Error := none }).2 with Error := some e }) ∧
    (finalizable.Close L f vm).2.Error = some e := by
  have h : finalizable.Close L f vm =
      ((finalizable.call L f { vm with Error := none }).1,
        { (finalizable.call L f { vm with Error := none }).2 with Error := some e }) := by
    simp [finalizable.Close, he]
  exact ⟨h, by rw [h]⟩

/-- C23 at a concrete state: the VM holds the error `failed`, the finalizer is the
function 0, whose run sets `vm.Error` to `io.EOF` and returns the error `io.EOF`:
`Close` returns `io.EOF` and `vm.Error` is `failed` again. -/
theorem close_restores_error_witness :
    finalizable.Close (demoHost false (some .EOF)) ⟨.func 0⟩
        { vmOne .null .null with Error := some errFailed } =
      (some (some .EOF), { vmOne .null .null with Error := some errFailed, steps := 5 }) ∧
    (finalizable.Close (demoHost false (some .EOF)) ⟨.func 0⟩
        { vmOne .null .null with Error := some errFailed }).2.Error = some errFailed :=
  close_restores_error (demoHost false (some .EOF)) ⟨.func 0⟩
    { vmOne .null .null with Error := some errFailed } errFailed rfl

/-- C24: the methods `run` and `initialize` of `libVM` leave the calling VM as it is,
for every host, child, argument list and caller: they never call `AddSteps`.  With a
host whose runs take five steps, `run` returns successfully, the child has taken five
steps and the caller's counter is still 0, whereas `runStaticFunc` adds the five steps
of the child to the caller. -/
theorem libVM_run_adds_no_steps :
    (∀ (L : LibHost) (child : VM) (args : List Value) (vm : VM),
      (libVM.run L child args vm).2.2 = vm) ∧
    (∀ (L : LibHost) (child : VM) (args : List Value) (vm : VM),
      (libVM.init L child args vm).2.2 = vm) ∧
    libVM.run (demoHost true none) (vmOne .null .null) [] (vmOne .null .null) =
      (some (.int 1, none), { vmOne .null .null with steps := 5, Error := some .EOF },
        vmOne .null .null) ∧
    libVM.runStaticFunc (demoHost true none) (vmOne .null .null) [.int 0] (vmOne .null .null) =
      (some (.int 1, none), { vmOne .null .null with steps := 5, Error := some .EOF },
        { vmOne .null .null with steps := 5 }) := by
  refine ⟨?_, ?_, by decide, by decide⟩
  · intro L child args vm
    unfold libVM.run
    split
    · rfl
    · split <;> rfl
  · intro L child args vm
    unfold libVM.init
    split
    · rfl
    · split <;> rfl

/-- C25: `program.toBytes` never asks for a permission: its result is the same for a
host that grants no permission.  With a host that grants none, `write` returns
`ErrUnauthorized` and writes nothing, but `toBytes` returns without error and has
written the program to the writer. -/
theorem program_toBytes_unguarded :
    (∀ (L : LibHost) (p : program) (args : List Value) (vm : VM) (sinks : Sinks),
      program.toBytes L p args vm sinks =
        program.toBytes { L with HasPermission := fun _ _ => false } p args vm sinks) ∧
    (demoHost false none).HasPermission "trusted" (vmOne .null .null) = false ∧
    program.write (demoHost false none) ⟨0⟩ [.object (.host 0)] (vmOne .null .null) [[]] =
      some ((NullValue, some ErrUnauthorized), [[]]) ∧
    program.toBytes (demoHost false none) ⟨0⟩ [.object (.host 0)] (vmOne .null .null) [[]] =
      some ((NullValue, none), [[1, 2, 3]]) := by
  refine ⟨fun _ _ _ _ _ => rfl, rfl, by decide, by decide⟩

/-! ## The SQL builder -/

/-- C30: `NameExprColumns` has no case for a `ParenExpr` and returns no column for it,
whatever it encloses.  So for a query without `WherePart`, after `AndQuery` with a
filter whose `WherePart` is the column `c`, `selectColumnNames` does not return `c`. -/
theorem nameExprColumns_paren :
    (∀ x : Expr, NameExprColumns (.paren x) = []) ∧
    (∀ c : ColumnNameExpr,
      (SelectQuery.mk [] [] none [] none [] []).AndQuery
          (some (SelectQuery.mk [] [] (some (.column c)) [] none [] [])) =
        some (SelectQuery.mk [] [] (some (.paren (.column c))) [] none [] []) ∧
      selectColumnNames (SelectQuery.mk [] [] (some (.paren (.column c))) [] none [] []) = [] ∧
      NameExprColumns (.column c) = [c]) := by
  refine ⟨fun x => ?_, fun c => ⟨rfl, ?_, ?_⟩⟩
  · simp [NameExprColumns]
  · simp [selectColumnNames, NameExprColumns, NameExprColumnsAll, fromColumnNames,
      selectColumnNamesAll]
  · simp [NameExprColumns]

/-! ## The router: strings and segments -/

theorem stringsSplit_ne_nil (s : List Char) : stringsSplit s ≠ [] := by
  cases s with
  | nil => simp [stringsSplit]
  | cons c cs =>
    unfold stringsSplit
    split
    · simp
    · split <;> simp

theorem stringsSplit_map (lower : Char → Char) (hl : ∀ c, lower c = '/' ↔ c = '/')
    (s : List Char) : stringsSplit (s.map lower) = (stringsSplit s).map (List.map lower) := by
  induction s with
  | nil => rfl
  | cons c cs ih =>
    simp only [List.map_cons, stringsSplit, hl, ih]
    by_cases hc : c = '/'
    · simp [hc]
    · simp only [hc, if_false]
      cases stringsSplit cs <;> simp

theorem segments_map (lower : Char → Char) (hl : ∀ c, lower c = '/' ↔ c = '/')
    (s : List Char) : segments (s.map lower) = (segments s).map (List.map lower) := by
  unfold segments
  rw [stringsSplit_map lower hl, List.filter_map]
  congr 1
  apply List.filter_congr
  intro x _
  simp

theorem stringsSplit_append (a b : List Char) :
    stringsSplit (a ++ '/' :: b) = stringsSplit a ++ stringsSplit b := by
  induction a with
  | nil => simp [stringsSplit]
  | cons c cs ih =>
    simp only [List.cons_append, stringsSplit, List.append_eq]
    rw [ih]
    by_cases hc : c = '/'
    · simp [hc]
    · simp only [hc, if_false]
      cases h : stringsSplit cs with
      | nil => exact absurd h (stringsSplit_ne_nil cs)
      | cons s ss => simp

theorem segments_append (a b : List Char) :
    segments (a ++ '/' :: b) = segments a ++ segments b := by
  simp [segments, stringsSplit_append]

theorem stringsSplit_of_no_slash (e : List Char) (h : '/' ∉ e) : stringsSplit e = [e] := by
  induction e with
  | nil => rfl
  | cons c cs ih =>
    have hc : c ≠ '/' := fun hc => h (by simp [hc])
    have hcs : '/' ∉ cs := fun hcs => h (by simp [hcs])
    simp [stringsSplit, hc, ih hcs]

theorem segments_of_no_slash (e : List Char) (h : '/' ∉ e) (he : e ≠ []) : segments e = [e] := by
  simp [segments, stringsSplit_of_no_slash e h, he]

theorem mem_stringsSplit (s : List Char) :
    ∀ x ∈ stringsSplit s, ∀ c ∈ x, c ∈ s := by
  induction s with
  | nil => intro x hx; simp [stringsSplit] at hx; subst hx; simp
  | cons d ds ih =>
    intro x hx c hc
    unfold stringsSplit at hx
    by_cases hd : d = '/'
    · simp only [hd, if_true, List.mem_cons] at hx
      rcases hx with hx | hx
      · subst hx; simp at hc
      · exact List.mem_cons_of_mem _ (ih x hx c hc)
    · simp only [hd, if_false] at hx
      cases h : stringsSplit ds with
      | nil => exact absurd h (stringsSplit_ne_nil ds)
      | cons s ss =>
        rw [h] at hx ih
        simp only [List.mem_cons] at hx
        rcases hx with hx | hx
        · subst hx
          simp only [List.mem_cons] at hc
          rcases hc with hc | hc
          · subst hc; simp
          · exact List.mem_cons_of_mem _ (ih s (by simp) c hc)
        · exact List.mem_cons_of_mem _ (ih x (by simp [hx]) c hc)

theorem mem_segments (s : List Char) (x : List Char) (hx : x ∈ segments s) :
    x ≠ [] ∧ ∀ c ∈ x, c ∈ s := by
  simp only [segments, List.mem_filter, decide_eq_true_eq] at hx
  exact ⟨hx.2, mem_stringsSplit s x hx.1⟩

theorem filepathExt_of_no_dot (s : List Char) (h : '.' ∉ s) : filepathExt s = [] := by
  unfold filepathExt
  have : '.' ∉ s.reverse.takeWhile (fun c => c != '/') := by
    intro hc
    exact h (List.mem_reverse.mp ((List.takeWhile_sublist _).subset hc))
  simp [this]

theorem extensionAsSegment_of_no_dot (s : List Char) (h : '.' ∉ s) :
    extensionAsSegment s = s := by
  simp [extensionAsSegment, filepathExt_of_no_dot s h]

/-! ## The router: the loops of `Add` and `Match` -/

theorem addLoop_filter (t : httpRoute) (segs : List (List Char)) :
    ∀ (params : List (List Char)) (n : routeNode),
      addLoop t segs params n = addLoop t (segs.filter (fun x => decide (x ≠ []))) params n := by
  induction segs with
  | nil => intro params n; rfl
  | cons s rest ih =>
    intro params n
    cases n with
    | mk child route =>
      by_cases hs : s = []
      · subst hs
        simp only [addLoop, if_true, ne_eq, not_true_eq_false, decide_False, Bool.false_eq_true,
          not_false_eq_true, List.filter_cons_of_neg]
        exact ih params _
      · simp only [ne_eq, hs, not_false_eq_true, decide_True, List.filter_cons_of_pos, addLoop,
          if_false]
        cases hk : List.lookup (if s.head? = some ':' then [':'] else s) child with
        | none => simp only [ih]
        | some n => simp only [ih]

theorem matchLoop_filter (lower : Char → Char) (segs : List (List Char)) :
    ∀ st : matchState,
      matchLoop lower segs st = matchLoop lower (segs.filter (fun x => decide (x ≠ []))) st := by
  induction segs with
  | nil => intro st; rfl
  | cons s rest ih =>
    intro st
    by_cases hs : s = []
    · subst hs
      simp only [matchLoop, if_true, ne_eq, not_true_eq_false, decide_False, Bool.false_eq_true,
        not_false_eq_true, List.filter_cons_of_neg]
      exact ih st
    · simp only [ne_eq, hs, not_false_eq_true, decide_True, List.filter_cons_of_pos, matchLoop,
        if_false]
      split
      · rfl
      · split
        · exact ih _
        · split
          · exact ih _
          · rfl

/-- Inserting a route into the empty trie gives the chain of the keys of its segments. -/
theorem addLoop_newNode (t : httpRoute) (segs : List (List Char))
    (hne : ∀ s ∈ segs, s ≠ []) :
    ∀ params : List (List Char),
      addLoop t segs params newNode =
        chain (segs.map keyOf) ⟨t.URL, params ++ segs.filterMap nameOf⟩ := by
  induction segs with
  | nil => intro params; simp [addLoop, newNode, chain]
  | cons s rest ih =>
    intro params
    have hs : s ≠ [] := hne s (by simp)
    have ih1 := ih (fun x hx => hne x (by simp [hx]))
    unfold newNode
    simp only [addLoop, hs, if_false, List.lookup, List.nil_append, List.map_cons, chain]
    by_cases hp : s.head? = some ':'
    · simp only [hp, if_true, keyOf, nameOf, List.filterMap_cons]
      rw [ih1 (params ++ [s.drop 1])]
      simp
    · simp only [hp, if_false, keyOf, nameOf, List.filterMap_cons]
      rw [ih1 params]

/-- At a node without children the loop of `Match` stops. -/
theorem matchLoop_leaf (lower : Char → Char) (us : List (List Char)) (st : matchState)
    (hne : ∀ u ∈ us, u ≠ []) (hleaf : st.node.child = []) : matchLoop lower us st = st := by
  cases us with
  | nil => rfl
  | cons u rest =>
    have hu : u ≠ [] := hne u (by simp)
    simp [matchLoop, hu, hleaf]

theorem map_lower_eq_mark (lower : Char → Char) (m : Char) (hm : ∀ c, lower c = m ↔ c = m)
    (u : List Char) : u.map lower = [m] ↔ u = [m] := by
  constructor
  · intro h
    match u, h with
    | [c], h =>
      simp only [List.map_cons, List.map_nil, List.cons.injEq, and_true] at h
      rw [(hm c).mp h]
  · intro h
    subst h
    simp [(hm m).mpr rfl]

theorem head_map_lower (lower : Char → Char) (m : Char) (hm : ∀ c, lower c = m ↔ c = m)
    (p : List Char) : (p.map lower).head? = some m ↔ p.head? = some m := by
  cases p with
  | nil => simp
  | cons c cs => simp [hm c]

/-- The key that `Add` files for a segment of a lower-cased pattern. -/
theorem keyOf_map_lower (lower : Char → Char) (hl : KeepsMarks lower) (p : List Char) :
    keyOf (p.map lower) = if p.head? = some ':' then [':'] else p.map lower := by
  unfold keyOf
  by_cases hp : p.head? = some ':'
  · simp [hp, (head_map_lower lower ':' (fun c => (hl c).2.1) p).mpr hp]
  · have : ¬ (p.map lower).head? = some ':' :=
      fun h => hp ((head_map_lower lower ':' (fun c => (hl c).2.1) p).mp h)
    simp only [this, hp, if_false]

/-- The loop of `Match` on the trie of a single route without wildcard, for a URL whose
segments fit the pattern: it ends at the end of the chain with the parameter values. -/
theorem matchLoop_chain (lower : Char → Char) (hl : KeepsMarks lower) (rt : httpRoute)
    (ps : List (List Char)) :
    ∀ (us params : List (List Char)), segmentsAgree lower ps us = true →
      (∀ p ∈ ps, p.map lower ≠ ['*']) → (∀ u ∈ us, u ≠ []) →
      matchLoop lower us ⟨chain ((ps.map (List.map lower)).map keyOf) rt, params, false, none⟩ =
        ⟨chain [] rt, params ++ paramValues ps us, false, none⟩ := by
  induction ps with
  | nil =>
    intro us params hag _ _
    cases us with
    | nil => simp [matchLoop, paramValues]
    | cons u us => simp [segmentsAgree] at hag
  | cons p ps ih =>
    intro us params hag hstar hne
    cases us with
    | nil => simp [segmentsAgree] at hag
    | cons u us =>
      have hu : u ≠ [] := hne u (by simp)
      have hp : p.map lower ≠ ['*'] := hstar p (by simp)
      simp only [segmentsAgree, Bool.and_eq_true] at hag
      obtain ⟨hhead, htail⟩ := hag
      have ih1 := fun params => ih us params htail (fun q hq => hstar q (by simp [hq]))
        (fun v hv => hne v (by simp [hv]))
      simp only [List.map_cons, keyOf_map_lower lower hl, chain]
      by_cases hc : p.head? = some ':'
      · simp only [hc, if_true, decide_eq_true_eq] at hhead
        have hlu : stringsToLower lower u ≠ [':'] := fun h =>
          hhead ((map_lower_eq_mark lower ':' (fun c => (hl c).2.1) u).mp h)
        have hlu2 : (stringsToLower lower u == [':']) = false := by simpa using hlu
        simp only [hc, if_true, paramValues, matchLoop, hu, if_false, routeNode.child,
          List.isEmpty_cons, Bool.false_eq_true, routeNode.get, List.lookup, hlu2]
        have h1 : ((['*'] : List Char) == [':']) = false := by decide
        simp only [h1, beq_self_eq_true]
        rw [ih1 (params ++ [u])]
        simp [chain]
      · simp only [hc, if_false, decide_eq_true_eq] at hhead
        have hk : (stringsToLower lower u == p.map lower) = true := by
          simp [stringsToLower, hhead]
        have h1 : ((['*'] : List Char) == p.map lower) = false := by
          simpa using fun h => hp h.symm
        simp only [hc, if_false, paramValues, matchLoop, hu, routeNode.child,
          List.isEmpty_cons, Bool.false_eq_true, routeNode.get, List.lookup, hk, h1]
        exact ih1 params

/-- The loop and the decision of `Match` on the trie of the single route `P/*`: the URL
matches exactly if the segments of `P` are, up to case, a prefix of its segments. -/
theorem matchResult_wildcard (lower : Char → Char) (rt : httpRoute) (ps : List (List Char)) :
    ∀ (us params : List (List Char)),
      (∀ p ∈ ps, p.map lower ≠ ['*'] ∧ p.map lower ≠ [':']) → (∀ u ∈ us, u ≠ []) →
      matchResult (matchLoop lower us
          ⟨chain (ps.map (List.map lower) ++ [['*']]) rt, params, false, none⟩) =
        if startsCI lower ps us = true then (⟨some rt, params⟩, true) else (⟨none, []⟩, false) := by
  induction ps with
  | nil =>
    intro us params _ hne
    simp only [List.map_nil, List.nil_append, chain, startsCI, if_true]
    cases us with
    | nil => simp [matchLoop, matchResult, routeNode.route, routeNode.get, routeNode.child]
    | cons u rest =>
      have hu : u ≠ [] := hne u (by simp)
      have hrest : ∀ v ∈ rest, v ≠ [] := fun v hv => hne v (by simp [hv])
      have h1 : ((['*'] : List Char) == [':']) = false := by decide
      have h2 : (([':'] : List Char) == ['*']) = false := by decide
      simp only [matchLoop, hu, if_false, routeNode.child, List.isEmpty_cons, Bool.false_eq_true,
        routeNode.get, List.lookup, beq_self_eq_true]
      cases hk : (stringsToLower lower u == ['*']) with
      | true =>
        simp only
        rw [matchLoop_leaf lower rest
          ⟨.mk [] (some rt), params, false, some (.mk [] (some rt))⟩ hrest rfl]
        simp [matchResult, routeNode.route]
      | false =>
        simp [h2, matchResult, routeNode.route, routeNode.get, routeNode.child]
  | cons p ps ih =>
    intro us params hlit hne
    obtain ⟨hp1, hp2⟩ := hlit p (by simp)
    have h1 : ((['*'] : List Char) == p.map lower) = false := by
      simpa using fun h => hp1 h.symm
    have h2 : (([':'] : List Char) == p.map lower) = false := by
      simpa using fun h => hp2 h.symm
    simp only [List.map_cons, List.cons_append, chain]
    cases us with
    | nil =>
      simp [matchLoop, matchResult, routeNode.route, routeNode.get, routeNode.child, startsCI,
        List.lookup, h1]
    | cons u rest =>
      have hu : u ≠ [] := hne u (by simp)
      have hrest : ∀ v ∈ rest, v ≠ [] := fun v hv => hne v (by simp [hv])
      simp only [matchLoop, hu, if_false, routeNode.child, List.isEmpty_cons, Bool.false_eq_true,
        routeNode.get, List.lookup, h1, h2, startsCI]
      by_cases hk : u.map lower = p.map lower
      · have hk2 : (stringsToLower lower u == p.map lower) = true := by
          simp [stringsToLower, hk]
        simp only [hk2, hk, decide_True, Bool.true_and]
        exact ih rest params (fun q hq => hlit q (by simp [hq])) hrest
      · have hk2 : (stringsToLower lower u == p.map lower) = false := by
          simpa [stringsToLower] using hk
        simp [hk2, hk, matchResult, routeNode.route, routeNode.get, routeNode.child,
          List.lookup, h1]

/-- The loop of `GetParam` finds the value at the first position of the name. -/
theorem getParamLoop_mem (name : List Char) (values : List (List Char))
    (ks : List (List Char)) :
    ∀ i, name ∈ ks → getParamLoop name values ks i = values[i + ks.indexOf name]? := by
  induction ks with
  | nil => intro i h; simp at h
  | cons k ks ih =>
    intro i h
    by_cases hk : k = name
    · subst hk
      simp [getParamLoop, List.indexOf_cons]
    · have hmem : name ∈ ks := by
        rcases List.mem_cons.mp h with h | h
        · exact absurd h.symm hk
        · exact h
      have hb : (k == name) = false := by simpa using hk
      simp only [getParamLoop, hk, if_false, ih (i + 1) hmem, List.indexOf_cons, hb, cond_false]
      congr 1
      omega

/-- As many values as names. -/
theorem paramValues_length (lower : Char → Char) (hl : KeepsMarks lower)
    (ps : List (List Char)) :
    ∀ us, segmentsAgree lower ps us = true →
      (paramValues ps us).length = (paramNames lower ps).length := by
  induction ps with
  | nil => intro us _; cases us <;> simp [paramValues, paramNames]
  | cons p ps ih =>
    intro us hag
    cases us with
    | nil => simp [segmentsAgree] at hag
    | cons u us =>
      simp only [segmentsAgree, Bool.and_eq_true] at hag
      have := ih us hag.2
      by_cases hc : p.head? = some ':'
      · have hc2 := (head_map_lower lower ':' (fun c => (hl c).2.1) p).mpr hc
        rw [show paramNames lower (p :: ps) = (p.map lower).drop 1 :: paramNames lower ps by
          simp only [paramNames, List.filterMap_cons, nameOf, hc2, if_true]]
        simp [paramValues, hc, this]
      · have hc2 : ¬ (p.map lower).head? = some ':' :=
          fun h => hc ((head_map_lower lower ':' (fun c => (hl c).2.1) p).mp h)
        rw [show paramNames lower (p :: ps) = paramNames lower ps by
          simp only [paramNames, List.filterMap_cons, nameOf, hc2, if_false]]
        simp [paramValues, hc, this]

/-- `Char.toLower` maps no other character to `/`, `:` or `*`. -/
theorem keepsMarks_toLower : KeepsMarks Char.toLower := by
  intro c
  have hof : ∀ n : Nat, 65 ≤ n → n ≤ 90 → (Char.ofNat (n + 32)).toNat = n + 32 := by
    intro n h1 h2
    interval_cases n <;> rfl
  have key : ∀ m : Char, (m.toNat < 65) → (Char.toLower c = m ↔ c = m) := by
    intro m hm
    unfold Char.toLower
    by_cases h : c.toNat ≥ 65 ∧ c.toNat ≤ 90
    · simp only [h, and_self, if_true]
      constructor
      · intro heq
        exfalso
        have h2 : (Char.ofNat (c.toNat + 32)).toNat = m.toNat := by rw [heq]
        rw [hof c.toNat h.1 h.2] at h2
        omega
      · intro heq
        subst heq
        omega
    · simp only [h, if_false]
  exact ⟨key '/' (by decide), key ':' (by decide), key '*' (by decide)⟩

/-- The trie and the result of `Match` for a single route with the segments `ps` (after
the extension is split off) and a URL that fits them. -/
theorem match_chain (lower : Char → Char) (hl : KeepsMarks lower) (t : httpRoute)
    (url : List Char) (ps : List (List Char))
    (hps : segments (extensionAsSegment t.URL) = ps)
    (hstar : ∀ p ∈ ps, p.map lower ≠ ['*'])
    (hag : segmentsAgree lower ps (segments (extensionAsSegment url)) = true) :
    httpRouter.Add lower newNode t =
      chain ((ps.map (List.map lower)).map keyOf) ⟨t.URL, paramNames lower ps⟩ ∧
    httpRouter.Match lower (httpRouter.Add lower newNode t) url =
      (⟨some ⟨t.URL, paramNames lower ps⟩,
        paramValues ps (segments (extensionAsSegment url))⟩, true) := by
  have hadd : httpRouter.Add lower newNode t =
      chain ((ps.map (List.map lower)).map keyOf) ⟨t.URL, paramNames lower ps⟩ := by
    unfold httpRouter.Add stringsToLower
    rw [addLoop_filter]
    have hseg : (stringsSplit ((extensionAsSegment t.URL).map lower)).filter
        (fun x => decide (x ≠ [])) = ps.map (List.map lower) := by
      have := segments_map lower (fun c => (hl c).1) (extensionAsSegment t.URL)
      unfold segments at this hps
      rw [this, hps]
    rw [hseg, addLoop_newNode]
    · simp [paramNames, List.filterMap_map, Function.comp_def]
    · intro s hs
      obtain ⟨p, hp, rfl⟩ := List.mem_map.mp hs
      have := (mem_segments _ p (hps ▸ hp)).1
      simpa using this
  refine ⟨hadd, ?_⟩
  rw [hadd]
  unfold httpRouter.Match
  rw [matchLoop_filter]
  have hne : ∀ u ∈ segments (extensionAsSegment url), u ≠ [] :=
    fun u hu => (mem_segments _ u hu).1
  have := matchLoop_chain lower hl ⟨t.URL, paramNames lower ps⟩ ps
    (segments (extensionAsSegment url)) [] hag hstar hne
  unfold segments at this ⊢
  rw [this]
  simp [matchResult, chain, routeNode.route]

theorem indexOf_lt (n : List Char) (names : List (List Char)) (hn : n ∈ names) :
    names.indexOf n < names.length := by
  induction names with
  | nil => simp at hn
  | cons k ks ih =>
    by_cases hk : k = n
    · subst hk
      simp [List.indexOf_cons]
    · have hmem : n ∈ ks := by
        rcases List.mem_cons.mp hn with h | h
        · exact absurd h.symm hk
        · exact h
      have hb : (k == n) = false := by simpa using hk
      simp only [List.indexOf_cons, hb, cond_false, List.length_cons]
      have := ih hmem
      omega

/-- `GetParam` returns the value at the first position of a name. -/
theorem getParam_first (url : List Char) (names values : List (List Char))
    (hlen : values.length = names.length) (n : List Char) (hn : n ∈ names) :
    ∃ v, routeMatch.GetParam ⟨some ⟨url, names⟩, values⟩ n = some v ∧
      values[names.indexOf n]? = some v := by
  have hlt : names.indexOf n < values.length := by
    rw [hlen]
    exact indexOf_lt n names hn
  refine ⟨values.get ⟨names.indexOf n, hlt⟩, ?_, ?_⟩
  · simp only [routeMatch.GetParam, getParamLoop_mem n values names 0 hn, Nat.zero_add]
    exact List.getElem?_eq_getElem hlt
  · exact List.getElem?_eq_getElem hlt

/-- A segment without `*` is not lower-cased to `"*"`. -/
theorem lower_ne_star (lower : Char → Char) (hl : KeepsMarks lower) (p : List Char)
    (hp : p ≠ ['*']) : p.map lower ≠ ['*'] :=
  fun h => hp ((map_lower_eq_mark lower '*' (fun c => (hl c).2.2) p).mp h)

/-! ## The router: single routes -/

/-- C26, the claim as stated fails in two ways.  (a) The route `/customers/:id` and the
URL `/customers/2.5`, which has two non-empty segments: `Match` splits the extension off
and succeeds with the parameter value `2`, so `GetParam("id")` is `2` and not the
segment `2.5`.  (b) The route `/customers/:Id` and the URL `/customers/234`: `Add`
lower-cases the pattern, the stored name is `id`, and `GetParam("Id")` returns the empty
string. -/
theorem match_params_dot_and_case :
    (segments "/customers/2.5".toList = ["customers".toList, "2.5".toList] ∧
      httpRouter.Match Char.toLower
          (httpRouter.Add Char.toLower newNode ⟨"/customers/:id".toList, []⟩)
          "/customers/2.5".toList =
        (⟨some ⟨"/customers/:id".toList, ["id".toList]⟩, ["2".toList]⟩, true) ∧
      routeMatch.GetParam ⟨some ⟨"/customers/:id".toList, ["id".toList]⟩, ["2".toList]⟩
          "id".toList = some "2".toList) ∧
    (httpRouter.Match Char.toLower
          (httpRouter.Add Char.toLower newNode ⟨"/customers/:Id".toList, []⟩)
          "/customers/234".toList =
        (⟨some ⟨"/customers/:Id".toList, ["id".toList]⟩, ["234".toList]⟩, true) ∧
      routeMatch.GetParam ⟨some ⟨"/customers/:Id".toList, ["id".toList]⟩, ["234".toList]⟩
          "Id".toList = some []) := by
  decide

/-- C26 (amended): a router holding the single route `t` whose pattern has no `.` and no
`*`, and a URL whose non-empty segments, after the extension is split off as a segment of
its own, fit the segments of the pattern (`segmentsAgree`: as many segments, up to case
the same segment at a literal position, a segment other than `":"` at a `:name`
position).  `Match` succeeds and returns the route (stored with the lower-cased
parameter names), `Params` lists the URL segments at the `:name` positions in order and
in their original spelling, and `GetParam(n)` for a stored name `n` returns the URL
segment at the first position of that name. -/
theorem match_single_route (lower : Char → Char) (hl : KeepsMarks lower) (t : httpRoute)
    (url : List Char) (hdot : '.' ∉ t.URL) (hstar : '*' ∉ t.URL)
    (hag : segmentsAgree lower (segments t.URL) (segments (extensionAsSegment url)) = true) :
    httpRouter.Match lower (httpRouter.Add lower newNode t) url =
      (⟨some ⟨t.URL, paramNames lower (segments t.URL)⟩,
        paramValues (segments t.URL) (segments (extensionAsSegment url))⟩, true) ∧
    ∀ n ∈ paramNames lower (segments t.URL), ∃ v,
      routeMatch.GetParam ⟨some ⟨t.URL, paramNames lower (segments t.URL)⟩,
        paramValues (segments t.URL) (segments (extensionAsSegment url))⟩ n = some v ∧
      (paramValues (segments t.URL) (segments (extensionAsSegment url)))[
        (paramNames lower (segments t.URL)).indexOf n]? = some v := by
  have hps : segments (extensionAsSegment t.URL) = segments t.URL := by
    rw [extensionAsSegment_of_no_dot t.URL hdot]
  have hst : ∀ p ∈ segments t.URL, p.map lower ≠ ['*'] := by
    intro p hp
    apply lower_ne_star lower hl
    intro h
    exact hstar ((mem_segments _ p hp).2 '*' (by simp [h]))
  refine ⟨(match_chain lower hl t url _ hps hst hag).2, ?_⟩
  intro n hn
  exact getParam_first t.URL _ _ (paramValues_length lower hl _ _ hag) n hn

/-- C26 (amended) at the route `/customers/:id/print` and the URL
`/Customers/234/print`: the match has `Params = ["234"]` and `id = 234`. -/
theorem match_single_route_witness :
    httpRouter.Match Char.toLower
        (httpRouter.Add Char.toLower newNode ⟨"/customers/:id/print".toList, []⟩)
        "/Customers/234/print".toList =
      (⟨some ⟨"/customers/:id/print".toList, ["id".toList]⟩, ["234".toList]⟩, true) ∧
    ∀ n ∈ ["id".toList], ∃ v,
      routeMatch.GetParam ⟨some ⟨"/customers/:id/print".toList, ["id".toList]⟩,
        ["234".toList]⟩ n = some v ∧
      ["234".toList][["id".toList].indexOf n]? = some v :=
  match_single_route Char.toLower keepsMarks_toLower ⟨"/customers/:id/print".toList, []⟩
    "/Customers/234/print".toList (by decide) (by decide) (by decide)

/-- C27, the claim as stated fails: the route `/foo/*` matches the URL `/foo.js`,
whose only non-empty segment is `foo.js`; `foo` is a prefix of its segments only after
the extension `js` is split off. -/
theorem match_wildcard_extension :
    httpRouter.Match Char.toLower
        (httpRouter.Add Char.toLower newNode ⟨"/foo/*".toList, []⟩) "/foo.js".toList =
      (⟨some ⟨"/foo/*".toList, []⟩, []⟩, true) ∧
    segments "/foo.js".toList = ["foo.js".toList] ∧
    startsCI Char.toLower (segments "/foo".toList) (segments "/foo.js".toList) = false := by
  decide

/-- C27 (amended): a router holding the single route `P/*` (or `*`, for the empty `P`),
where no segment of `P` starts with `:` or is `*`.  `Match(u)` succeeds, returning that
route, if the segments of `P` are, up to case, a prefix of the non-empty segments that
`u` has after its extension is split off as a segment of its own; otherwise `Match(u)`
fails. -/
theorem match_wildcard_route (lower : Char → Char) (hl : KeepsMarks lower) (t : httpRoute)
    (P url : List Char)
    (hpat : t.URL = P ++ ['/', '*'] ∨ (P = [] ∧ t.URL = ['*']))
    (hlit : ∀ p ∈ segments P, p.head? ≠ some ':' ∧ p ≠ ['*']) :
    httpRouter.Match lower (httpRouter.Add lower newNode t) url =
      if startsCI lower (segments P) (segments (extensionAsSegment url)) = true
      then (⟨some ⟨t.URL, []⟩, []⟩, true) else (⟨none, []⟩, false) := by
  have hlow : ['*'].map lower = ['*'] := by simp [((hl '*').2.2).mpr rfl]
  have hext : extensionAsSegment t.URL = t.URL ∧ segments t.URL = segments P ++ [['*']] := by
    rcases hpat with h | ⟨hP, h⟩
    · rw [h]
      refine ⟨?_, ?_⟩
      · simp [extensionAsSegment, filepathExt]
      · rw [segments_append]
        rfl
    · rw [h, hP]
      exact ⟨by decide, by decide⟩
  have hkeys : ((segments P).map (List.map lower)).map keyOf = (segments P).map (List.map lower) := by
    rw [List.map_map]
    apply List.map_congr_left
    intro p hp
    simp only [Function.comp_apply, keyOf_map_lower lower hl, (hlit p hp).1, if_false]
  have hnames : (segments P).filterMap (fun p => nameOf (p.map lower)) = [] := by
    rw [List.filterMap_eq_nil_iff]
    intro p hp
    have : ¬ (p.map lower).head? = some ':' := fun h =>
      (hlit p hp).1 ((head_map_lower lower ':' (fun c => (hl c).2.1) p).mp h)
    simp only [nameOf, this, if_false]
  have hadd : httpRouter.Add lower newNode t =
      chain ((segments P).map (List.map lower) ++ [['*']]) ⟨t.URL, []⟩ := by
    unfold httpRouter.Add stringsToLower
    rw [addLoop_filter, hext.1]
    have hseg : (stringsSplit (t.URL.map lower)).filter (fun x => decide (x ≠ [])) =
        (segments P).map (List.map lower) ++ [['*']] := by
      have := segments_map lower (fun c => (hl c).1) t.URL
      rw [hext.2] at this
      unfold segments at this ⊢
      rw [this, List.map_append, List.map_cons, hlow, List.map_nil]
    rw [hseg, addLoop_newNode]
    · rw [List.map_append, hkeys, List.filterMap_append, List.filterMap_map]
      have h2 : List.filterMap (nameOf ∘ List.map lower) (segments P) = [] := hnames
      rw [h2]
      rfl
    · intro s hs
      rcases List.mem_append.mp hs with hs | hs
      · obtain ⟨p, hp, rfl⟩ := List.mem_map.mp hs
        have := (mem_segments _ p hp).1
        simpa using this
      · simp only [List.mem_singleton] at hs
        rw [hs]
        decide
  rw [hadd]
  unfold httpRouter.Match
  rw [matchLoop_filter]
  have hne : ∀ u ∈ segments (extensionAsSegment url), u ≠ [] :=
    fun u hu => (mem_segments _ u hu).1
  have hlit2 : ∀ p ∈ segments P, p.map lower ≠ ['*'] ∧ p.map lower ≠ [':'] := by
    intro p hp
    refine ⟨lower_ne_star lower hl p (hlit p hp).2, ?_⟩
    intro h
    have := (map_lower_eq_mark lower ':' (fun c => (hl c).2.1) p).mp h
    exact (hlit p hp).1 (by rw [this]; rfl)
  exact matchResult_wildcard lower ⟨t.URL, []⟩ (segments P)
    (segments (extensionAsSegment url)) [] hlit2 hne

/-- C27 (amended) at the routes `/foo/*`, `*` and `/public/*`. -/
theorem match_wildcard_route_witness :
    httpRouter.Match Char.toLower
        (httpRouter.Add Char.toLower newNode ⟨"/foo/*".toList, []⟩) "/foo".toList =
      (⟨some ⟨"/foo/*".toList, []⟩, []⟩, true) ∧
    httpRouter.Match Char.toLower
        (httpRouter.Add Char.toLower newNode ⟨"*".toList, []⟩) "/".toList =
      (⟨some ⟨"*".toList, []⟩, []⟩, true) ∧
    httpRouter.Match Char.toLower
        (httpRouter.Add Char.toLower newNode ⟨"/public/*".toList, []⟩)
        "/public/images/pics/dog.jpeg".toList =
      (⟨some ⟨"/public/*".toList, []⟩, []⟩, true) ∧
    httpRouter.Match Char.toLower
        (httpRouter.Add Char.toLower newNode ⟨"/public/*".toList, []⟩) "/private/x".toList =
      (⟨none, []⟩, false) :=
  ⟨match_wildcard_route Char.toLower keepsMarks_toLower ⟨"/foo/*".toList, []⟩ "/foo".toList
      "/foo".toList (Or.inl rfl) (by decide),
    match_wildcard_route Char.toLower keepsMarks_toLower ⟨"*".toList, []⟩ [] "/".toList
      (Or.inr ⟨rfl, rfl⟩) (by decide),
    match_wildcard_route Char.toLower keepsMarks_toLower ⟨"/public/*".toList, []⟩
      "/public".toList "/public/images/pics/dog.jpeg".toList (Or.inl rfl) (by decide),
    match_wildcard_route Char.toLower keepsMarks_toLower ⟨"/public/*".toList, []⟩
      "/public".toList "/private/x".toList (Or.inl rfl) (by decide)⟩

/-! ## The router: the extension as a segment -/

theorem filepathExt_dot (b e : List Char) (hdot : '.' ∉ e) (hslash : '/' ∉ e) :
    filepathExt (b ++ '.' :: e) = '.' :: e := by
  unfold filepathExt
  have h1 : ∀ a ∈ e.reverse, (fun c => c != '/') a = true := by
    intro a ha
    have : a ≠ '/' := fun h => hslash (h ▸ List.mem_reverse.mp ha)
    simpa using this
  have h2 : ∀ a ∈ e.reverse, (fun c => c != '.') a = true := by
    intro a ha
    have : a ≠ '.' := fun h => hdot (h ▸ List.mem_reverse.mp ha)
    simpa using this
  have hrev : (b ++ '.' :: e).reverse = e.reverse ++ '.' :: b.reverse := by simp
  have hlast : (b ++ '.' :: e).reverse.takeWhile (fun c => c != '/') =
      e.reverse ++ '.' :: b.reverse.takeWhile (fun c => c != '/') := by
    rw [hrev, List.takeWhile_append_of_pos h1]
    simp [List.takeWhile_cons]
  rw [hlast]
  have hmem : '.' ∈ e.reverse ++ '.' :: b.reverse.takeWhile (fun c => c != '/') := by simp
  simp only [hmem, if_true]
  rw [List.takeWhile_append_of_pos h2]
  simp [List.takeWhile_cons]

theorem extensionAsSegment_dot (b e : List Char) (hdot : '.' ∉ e) (hslash : '/' ∉ e) :
    extensionAsSegment (b ++ '.' :: e) = b ++ '/' :: e := by
  unfold extensionAsSegment
  rw [filepathExt_dot b e hdot hslash]
  simp

theorem segmentsAgree_append (lower : Char → Char) (sb : List (List Char)) (p u : List Char)
    (hlit : ∀ q ∈ sb, q.head? ≠ some ':') (hp : p.head? = some ':') (hu : u ≠ [':']) :
    segmentsAgree lower (sb ++ [p]) (sb ++ [u]) = true := by
  induction sb with
  | nil => simp [segmentsAgree, hp, hu]
  | cons q qs ih =>
    have hq := hlit q (by simp)
    simp only [List.cons_append, segmentsAgree, hq, if_false, decide_True, Bool.true_and]
    exact ih (fun r hr => hlit r (by simp [hr]))

theorem paramValues_append (sb : List (List Char)) (p u : List Char)
    (hlit : ∀ q ∈ sb, q.head? ≠ some ':') (hp : p.head? = some ':') :
    paramValues (sb ++ [p]) (sb ++ [u]) = [u] := by
  induction sb with
  | nil => simp [paramValues, hp]
  | cons q qs ih =>
    have hq := hlit q (by simp)
    simp only [List.cons_append, paramValues, hq, if_false]
    exact ih (fun r hr => hlit r (by simp [hr]))

theorem paramNames_append (lower : Char → Char) (hl : KeepsMarks lower)
    (sb : List (List Char)) (p : List Char)
    (hlit : ∀ q ∈ sb, q.head? ≠ some ':') (hp : p.head? = some ':') :
    paramNames lower (sb ++ [p]) = [(p.map lower).drop 1] := by
  have hnames : sb.filterMap (fun q => nameOf (q.map lower)) = [] := by
    rw [List.filterMap_eq_nil_iff]
    intro q hq
    have : ¬ (q.map lower).head? = some ':' := fun h =>
      hlit q hq ((head_map_lower lower ':' (fun c => (hl c).2.1) q).mp h)
    simp only [nameOf, this, if_false]
  have hp2 := (head_map_lower lower ':' (fun c => (hl c).2.1) p).mpr hp
  unfold paramNames
  rw [List.filterMap_append, hnames]
  simp only [List.nil_append, List.filterMap_cons, nameOf, hp2, if_true, List.filterMap_nil]

/-- C28: for the extension `:` the code does not do what the claim says.  The route
`/foo.:ext` matches the URL `/foo.:`, but the segment `:` is found by the lookup of a
literal key of the trie, `params = append(params, s)` is skipped and no parameter value
is recorded, so `GetParam("ext")` indexes the empty `Params` and panics instead of
returning `:`. -/
theorem match_extension_colon :
    httpRouter.Match Char.toLower
        (httpRouter.Add Char.toLower newNode ⟨"/foo.:ext".toList, []⟩) "/foo.:".toList =
      (⟨some ⟨"/foo.:ext".toList, ["ext".toList]⟩, []⟩, true) ∧
    routeMatch.GetParam ⟨some ⟨"/foo.:ext".toList, ["ext".toList]⟩, []⟩ "ext".toList = none := by
  decide

/-- The extension as a segment, away from the extension `:`: a router holding the single
route `base.:ext`, where no segment of `base` starts with `:` or is `*`, and a URL
`base.e` where `e` is not empty, contains no `.` and no `/` and is not `":"`.  `Match`
succeeds with that route and the single parameter value `e`, and `GetParam("ext")`
returns `e`.  Likewise the route `/:foo/bar.json` is stored as the chain of the keys
`:`, `bar`, `json`, with the parameter name `foo`. -/
theorem match_extension (lower : Char → Char) (hl : KeepsMarks lower)
    (hext : ['e', 'x', 't'].map lower = ['e', 'x', 't']) (t : httpRoute) (base e : List Char)
    (hpat : t.URL = base ++ ['.', ':', 'e', 'x', 't'])
    (hlit : ∀ p ∈ segments base, p.head? ≠ some ':' ∧ p ≠ ['*'])
    (he : e ≠ []) (hdot : '.' ∉ e) (hslash : '/' ∉ e) (hcolon : e ≠ [':']) :
    httpRouter.Match lower (httpRouter.Add lower newNode t) (base ++ '.' :: e) =
      (⟨some ⟨t.URL, [['e', 'x', 't']]⟩, [e]⟩, true) ∧
    routeMatch.GetParam ⟨some ⟨t.URL, [['e', 'x', 't']]⟩, [e]⟩ ['e', 'x', 't'] = some e ∧
    httpRouter.Add Char.toLower newNode ⟨"/:foo/bar.json".toList, []⟩ =
      chain [[':'], "bar".toList, "json".toList] ⟨"/:foo/bar.json".toList, ["foo".toList]⟩ := by
  have hlit1 : ∀ q ∈ segments base, q.head? ≠ some ':' := fun q hq => (hlit q hq).1
  have hps : segments (extensionAsSegment t.URL) = segments base ++ [[':', 'e', 'x', 't']] := by
    rw [hpat, extensionAsSegment_dot base [':', 'e', 'x', 't'] (by decide) (by decide),
      segments_append]
    rfl
  have hus : segments (extensionAsSegment (base ++ '.' :: e)) = segments base ++ [e] := by
    rw [extensionAsSegment_dot base e hdot hslash, segments_append,
      segments_of_no_slash e hslash he]
  have hst : ∀ p ∈ segments base ++ [[':', 'e', 'x', 't']], p.map lower ≠ ['*'] := by
    intro p hp
    rcases List.mem_append.mp hp with hp | hp
    · exact lower_ne_star lower hl p (hlit p hp).2
    · simp only [List.mem_singleton] at hp
      rw [hp]
      simp
  have hag : segmentsAgree lower (segments base ++ [[':', 'e', 'x', 't']])
      (segments (extensionAsSegment (base ++ '.' :: e))) = true := by
    rw [hus]
    exact segmentsAgree_append lower _ _ _ hlit1 rfl hcolon
  have hm := (match_chain lower hl t (base ++ '.' :: e) _ hps hst hag).2
  rw [hus, paramValues_append (segments base) [':', 'e', 'x', 't'] e hlit1 rfl,
    paramNames_append lower hl (segments base) [':', 'e', 'x', 't'] hlit1 rfl] at hm
  have hname : ([':', 'e', 'x', 't'].map lower).drop 1 = ['e', 'x', 't'] := by
    simpa using hext
  rw [hname] at hm
  exact ⟨hm, by simp [routeMatch.GetParam, getParamLoop], rfl⟩

/-- The extension as a segment at the route `/foo.:ext` and the URL `/foo.js`. -/
theorem match_extension_witness :
    httpRouter.Match Char.toLower
        (httpRouter.Add Char.toLower newNode ⟨"/foo.:ext".toList, []⟩) "/foo.js".toList =
      (⟨some ⟨"/foo.:ext".toList, ["ext".toList]⟩, ["js".toList]⟩, true) ∧
    routeMatch.GetParam ⟨some ⟨"/foo.:ext".toList, ["ext".toList]⟩, ["js".toList]⟩
      "ext".toList = some "js".toList ∧
    httpRouter.Add Char.toLower newNode ⟨"/:foo/bar.json".toList, []⟩ =
      chain [[':'], "bar".toList, "json".toList] ⟨"/:foo/bar.json".toList, ["foo".toList]⟩ :=
  match_extension Char.toLower keepsMarks_toLower (by decide) ⟨"/foo.:ext".toList, []⟩
    "/foo".toList "js".toList rfl (by decide) (by decide) (by decide) (by decide) (by decide)

/-! ## The router: the script method `reset` -/

/-- C29: the script call `reset()` on a router object leaves the router struct and its
trie as they are, so `match(u)` returns after `reset()` what it returned before, for
every URL `u`: the native method `reset` has a value receiver and resets a copy of the
struct.  (The Go method `Reset`, called on the pointer, does replace the trie.) -/
theorem script_reset_keeps_routes (lower : Char → Char) (p : Nat) (h : routerHeap)
    (r : httpRouter) (u : List Char)
    (hr : h.routers[p]? = some r) (hn : r.node < h.nodes.length) :
    ∃ h1, scriptReset p h = some h1 ∧ h1.routers[p]? = some r ∧
      scriptMatch lower p u h1 = scriptMatch lower p u h := by
  have hp : p < h.routers.length := (List.getElem?_eq_some_iff.mp hr).1
  have hr1 : (httpRouter.reset r h).routers[p]? = some r := by
    simp only [httpRouter.reset, httpRouter.Reset]
    rw [List.getElem?_set_ne (by omega), List.getElem?_append_left hp]
    exact hr
  refine ⟨httpRouter.reset r h, by simp [scriptReset, hr], hr1, ?_⟩
  simp only [scriptMatch, hr1, hr, Option.some_bind, httpRouter.match_]
  have : (httpRouter.reset r h).nodes[r.node]? = h.nodes[r.node]? := by
    simp only [httpRouter.reset, httpRouter.Reset]
    exact List.getElem?_append_left hn
  rw [this]

/-- C29 at the router that holds the route `/foo`: after the script call `reset()`,
`match("/foo")` still returns the route and not null, whereas after the Go call
`Reset()` on the pointer it returns null. -/
theorem script_reset_keeps_routes_witness :
    (∃ h1, scriptReset 0 routerHeapFoo = some h1 ∧ h1.routers[0]? = some ⟨0⟩ ∧
      scriptMatch Char.toLower 0 "/foo".toList h1 =
        scriptMatch Char.toLower 0 "/foo".toList routerHeapFoo) ∧
    scriptMatch Char.toLower 0 "/foo".toList routerHeapFoo =
      some (some ⟨some ⟨"/foo".toList, []⟩, []⟩) ∧
    scriptMatch Char.toLower 0 "/foo".toList (httpRouter.Reset 0 routerHeapFoo) = some none ∧
    (scriptAdd Char.toLower 0 ⟨"/foo".toList, []⟩ (newRouter ⟨[], []⟩).2).map
      (fun h => scriptMatch Char.toLower 0 "/foo".toList h) =
      some (some (some ⟨some ⟨"/foo".toList, []⟩, []⟩)) :=
  ⟨script_reset_keeps_routes Char.toLower 0 routerHeapFoo ⟨0⟩ "/foo".toList rfl (by decide),
    by decide, by decide, by decide⟩


/-! ## The router: routers with several routes -/

/-- C33: a successful match can have fewer `Params` than its route has names, and the
lookup of a parameter then panics.  (a) The only route is `/:id` and the URL is `/:`:
the segment `:` is found as a key of the trie, no value is recorded, and
`GetParam("id")` indexes the empty `Params`.  (b) The routes `/:a/*`, `/:a/b` and
`/:a/b/c` and the URL `/x/b/d`: the match falls back to the wildcard route and drops the
values collected so far. -/
theorem match_params_too_short :
    httpRouter.Match Char.toLower (httpRouter.Add Char.toLower newNode ⟨"/:id".toList, []⟩)
        "/:".toList =
      (⟨some ⟨"/:id".toList, ["id".toList]⟩, []⟩, true) ∧
    routeMatch.GetParam ⟨some ⟨"/:id".toList, ["id".toList]⟩, []⟩ "id".toList = none ∧
    httpRouter.Match Char.toLower
        (httpRouter.Add Char.toLower
          (httpRouter.Add Char.toLower
            (httpRouter.Add Char.toLower newNode ⟨"/:a/*".toList, []⟩) ⟨"/:a/b".toList, []⟩)
          ⟨"/:a/b/c".toList, []⟩)
        "/x/b/d".toList =
      (⟨some ⟨"/:a/*".toList, ["a".toList]⟩, []⟩, true) ∧
    routeMatch.GetParam ⟨some ⟨"/:a/*".toList, ["a".toList]⟩, []⟩ "a".toList = none := by
  decide

/-- C34: `Match` can report success with a `nil` route.  The only route is `/foo/*/bar`
and the URL is `/foo`: the node reached has no route but a child `*`, and `Match`
returns the route of that child, which is `nil`, with `ok = true`. -/
theorem match_nil_route :
    httpRouter.Match Char.toLower
        (httpRouter.Add Char.toLower newNode ⟨"/foo/*/bar".toList, []⟩) "/foo".toList =
      (⟨none, []⟩, true) ∧
    routeMatch.GetParam ⟨none, []⟩ "x".toList = none := by
  decide

/-- C35: a URL with extra trailing segments matches.  The only route is `/foo` and the
URL `/foo/bar/baz`, with three segments: the loop of `Match` stops at the node of `foo`,
which has no children, and the route is returned.  Once the route `/foo/x/y` is added as
well, the same URL does not match any more. -/
theorem match_trailing_segments :
    segments (extensionAsSegment "/foo/bar/baz".toList) =
      ["foo".toList, "bar".toList, "baz".toList] ∧
    httpRouter.Match Char.toLower (httpRouter.Add Char.toLower newNode ⟨"/foo".toList, []⟩)
        "/foo/bar/baz".toList =
      (⟨some ⟨"/foo".toList, []⟩, []⟩, true) ∧
    httpRouter.Match Char.toLower
        (httpRouter.Add Char.toLower
          (httpRouter.Add Char.toLower newNode ⟨"/foo".toList, []⟩) ⟨"/foo/x/y".toList, []⟩)
        "/foo/bar/baz".toList =
      (⟨none, []⟩, false) := by
  decide

/-! ## The libraries `errors` and `assert`, and the methods of `libVM` -/

/-- C31: the function `wrap` does not read its parameter `public`: for every host, all
arguments and every VM, `errors.wrap` returns what `errors.public` returns.  Both build
the error with `NewPublicError`; at a host whose `NewPublicError` sets the flag
`Public`, the error that `errors.wrap("m", inner)` returns has the flag set. -/
theorem errors_wrap_is_public :
    (∀ (N : NativeHost) (args : List Value) (vm : VM),
      errors_wrap N args vm = errors_public N args vm) ∧
    errors_wrap nativeDemo [.string "m", .object (.error ⟨"inner", false, 0, [], false⟩)]
        (vmOne .null .null) =
      some (.object (.error ⟨"m", true, 0, ["inner"], false⟩), none) ∧
    errors_wrap nativeDemo [.string "m"] (vmOne .null .null) =
      some (.object (.error ⟨"m", true, 0, [], false⟩), none) := by
  refine ⟨fun _ _ _ => rfl, by decide, by decide⟩

/-- C32: `assert.float(a, msg)` fails for every Float `a`: the `switch` on the type of
`a` has the cases `Int` and `String` only, and a Float takes the `default` branch, which
returns the error built from `msg`.  An Int is returned as it is. -/
theorem assert_float_rejects_float :
    (∀ (N : NativeHost) (f : F64) (msg : String),
      assert_float N [.float f, .string msg] =
        some (NullValue,
          some (N.Errorf msg [N.showAssertMessage "%v is not float" [N.TypeName (.float f)]]))) ∧
    (∀ (N : NativeHost) (i : Int) (msg : String),
      assert_float N [.int i, .string msg] = some (.int i, none)) := by
  refine ⟨fun _ _ _ => rfl, fun _ _ _ => rfl⟩

/-- C36: for a negative Int as first argument `libVM.runFunction` reports no error of
its own: only `len(Functions) <= index` is checked, and for every host, child, further
arguments and caller with the permission, `runStaticFunc` goes on to
`RunFuncIndex(index, ...)` on the child.  At the host `demoHost`, `runFunc(-1)` has run
the child (five steps), whereas the index 1, the number of functions, is rejected. -/
theorem runFunction_negative_index :
    (∀ (L : LibHost) (child : VM) (rest : List Value) (vm : VM) (n : Nat),
      libVM.runStaticFunc L child (.int (Int.negSucc n) :: rest) vm =
        if !L.HasPermission "trusted" vm then
          (some (NullValue, some ErrUnauthorized), child, vm)
        else libVM.runIndex L child (Int.negSucc n) rest vm) ∧
    libVM.runFunc (demoHost true none) (vmOne .null .null) [.int (-1)] (vmOne .null .null) =
      (some (.int 1, none), { vmOne .null .null with steps := 5, Error := some .EOF },
        { vmOne .null .null with steps := 5 }) ∧
    libVM.runFunc (demoHost true none) (vmOne .null .null) [.int 1] (vmOne .null .null) =
      (some (NullValue, some (.Err ⟨"%d: %w", false, 0, [], false⟩)), vmOne .null .null,
        vmOne .null .null) := by
  refine ⟨?_, by decide, by decide⟩
  intro L child rest vm n
  have hlen : ¬ ((child.Functions.length : Int) ≤ Int.negSucc n) := by
    have := Int.negSucc_lt_zero n
    omega
  simp only [libVM.runStaticFunc, libVM.runFunction, hlen, if_false, Bool.false_and,
    Bool.false_eq_true]

/-- C37: `GetProperty("context")` returns the context of the VM that performs the call,
not that of the wrapped VM, for every host and all VMs.  For a caller with the permission
and a wrapped VM of its own, `SetProperty("context", 7)` succeeds and sets the context of
the wrapped VM, and `GetProperty("context")` by the same caller then returns the
caller's context, `Null`. -/
theorem libVM_context_of_caller :
    (∀ (N : NativeHost) (child vm : VM),
      libVM.GetProperty N child "context" vm = (vm.Context, none)) ∧
    libVM.SetProperty (demoHost true none) nativeDemo (vmOne .null .null) "context" (.int 7)
        (vmOne .null .null) =
      (none, { vmOne .null .null with Context := .int 7 }) ∧
    libVM.GetProperty nativeDemo { vmOne .null .null with Context := .int 7 } "context"
        (vmOne .null .null) = (.null, none) := by
  refine ⟨fun _ _ _ => ?_, by decide, by decide⟩
  simp [libVM.GetProperty]

/-! ## Shifts -/

theorem toUint64_small (c : Int) (h0 : 0 ≤ c) (h1 : c < 2 ^ 63) : toUint64 c = c.toNat := by
  unfold toUint64
  congr 1
  omega

theorem toUint64_neg (c : Int) (h0 : c < 0) (h1 : -2 ^ 63 ≤ c) : 64 ≤ toUint64 c := by
  unfold toUint64
  omega

theorem wrap64_spec (x : Int) :
    (wrap64 x - x) % 2 ^ 64 = 0 ∧ -2 ^ 63 ≤ wrap64 x ∧ wrap64 x < 2 ^ 63 := by
  unfold wrap64
  omega

theorem shl64_large (a : Int) (n : Nat) (h : 64 ≤ n) : shl64 a n = 0 := by
  unfold shl64 wrap64
  rw [Nat.min_eq_right h]
  omega

theorem shr64_large (a : Int) (n : Nat) (h : 64 ≤ n) (h0 : -2 ^ 63 ≤ a) (h1 : a < 2 ^ 63) :
    shr64 a n = if a < 0 then -1 else 0 := by
  unfold shr64
  rw [Nat.min_eq_right h]
  split <;> omega

theorem shr64_floor (a : Int) (n : Nat) (h : n < 64) :
    shr64 a n * 2 ^ n ≤ a ∧ a < (shr64 a n + 1) * 2 ^ n := by
  unfold shr64
  rw [Nat.min_eq_left (by omega)]
  have hp : (0 : Int) < 2 ^ n := by positivity
  exact ⟨Int.ediv_mul_le a (ne_of_gt hp), Int.lt_ediv_add_one_mul_self a hp⟩

theorem exec_lsh_int (h : Host) (instr : Instruction) (vm : VM) (a c : Int)
    (hl : vm.get instr.B = some (.int a)) (hr : vm.get instr.C = some (.int c)) :
    exec_lsh h instr vm = setNext vm instr.A (.int (shl64 a (toUint64 c))) := by
  unfold exec_lsh
  simp only [hl, hr, Option.bind_eq_bind, Option.some_bind, Value.Type, Value.ToInt, NewInt64]

theorem exec_rsh_int (h : Host) (instr : Instruction) (vm : VM) (a c : Int)
    (hl : vm.get instr.B = some (.int a)) (hr : vm.get instr.C = some (.int c)) :
    exec_rsh h instr vm = setNext vm instr.A (.int (shr64 a (toUint64 c))) := by
  unfold exec_rsh
  simp only [hl, hr, Option.bind_eq_bind, Option.some_bind, Value.Type, Value.ToInt, NewInt64]

/-- C38: `exec_lsh` and `exec_rsh` on the Int operands `a` (at `B`) and `c` (at `C`),
both in the range of `int64`, with `A` an existing register.  Both handlers return next
and write an Int to `A`: `v1` for the left shift, `v2` for the right shift.  For
`0 <= c < 64`, `v1` is the number of the `int64` range congruent to `a * 2 ^ c` modulo
`2 ^ 64`, and `v2` is the floor of `a / 2 ^ c`.  For `c < 0` or `c >= 64`, `v1` is 0 and
`v2` is -1 for a negative `a` and 0 otherwise. -/
theorem exec_shift_int (h : Host) (instr : Instruction) (vm : VM) (a c : Int)
    (hl : vm.get instr.B = some (.int a)) (hr : vm.get instr.C = some (.int c))
    (ha : -2 ^ 63 ≤ a ∧ a < 2 ^ 63) (hc : -2 ^ 63 ≤ c ∧ c < 2 ^ 63)
    (hw : vm.writable instr.A = true) :
    ∃ v1 v2 vm1 vm2,
      exec_lsh h instr vm = some (vm_next, vm1) ∧ vm1.get instr.A = some (.int v1) ∧
      exec_rsh h instr vm = some (vm_next, vm2) ∧ vm2.get instr.A = some (.int v2) ∧
      (0 ≤ c → c < 64 →
        (v1 - a * 2 ^ c.toNat) % 2 ^ 64 = 0 ∧ -2 ^ 63 ≤ v1 ∧ v1 < 2 ^ 63 ∧
        v2 * 2 ^ c.toNat ≤ a ∧ a < (v2 + 1) * 2 ^ c.toNat) ∧
      (c < 0 ∨ 64 ≤ c → v1 = 0 ∧ v2 = if a < 0 then -1 else 0) := by
  obtain ⟨vm1, h1, g1, _, _⟩ := setNext_writable vm instr.A (.int (shl64 a (toUint64 c))) hw
  obtain ⟨vm2, h2, g2, _, _⟩ := setNext_writable vm instr.A (.int (shr64 a (toUint64 c))) hw
  refine ⟨_, _, vm1, vm2, (exec_lsh_int h instr vm a c hl hr).trans h1, g1,
    (exec_rsh_int h instr vm a c hl hr).trans h2, g2, ?_, ?_⟩
  · intro h0 h64
    have hu : toUint64 c = c.toNat := toUint64_small c h0 hc.2
    have hn : c.toNat < 64 := by omega
    rw [hu]
    have hs : shl64 a c.toNat = wrap64 (a * 2 ^ c.toNat) := by
      unfold shl64
      rw [Nat.min_eq_left (by omega)]
    rw [hs]
    obtain ⟨w1, w2, w3⟩ := wrap64_spec (a * 2 ^ c.toNat)
    obtain ⟨f1, f2⟩ := shr64_floor a c.toNat hn
    exact ⟨w1, w2, w3, f1, f2⟩
  · intro hcase
    have hu : 64 ≤ toUint64 c := by
      rcases hcase with hneg | hbig
      · exact toUint64_neg c hneg hc.1
      · rw [toUint64_small c (by omega) hc.2]
        omega
    exact ⟨shl64_large a _ hu, shr64_large a _ hu ha.1 ha.2⟩

/-- C38 at a concrete state: register 0 holds -7 and register 1 holds 2; the left shift
writes -28 and the right shift -2. -/
theorem exec_shift_int_witness :
    ∃ v1 v2 vm1 vm2,
      exec_lsh plainHost ⟨loc 0, loc 0, loc 1⟩ (vmOne (.int (-7)) (.int 2)) =
        some (vm_next, vm1) ∧
      vm1.get (loc 0) = some (.int v1) ∧
      exec_rsh plainHost ⟨loc 0, loc 0, loc 1⟩ (vmOne (.int (-7)) (.int 2)) =
        some (vm_next, vm2) ∧
      vm2.get (loc 0) = some (.int v2) ∧
      (0 ≤ (2 : Int) → (2 : Int) < 64 →
        (v1 - (-7) * 2 ^ (2 : Int).toNat) % 2 ^ 64 = 0 ∧ -2 ^ 63 ≤ v1 ∧ v1 < 2 ^ 63 ∧
        v2 * 2 ^ (2 : Int).toNat ≤ -7 ∧ -7 < (v2 + 1) * 2 ^ (2 : Int).toNat) ∧
      ((2 : Int) < 0 ∨ 64 ≤ (2 : Int) → v1 = 0 ∧ v2 = if (-7 : Int) < 0 then -1 else 0) :=
  exec_shift_int plainHost ⟨loc 0, loc 0, loc 1⟩ (vmOne (.int (-7)) (.int 2)) (-7) 2 rfl rfl
    (by decide) (by decide) rfl

/-- The shifts of the concrete state, evaluated: `-7 << 2 = -28`, `-7 >> 2 = -2`, and
with the count -1 the left shift gives 0 and the right shift -1. -/
theorem exec_shift_values :
    (exec_lsh plainHost ⟨loc 0, loc 0, loc 1⟩ (vmOne (.int (-7)) (.int 2))).bind
        (fun p => p.2.get (loc 0)) = some (.int (-28)) ∧
    (exec_rsh plainHost ⟨loc 0, loc 0, loc 1⟩ (vmOne (.int (-7)) (.int 2))).bind
        (fun p => p.2.get (loc 0)) = some (.int (-2)) ∧
    (exec_lsh plainHost ⟨loc 0, loc 0, loc 1⟩ (vmOne (.int (-7)) (.int (-1)))).bind
        (fun p => p.2.get (loc 0)) = some (.int 0) ∧
    (exec_rsh plainHost ⟨loc 0, loc 0, loc 1⟩ (vmOne (.int (-7)) (.int (-1)))).bind
        (fun p => p.2.get (loc 0)) = some (.int (-1)) := by
  decide

/-! ## `exec_trx` without a guard -/

/-- C39: with an empty `tryCatchs` stack `exec_trx` returns continue, which is not
next, and the state it returns is the state it was given: nothing is changed. -/
theorem exec_trx_no_guard (vm : VM) (h : vm.tryCatchs = []) :
    exec_trx vm = some (vm_continue, vm) ∧ vm_continue ≠ vm_next := by
  refine ⟨?_, by decide⟩
  unfold exec_trx
  rw [h]
  rfl

/-- C39 at the state `vmOne`, which has no guard. -/
theorem exec_trx_no_guard_witness :
    exec_trx (vmOne .null .null) = some (vm_continue, vmOne .null .null) ∧
    vm_continue ≠ vm_next :=
  exec_trx_no_guard (vmOne .null .null) rfl

/-! ## Identifiers -/

/-- After the first byte the loop of `IsIdent` accepts letters, digits and `_`. -/
theorem isIdentLoop_pos (s : List Char) :
    ∀ i, 0 < i →
      (dbx.IsIdentLoop s i = true ↔
        ∀ c ∈ s, c = '_' ∨ ('A' ≤ c ∧ c ≤ 'Z') ∨ ('a' ≤ c ∧ c ≤ 'z') ∨ ('0' ≤ c ∧ c ≤ '9')) := by
  induction s with
  | nil => intro i _; simp [dbx.IsIdentLoop]
  | cons d ds ih =>
    intro i hi
    have hpos : 0 < i + d.utf8Size := by omega
    simp only [dbx.IsIdentLoop, List.mem_cons, forall_eq_or_imp, ← ih _ hpos]
    by_cases hd : dbx.isIdent d i = true
    · simp only [hd, Bool.not_true, Bool.false_eq_true, if_false, iff_and_self]
      intro _
      simpa [dbx.isIdent, dbx.isDecimal, hi, or_assoc] using hd
    · simp only [hd, Bool.not_false, if_true, Bool.false_eq_true, false_iff, not_and]
      intro hc
      exfalso
      apply hd
      simpa [dbx.isIdent, dbx.isDecimal, hi, or_assoc] using hc

/-- C40: `IsIdent(s)` is true exactly if every character of `s` is `_`, an ASCII letter
or an ASCII digit and the first character, if there is one, is not a digit.  The empty
string is accepted; a string that contains a space, a quote, a dot, a dash or a
character outside ASCII is rejected. -/
theorem isIdent_iff :
    (∀ s : List Char, dbx.IsIdent s = true ↔
      (∀ c ∈ s, c = '_' ∨ ('A' ≤ c ∧ c ≤ 'Z') ∨ ('a' ≤ c ∧ c ≤ 'z') ∨ ('0' ≤ c ∧ c ≤ '9')) ∧
      (∀ c, s.head? = some c → ¬ ('0' ≤ c ∧ c ≤ '9'))) ∧
    dbx.IsIdent [] = true ∧
    (∀ (s : List Char) (c : Char), c ∈ s →
      (c = ' ' ∨ c = '\'' ∨ c = '"' ∨ c = '.' ∨ c = '-' ∨ 128 ≤ c.toNat) →
      dbx.IsIdent s = false) := by
  have main : ∀ s : List Char, dbx.IsIdent s = true ↔
      (∀ c ∈ s, c = '_' ∨ ('A' ≤ c ∧ c ≤ 'Z') ∨ ('a' ≤ c ∧ c ≤ 'z') ∨ ('0' ≤ c ∧ c ≤ '9')) ∧
      (∀ c, s.head? = some c → ¬ ('0' ≤ c ∧ c ≤ '9')) := by
    intro s
    cases s with
    | nil => simp [dbx.IsIdent, dbx.IsIdentLoop]
    | cons d ds =>
      have hpos : 0 < 0 + d.utf8Size := by
        have := Char.utf8Size_pos d
        omega
      simp only [dbx.IsIdent, dbx.IsIdentLoop, List.mem_cons, forall_eq_or_imp, List.head?_cons,
        Option.some.injEq, forall_eq', ← isIdentLoop_pos ds _ hpos]
      by_cases hd : dbx.isIdent d 0 = true
      · simp only [hd, Bool.not_true, Bool.false_eq_true, if_false]
        have hd2 : d = '_' ∨ ('A' ≤ d ∧ d ≤ 'Z') ∨ ('a' ≤ d ∧ d ≤ 'z') := by
          simpa [dbx.isIdent, or_assoc] using hd
        constructor
        · intro hl
          refine ⟨⟨?_, hl⟩, ?_⟩
          · rcases hd2 with h | h | h
            · exact Or.inl h
            · exact Or.inr (Or.inl h)
            · exact Or.inr (Or.inr (Or.inl h))
          · intro hdig
            rcases hd2 with h | h | h
            · subst h
              exact absurd hdig (by decide)
            · have h1 : d ≤ '9' := hdig.2
              have h2 : 'A' ≤ d := h.1
              exact absurd (Char.le_trans h2 h1) (by decide)
            · have h1 : d ≤ '9' := hdig.2
              have h2 : 'a' ≤ d := h.1
              exact absurd (Char.le_trans h2 h1) (by decide)
        · intro hr
          exact hr.1.2
      · simp only [hd, Bool.not_false, if_true, Bool.false_eq_true, false_iff, not_and]
        intro hall hnd
        apply hd
        have hok := hall.1
        have : d = '_' ∨ ('A' ≤ d ∧ d ≤ 'Z') ∨ ('a' ≤ d ∧ d ≤ 'z') := by
          rcases hok with h | h | h | h
          · exact Or.inl h
          · exact Or.inr (Or.inl h)
          · exact Or.inr (Or.inr h)
          · exact absurd h.2 (hnd h.1)
        simpa [dbx.isIdent, or_assoc] using this
  refine ⟨main, by decide, ?_⟩
  intro s c hc hbad
  cases hres : dbx.IsIdent s with
  | false => rfl
  | true =>
    exfalso
    have hok := ((main s).mp hres).1 c hc
    have hle : ∀ x y : Char, x ≤ y → x.toNat ≤ y.toNat := fun x y hxy => hxy
    rcases hbad with h | h | h | h | h | h
    · subst h; revert hok; decide
    · subst h; revert hok; decide
    · subst h; revert hok; decide
    · subst h; revert hok; decide
    · subst h; revert hok; decide
    · rcases hok with h1 | h1 | h1 | h1
      · subst h1
        revert h
        decide
      · have := hle _ _ h1.2
        have h90 : 'Z'.toNat = 90 := by decide
        omega
      · have := hle _ _ h1.2
        have h122 : 'z'.toNat = 122 := by decide
        omega
      · have := hle _ _ h1.2
        have h57 : '9'.toNat = 57 := by decide
        omega

/-- C40 at concrete strings. -/
theorem isIdent_values :
    dbx.IsIdent "user_id".toList = true ∧ dbx.IsIdent "_x9".toList = true ∧
    dbx.IsIdent "9x".toList = false ∧ dbx.IsIdent "a b".toList = false ∧
    dbx.IsIdent "a.b".toList = false ∧ dbx.IsIdent "añ".toList = false := by
  decide

/-! ## Closures -/

/-- What a run of `exec_clo` that returns was given and has done. -/
theorem exec_clo_done (instr : Instruction) (vm : VM) (code : Nat) (vmc : VM)
    (hrun0 : exec_clo instr vm = some (code, vmc)) :
    ∃ r frame f, vm.frameRef = some r ∧ vm.frames[r]? = some frame ∧
      vm.Functions[frame.funcIndex]? = some f ∧
      vmc.frames[r]? = some { frame with inClosure := true } ∧
      vmc.get instr.A = some (NewObject (.closure
        ⟨instr.B.Value,
          frame.closures ++ f.Closures.map (fun reg => ⟨reg, frame.values⟩)⟩)) := by
  revert code vmc
  intro code vmc hrun
  unfold exec_clo at hrun
  cases hr : vm.frameRef with
  | none => simp [hr] at hrun
  | some r =>
    rw [hr] at hrun
    simp only [Option.bind_eq_bind, Option.some_bind] at hrun
    cases hfr : vm.frames[r]? with
    | none => rw [hfr] at hrun; simp at hrun
    | some frame =>
      rw [hfr] at hrun
      simp only [Option.some_bind] at hrun
      cases hf : vm.Functions[frame.funcIndex]? with
      | none => rw [hf] at hrun; simp at hrun
      | some f =>
        rw [hf] at hrun
        simp only [Option.some_bind] at hrun
        cases hs : (vm.putFrame r { frame with inClosure := true }).set instr.A
            (NewObject (.closure ⟨instr.B.Value,
              frame.closures ++ f.Closures.map (fun reg => ⟨reg, frame.values⟩)⟩)) with
        | none => rw [hs] at hrun; simp at hrun
        | some vm2 =>
          rw [hs] at hrun
          simp only [Option.some_bind, Option.some.injEq, Prod.mk.injEq] at hrun
          obtain ⟨_, hvmc⟩ := hrun
          subst hvmc
          have hlt : r < vm.frames.length := (List.getElem?_eq_some_iff.mp hfr).1
          refine ⟨r, frame, f, rfl, hfr, hf, ?_, set_get _ _ _ _ hs⟩
          obtain ⟨cell, rf, _, _, hv2⟩ := set_frame_condition _ _ _ _ hs
          rw [hv2]
          simp [VM.putFrame, List.getElem?_set_self hlt]

/-- In a frame with an existing register `A`, `exec_clo` returns next; the state it
returns has the frame flagged and the closure in `A`. -/
theorem exec_clo_runs (instr : Instruction) (vm : VM) (r : Nat) (frame : stackFrame)
    (f : Function) (hr : vm.frameRef = some r) (hfr : vm.frames[r]? = some frame)
    (hf : vm.Functions[frame.funcIndex]? = some f) (hw : vm.writable instr.A = true) :
    ∃ vmc, exec_clo instr vm = some (vm_next, vmc) ∧ vmc.frameRef = some r ∧
      vmc.frames[r]? = some { frame with inClosure := true } ∧
      vmc.get instr.A = some (NewObject (.closure
        ⟨instr.B.Value,
          frame.closures ++ f.Closures.map (fun reg => ⟨reg, frame.values⟩)⟩)) := by
  have hw1 : (vm.putFrame r { frame with inClosure := true }).writable instr.A = true := by
    unfold VM.writable
    rw [putFrame_cell vm r frame hr hfr]
    exact hw
  obtain ⟨vm1, hs, hg, _, _⟩ := setNext_writable _ instr.A (NewObject (.closure
    ⟨instr.B.Value, frame.closures ++ f.Closures.map (fun reg => ⟨reg, frame.values⟩)⟩)) hw1
  have hset := (setNext_some _ _ _ _ _ hs).2
  have hrun : exec_clo instr vm = some (vm_next, vm1) := by
    unfold exec_clo
    simp only [hr, hfr, hf, Option.bind_eq_bind, Option.some_bind, hset]
  obtain ⟨r2, frame2, f2, hr2, hfr2, _, hfl, _⟩ := exec_clo_done instr vm vm_next vm1 hrun
  have e1 : r2 = r := Option.some.inj (hr2.symm.trans hr)
  subst e1
  have e2 : frame2 = frame := Option.some.inj (hfr2.symm.trans hfr)
  subst e2
  refine ⟨vm1, hrun, ?_, hfl, hg⟩
  obtain ⟨cell, rf, _, _, hv⟩ := set_frame_condition _ _ _ _ hset
  rw [hv]
  exact hr

/-- An `exec_ret` (not diverted to a finally, `fp > 0`) of a frame whose `inClosure` is
set leaves the frame cache and the frames as they are and writes no register but the
return cell of the caller. -/
theorem ret_keeps_captured (h : Host) (instr : Instruction) (vm : VM) :
    ∀ cur vm1 vm2 vm3 code F, vm.frameRef = some cur →
      h.returnFromFinally vm = (false, vm1) →
      (if 0 < vm1.fp then h.runFinalizables cur vm1 else vm1) = vm2 → 0 < vm2.fp →
      vm2.frames[cur]? = some F → F.inClosure = true →
      exec_ret h instr vm = some (code, vm3) →
      vm3.frameCache = vm2.frameCache ∧ vm3.frames = vm2.frames ∧
      ∀ c : closureRegister,
        (∀ prev cell, vm3.currentFrame = some prev → prev.retAddress ≠ Void →
          vm3.cell prev.retAddress = some cell → cell ≠ (c.values, (c.register : Int))) →
        vm3.readClosure c = vm2.readClosure c := by
  intro cur vm1 vm2 vm3 code F hcur hnf hpre hfp hF hin hrun
  obtain ⟨retValue, vm4, prev, vm5, Fx, hret, hlen, hrec, hprev, hset, hFx, hvm3, hcode⟩ :=
    exec_ret_pop h instr vm vm1 vm2 vm3 cur code hcur hnf hpre hfp hrun
  obtain ⟨h3f, h3r, h3c, h3p, h3k, h3g, h3t, h3K⟩ := exit_fields vm3 vm5 Fx.exit retValue hvm3
  have hv4 : vm4 = { vm2 with callStack := vm2.callStack.take vm2.fp, fp := vm2.fp - 1 } := by
    rw [recycle_inClosure
      { vm2 with callStack := vm2.callStack.take vm2.fp, fp := vm2.fp - 1 } cur F hF hin] at hrec
    exact (Option.some.inj hrec).symm
  by_cases hv : prev.retAddress = Void
  · simp only [hv, ne_eq, not_true_eq_false, if_false, Option.some.injEq] at hset
    have h5 : vm5 = vm4 := hset.symm
    refine ⟨by rw [h3k, h5, hv4], by rw [h3f, h5, hv4], ?_⟩
    intro c _
    simp only [VM.readClosure, h3r, h5, hv4]
  · simp only [ne_eq, hv, not_false_eq_true, if_true] at hset
    obtain ⟨cell, rf, hcell, hrf, hv5⟩ :=
      set_frame_condition vm4 vm5 prev.retAddress retValue hset
    have hnn : 0 ≤ cell.2 := set_cell_nonneg vm4 vm5 prev.retAddress retValue cell hset hcell
    have e5f : vm5.frames = vm4.frames := by rw [hv5]
    have e5k : vm5.frameCache = vm4.frameCache := by rw [hv5]
    have e5c : vm5.callStack = vm4.callStack := by rw [hv5]
    have e5p : vm5.fp = vm4.fp := by rw [hv5]
    have e5g : vm5.globals = vm4.globals := by rw [hv5]
    have e5r : vm5.regs = vm4.regs.set cell.1 (rf.set cell.2.toNat retValue) := by rw [hv5]
    refine ⟨by rw [h3k, e5k, hv4], by rw [h3f, e5f, hv4], ?_⟩
    intro c hc
    have hcur3 : vm3.currentFrame = some prev := by
      rw [← hprev]
      simp only [VM.currentFrame, VM.frameRef, h3f, h3c, h3p, e5f, e5c, e5p]
    have hcell3 : vm3.cell prev.retAddress = some cell := by
      rw [cell_congr vm3 vm4 (h3f.trans e5f) (h3c.trans e5c) (h3p.trans e5p) (h3g.trans e5g)]
      exact hcell
    have hne : cell ≠ (c.values, (c.register : Int)) := hc prev cell hcur3 hv hcell3
    have h42 : vm4.regs = vm2.regs := by rw [hv4]
    simp only [VM.readClosure, h3r, e5r, h42]
    rw [h42] at hrf
    by_cases h1 : cell.1 = c.values
    · have h2 : cell.2.toNat ≠ c.register := by
        intro h2
        apply hne
        have : cell.2 = (c.register : Int) := by omega
        exact Prod.ext h1 this
      have hlt : c.values < vm2.regs.length := by
        rw [← h1]
        exact (List.getElem?_eq_some_iff.mp hrf).1
      rw [← h1, List.getElem?_set_self (by rw [h1]; exact hlt), hrf]
      simp [List.getElem?_set_ne h2]
    · rw [List.getElem?_set_ne h1]

/-- C2: (a) `exec_clo`, executed in the frame `r` with an existing register `A`, returns
next; in the state `vmc` that it returns the frame is still the current one, its
`inClosure` is set, and `A` holds a closure whose new closure registers refer to the
register file of the frame.  If the frame then returns from `vmc` (`exec_ret` not
diverted to a finally, `fp > 0`, the helpers leaving the frame object as it is), nothing
is appended to `frameCache`, no frame changes, and every closure register of the closure
that is not the caller's return cell reads the value it read when the frame returned.
(b) Every run of `exec_clo` that returns has done so in a current frame and has flagged
it.  (c) Any `exec_ret` (not diverted to a finally, `fp > 0`) of a frame whose
`inClosure` is set appends nothing to `frameCache` and changes no frame; it writes no
register except the caller's return cell, so every closure register that is not that
cell reads, after the return, the value it read when the frame returned. -/
theorem closure_frame_kept (h : Host) (instr : Instruction) (vm : VM) :
    (∀ r frame f, vm.frameRef = some r → vm.frames[r]? = some frame →
      vm.Functions[frame.funcIndex]? = some f → vm.writable instr.A = true →
      ∃ vmc, exec_clo instr vm = some (vm_next, vmc) ∧ vmc.frameRef = some r ∧
        vmc.frames[r]? = some { frame with inClosure := true } ∧
        vmc.get instr.A = some (NewObject (.closure
          ⟨instr.B.Value,
            frame.closures ++ f.Closures.map (fun reg => ⟨reg, frame.values⟩)⟩)) ∧
        ∀ (ret : Instruction) (vm1 vm2 vm3 : VM) (code : Nat),
          h.returnFromFinally vmc = (false, vm1) →
          (if 0 < vm1.fp then h.runFinalizables r vm1 else vm1) = vm2 → 0 < vm2.fp →
          vm2.frames[r]? = vmc.frames[r]? →
          exec_ret h ret vmc = some (code, vm3) →
          vm3.frameCache = vm2.frameCache ∧ vm3.frames = vm2.frames ∧
          ∀ c ∈ frame.closures ++ f.Closures.map (fun reg => ⟨reg, frame.values⟩),
            (∀ prev cell, vm3.currentFrame = some prev → prev.retAddress ≠ Void →
              vm3.cell prev.retAddress = some cell →
              cell ≠ (c.values, (c.register : Int))) →
            vm3.readClosure c = vm2.readClosure c) ∧
    (∀ code vmc, exec_clo instr vm = some (code, vmc) →
      ∃ r frame f, vm.frameRef = some r ∧ vm.frames[r]? = some frame ∧
        vm.Functions[frame.funcIndex]? = some f ∧
        vmc.frames[r]? = some { frame with inClosure := true } ∧
        vmc.get instr.A = some (NewObject (.closure
          ⟨instr.B.Value,
            frame.closures ++ f.Closures.map (fun reg => ⟨reg, frame.values⟩)⟩))) ∧
    (∀ cur vm1 vm2 vm3 code F, vm.frameRef = some cur →
      h.returnFromFinally vm = (false, vm1) →
      (if 0 < vm1.fp then h.runFinalizables cur vm1 else vm1) = vm2 → 0 < vm2.fp →
      vm2.frames[cur]? = some F → F.inClosure = true →
      exec_ret h instr vm = some (code, vm3) →
      vm3.frameCache = vm2.frameCache ∧ vm3.frames = vm2.frames ∧
      ∀ c : closureRegister,
        (∀ prev cell, vm3.currentFrame = some prev → prev.retAddress ≠ Void →
          vm3.cell prev.retAddress = some cell → cell ≠ (c.values, (c.register : Int))) →
        vm3.readClosure c = vm2.readClosure c) := by
  refine ⟨?_, fun code vmc hrun => exec_clo_done instr vm code vmc hrun,
    ret_keeps_captured h instr vm⟩
  intro r frame f hr hfr hf hw
  obtain ⟨vmc, hrun, hrc, hflag, hget⟩ := exec_clo_runs instr vm r frame f hr hfr hf hw
  refine ⟨vmc, hrun, hrc, hflag, hget, ?_⟩
  intro ret vm1 vm2 vm3 code hnf hpre hfp hkeep hret
  obtain ⟨k1, k2, k3⟩ := ret_keeps_captured h ret vmc r vm1 vm2 vm3 code
    { frame with inClosure := true } hrc hnf hpre hfp (hkeep.trans hflag) rfl hret
  exact ⟨k1, k2, fun c _ hc => k3 c hc⟩

/-- C2 at a concrete state: `clo 1 1` in the callee of `vmTwo` returns `vmTwoClo`, where
the callee is flagged and its register 1 holds a closure over its register 0; `ret 1`
from `vmTwoClo` returns `vmTwoCloAfter`, where nothing is cached, the frames are as
before, and the closure register still reads 42. -/
theorem closure_frame_kept_witness :
    exec_clo ⟨loc 1, ⟨.AddrFunc, 1⟩, Void⟩ vmTwo = some (vm_next, vmTwoClo) ∧
    vmTwoClo.frames[(1 : Nat)]? = some ⟨1, 5, Void, 1, [], [9], false, true⟩ ∧
    vmTwoClo.get (loc 1) = some (NewObject (.closure ⟨1, [⟨0, 1⟩]⟩)) ∧
    exec_ret plainHost ⟨loc 1, Void, Void⟩ vmTwoClo = some (vm_continue, vmTwoCloAfter) ∧
    vmTwoCloAfter.frameCache = vmTwoClo.frameCache ∧ vmTwoCloAfter.frames = vmTwoClo.frames ∧
    vmTwoCloAfter.readClosure ⟨0, 1⟩ = vmTwoClo.readClosure ⟨0, 1⟩ ∧
    vmTwoCloAfter.readClosure ⟨0, 1⟩ = some (.int 42) := by
  obtain ⟨vmc, hrun, _, hflag, hget, hchain⟩ :=
    (closure_frame_kept plainHost ⟨loc 1, ⟨.AddrFunc, 1⟩, Void⟩ vmTwo).1 1
      ⟨1, 5, Void, 1, [], [9], false, false⟩ ⟨[0]⟩ rfl rfl rfl rfl
  have hclo : exec_clo ⟨loc 1, ⟨.AddrFunc, 1⟩, Void⟩ vmTwo = some (vm_next, vmTwoClo) := rfl
  have hvmc : vmc = vmTwoClo := by
    rw [hclo] at hrun
    exact (Prod.mk.inj (Option.some.inj hrun)).2.symm
  subst hvmc
  have hret : exec_ret plainHost ⟨loc 1, Void, Void⟩ vmTwoClo =
      some (vm_continue, vmTwoCloAfter) := rfl
  obtain ⟨k1, k2, k3⟩ := hchain ⟨loc 1, Void, Void⟩ vmTwoClo vmTwoClo vmTwoCloAfter
    vm_continue rfl rfl (by decide) rfl hret
  refine ⟨hrun, hflag, hget, hret, k1, k2, ?_, rfl⟩
  apply k3 ⟨0, 1⟩ (by decide)
  intro prev cell hprev _ hcell
  have hp : prev = ⟨0, 3, loc 1, 0, [], [], false, false⟩ := (Option.some.inj hprev).symm
  subst hp
  have hc : cell = (0, 1) := (Option.some.inj hcell).symm
  subst hc
  decide

end Dune
